import Mathlib

/-!
# HoneyBadger: the TCP connection state machine and segment-ring overlap engine

A shallow embedding of `inquisition.go` (package `HoneyBadger`): sequence
arithmetic, the reassembly ring, the overlap search and extraction, and the
per-connection finite state machine, followed by theorems about them.

Conventions of the embedding.

* Go `int`, `int64` (`tcpassembly.Sequence`) are `Int`; `uint32` header fields
  are `Nat`; `uint8` state codes are `Nat` with the numeric values of the
  source (the two closing sub-machines share the codes 0 and 1).
* A `*ring.Ring` is the list of cell values read from the pointed cell in
  `Next` order.  Another cell of the same ring is named by its offset, the
  number of `Next` steps from the ring pointer; pointer equality of cells is
  equality of offsets.
* A Go `panic` (explicit or a run-time one) and a loop that never exits are
  `Fault`s.
* The calls made on the `AttackLogger` and the calls of `Connection.Close`
  are recorded in the connection (`reports`, `closeCount`); the time stamp of
  a report is not modelled.
-/

namespace HoneyBadger

/-! ## Sequence numbers (`tcpassembly.Sequence`) -/

/-! `tcpassembly.Sequence` is declared outside this repository (gopacket); it is
an `int64` that holds a 32-bit sequence number, and is `Int` here. -/

/-- Modelled from the spec: `signed32`, the two's complement 32-bit reading of
an integer (spec section 3, "difference(a, b) = signed32(b - a)"). -/
def signed32 (x : Int) : Int :=
  if x % 4294967296 < 2147483648 then x % 4294967296 else x % 4294967296 - 4294967296

/-- Modelled from the spec: `Sequence.Difference` of gopacket, which is not part
of this repository.  Spec section 3: `difference(a, b) = signed32(b - a)`,
positive if `b` lies ahead of `a`, zero if equal, negative otherwise. -/
def Sequence.Difference (s t : Int) : Int := signed32 (t - s)

/-- Modelled from the spec: `Sequence.Add` of gopacket, which is not part of
this repository.  Spec section 3: `add(a, n)` is `(a + n) mod 2^32`. -/
def Sequence.Add (s : Int) (t : Int) : Int := (s + t) % 4294967296

/-! ## Constants -/

def MAX_CONN_PACKETS : Nat := 40
def FIRST_FEW_PACKETS : Nat := 12

def TCP_LISTEN : Nat := 0
def TCP_CONNECTION_REQUEST : Nat := 1
def TCP_CONNECTION_ESTABLISHED : Nat := 2
def TCP_DATA_TRANSFER : Nat := 3
def TCP_CONNECTION_CLOSING : Nat := 4
def TCP_CLOSED : Nat := 5

def TCP_FIN_WAIT1 : Nat := 0
def TCP_FIN_WAIT2 : Nat := 1
def TCP_TIME_WAIT : Nat := 2
def TCP_CLOSING : Nat := 3

def TCP_CLOSE_WAIT : Nat := 0
def TCP_LAST_ACK : Nat := 1

/-! ## Data -/

abbrev Byte := Nat

/-- Modelled from the spec: an IPv4 address `A.B.C.D` (the address type comes
from gopacket). -/
structure IPv4Addr where
  a : Nat
  b : Nat
  c : Nat
  d : Nat
deriving DecidableEq, Repr

/-- Modelled from the spec: `TcpIpFlow` is declared in a file of the repository
that is not available (only its test is).  Spec section 3, FlowKey: the
four-tuple `(srcIP, srcPort, dstIP, dstPort)`. -/
structure TcpIpFlow where
  srcIP : IPv4Addr
  srcPort : Nat
  dstIP : IPv4Addr
  dstPort : Nat
deriving DecidableEq, Repr

/-- Modelled from the spec: `reverse()` swaps the src/dst pairs. -/
def TcpIpFlow.Reverse (f : TcpIpFlow) : TcpIpFlow :=
  { srcIP := f.dstIP, srcPort := f.dstPort, dstIP := f.srcIP, dstPort := f.srcPort }

/-- Modelled from the spec: equality of flows is tuple equality. -/
def TcpIpFlow.Equal (f g : TcpIpFlow) : Bool := decide (f = g)

/-- The fields of `PacketManifest` that the state machine reads: the TCP flags,
the 32-bit sequence and acknowledgement numbers, and the payload. -/
structure PacketManifest where
  SYN : Bool
  ACK : Bool
  FIN : Bool
  RST : Bool
  Seq : Nat
  Ack : Nat
  Payload : List Byte
deriving DecidableEq, Repr

/-- The header fields of a packet are 32-bit values. -/
def PacketManifest.wf (p : PacketManifest) : Prop := p.Seq < 4294967296 ∧ p.Ack < 4294967296

structure Reassembly where
  Start : Bool
  End : Bool
  Seq : Int
  Bytes : List Byte
deriving DecidableEq, Repr

/-- A call made on the `AttackLogger`. -/
inductive Report where
  | hijack (flow : TcpIpFlow)
  | injection (flow : TcpIpFlow) (attemptPayload overlap : List Byte)
      (start end_ : Int) (overlapStart overlapEnd : Int)
deriving DecidableEq, Repr

def Report.isInjection : Report → Bool
  | .injection _ _ _ _ _ _ _ => true
  | .hijack _ => false

def Report.isHijack : Report → Bool
  | .hijack _ => true
  | .injection _ _ _ _ _ _ _ => false

/-- Ways in which a call does not return. -/
inductive Fault where
  /-- `panic("wtf; head or tail is nil\n")` in `getOverlapBytes`. -/
  | nilHeadOrTail
  /-- `panic("sliceStart < 0 || sliceEnd < 0")` in `getRingSlice`. -/
  | sliceNegative
  /-- The `sliceStart >= head len` panic of `getRingSlice`. -/
  | sliceStartBeyondHead
  /-- The "impossible; sliceEnd is greater than ring segment" panic. -/
  | sliceEndBeyondTail
  /-- `panic("head == tail")` in `getRingSlice`. -/
  | headEqTail
  /-- Run-time panic: type assertion `Value.(Reassembly)` on an empty cell, or
  use of a nil ring pointer. -/
  | nilValue
  /-- Run-time panic: slice bounds out of range. -/
  | sliceBounds
  /-- The loop never exits. -/
  | noReturn
deriving DecidableEq, Repr

deriving instance DecidableEq for Except

/-! ## The ring (`container/ring`) -/

abbrev Ring := List (Option Reassembly)

/-- `ring.New(n)`: `n` cells, every `Value` nil. -/
def Ring.New (n : Nat) : Ring := List.replicate n none

/-- `r.Next()` as a ring pointer: the same cells read from the next one. -/
def Ring.Next : Ring → Ring
  | [] => []
  | x :: xs => xs ++ [x]

/-- The assignment `r.Value = v`. -/
def Ring.setValue : Ring → Reassembly → Ring
  | [], _ => []
  | _ :: xs, v => some v :: xs

/-- The cell `Next()` of the cell at offset `i`. -/
def Ring.nextOff (r : Ring) (i : Nat) : Nat := (i + 1) % r.length

/-- The cell `Prev()` of the cell at offset `i`. -/
def Ring.prevOff (r : Ring) (i : Nat) : Nat := (i + r.length - 1) % r.length

/-- The `Value` of the cell at offset `i`, `none` when it holds no `Reassembly`. -/
def Ring.valueAt (r : Ring) (i : Nat) : Option Reassembly := (r.get? i).join

/-- The expression `Seq.Add(len(Bytes) - 1)` (`getRingSegmentLastSequence`). -/
def getRingSegmentLastSequence (s : Reassembly) : Int :=
  Sequence.Add s.Seq ((s.Bytes.length : Int) - 1)

/-! ## Overlap search -/

/-- The `for current != ringPtr` loop of `getHeadFromRing`.  `ok` of the source
is, at the top of the loop, whether `current` holds a `Reassembly`.  One unit
of fuel is one evaluation of the loop condition. -/
def getHeadLoop (ringPtr : Ring) (start end_ : Int) :
    Nat → Nat → Option Nat → Except Fault (Option Nat)
  | 0, _, _ => .error Fault.noReturn
  | fuel + 1, current, prev =>
    if current = 0 then .ok none
    else
      match ringPtr.valueAt current with
      | none =>
        match prev.bind ringPtr.valueAt with
        | none => .error Fault.nilValue
        | some pv =>
          if Sequence.Difference pv.Seq end_ < 0 then .ok none else .ok prev
      | some cv =>
        if Sequence.Difference cv.Seq start = 0 then .ok (some current)
        else if Sequence.Difference cv.Seq start > 0 then
          if Sequence.Difference start (getRingSegmentLastSequence cv) = 0 then .ok (some current)
          else if Sequence.Difference start (getRingSegmentLastSequence cv) > 0 then
            .ok (some current)
          else .ok none
        else getHeadLoop ringPtr start end_ fuel (ringPtr.prevOff current) (some current)

/-- `getHeadFromRing`: the offset of the head cell, or `none` for nil. -/
def getHeadFromRing (ringPtr : Ring) (start end_ : Int) : Except Fault (Option Nat) :=
  match ringPtr.valueAt (ringPtr.prevOff 0) with
  | none => .ok none
  | some cv =>
    if Sequence.Difference start (getRingSegmentLastSequence cv) < 0 then .ok none
    else getHeadLoop ringPtr start end_ ringPtr.length (ringPtr.prevOff 0) none

/-- The `for` loop of `getTailFromRing`; one unit of fuel is one iteration. -/
def getTailLoop (ringPtr : Ring) (end_ : Int) : Nat → Nat → Except Fault Nat
  | 0, _ => .error Fault.noReturn
  | fuel + 1, current =>
    match ringPtr.valueAt current with
    | none => .error Fault.nilValue
    | some cv =>
      if Sequence.Difference (getRingSegmentLastSequence cv) end_ ≤ 0 then .ok current
      else
        match ringPtr.valueAt (ringPtr.nextOff current) with
        | none => .ok current
        | some _ => getTailLoop ringPtr end_ fuel (ringPtr.nextOff current)

/-- `getTailFromRing`.  The only loop variable that is read is `current`, so a
run that has not left the loop after as many iterations as the ring has cells
is back at a cell it has visited and never leaves. -/
def getTailFromRing (ringPtr : Ring) (head : Nat) (end_ : Int) : Except Fault Nat :=
  getTailLoop ringPtr end_ ringPtr.length head

/-- The search of `getOverlapRings` on the ring it has selected. -/
def getOverlapRingsOn (ringPtr : Ring) (start end_ : Int) :
    Except Fault (Option (Nat × Nat)) :=
  match getHeadFromRing ringPtr start end_ with
  | .error e => .error e
  | .ok none => .ok none
  | .ok (some head) =>
    match getTailFromRing ringPtr head end_ with
    | .error e => .error e
    | .ok tail => .ok (some (head, tail))

/-! ## Overlap extraction -/

def getStartSequence (head : Reassembly) (start : Int) : Int :=
  if Sequence.Difference head.Seq start ≥ 0 then start else head.Seq

def getEndSequence (tail : Reassembly) (end_ : Int) : Int :=
  if Sequence.Difference (getRingSegmentLastSequence tail) end_ ≤ 0 then end_
  else getRingSegmentLastSequence tail

def getHeadRingOffset (head : Reassembly) (start : Int) : Int :=
  Sequence.Difference head.Seq start

def getStartOverlapSequenceAndOffset (head : Reassembly) (start : Int) : Int × Int :=
  (getStartSequence head start, Sequence.Difference start (getStartSequence head start))

def getTailRingOffset (tail : Reassembly) (end_ : Int) : Int :=
  Sequence.Difference end_ (getRingSegmentLastSequence tail)

def getEndOverlapSequenceAndOffset (tail : Reassembly) (end_ : Int) : Int × Int :=
  (getEndSequence tail end_, Sequence.Difference (getEndSequence tail end_) end_)

/-- A Go slice expression `b[lo:hi]`; the capacity of a stored byte slice is
taken to be its length. -/
def sliceBytes (b : List Byte) (lo hi : Int) : Except Fault (List Byte) :=
  if 0 ≤ lo ∧ lo ≤ hi ∧ hi ≤ (b.length : Int) then .ok ((b.take hi.toNat).drop lo.toNat)
  else .error Fault.sliceBounds

/-- The loop of `getRingSlice` over the cells after `head`, compared with the
tail by sequence number; one unit of fuel is one evaluation of its condition. -/
def getRingSliceLoop (ringPtr : Ring) (tailSeq : Int) :
    Nat → Nat → List Byte → Except Fault (List Byte)
  | 0, _, _ => .error Fault.noReturn
  | fuel + 1, current, overlapBytes =>
    match ringPtr.valueAt current with
    | none => .error Fault.nilValue
    | some cv =>
      if cv.Seq ≠ tailSeq then
        getRingSliceLoop ringPtr tailSeq fuel (ringPtr.nextOff current) (overlapBytes ++ cv.Bytes)
      else .ok overlapBytes

/-- `getRingSlice`; `head` and `tail` are cells of `ringPtr`. -/
def getRingSlice (ringPtr : Ring) (head tail : Nat) (sliceStart sliceEnd : Int) :
    Except Fault (List Byte) :=
  if sliceStart < 0 ∨ sliceEnd < 0 then .error Fault.sliceNegative
  else
    match ringPtr.valueAt head with
    | none => .error Fault.nilValue
    | some hv =>
      if sliceStart ≥ (hv.Bytes.length : Int) then .error Fault.sliceStartBeyondHead
      else
        match ringPtr.valueAt tail with
        | none => .error Fault.nilValue
        | some tv =>
          if sliceEnd > (tv.Bytes.length : Int) then .error Fault.sliceEndBeyondTail
          else if head = tail then .error Fault.headEqTail
          else
            match getRingSliceLoop ringPtr tv.Seq ringPtr.length (ringPtr.nextOff head)
                (hv.Bytes.drop sliceStart.toNat) with
            | .error e => .error e
            | .ok overlapBytes => .ok (overlapBytes ++ tv.Bytes.take sliceEnd.toNat)

/-- `Connection.getOverlapBytes`; the receiver is not used by the source, the
ring that `head` and `tail` point into is passed instead.  Returns
`(overlapBytes, overlapStartSlice, overlapEndSlice)`. -/
def getOverlapBytes (ringPtr : Ring) (head tail : Option Nat) (start end_ : Int) :
    Except Fault (List Byte × Int × Int) :=
  match head, tail with
  | some h, some t =>
    match ringPtr.valueAt h with
    | none => .error Fault.nilValue
    | some hv =>
      let sequenceStart := (getStartOverlapSequenceAndOffset hv start).1
      let overlapStartSlice := (getStartOverlapSequenceAndOffset hv start).2
      let headOffset := getHeadRingOffset hv sequenceStart
      match ringPtr.valueAt t with
      | none => .error Fault.nilValue
      | some tv =>
        let sequenceEnd := (getEndOverlapSequenceAndOffset tv end_).1
        let overlapEndOffset := (getEndOverlapSequenceAndOffset tv end_).2
        let tailOffset := getTailRingOffset tv sequenceEnd
        if hv.Seq = tv.Seq then
          let endOffset := (hv.Bytes.length : Int) - tailOffset
          let overlapEndSlice := (hv.Bytes.length : Int) - tailOffset + overlapStartSlice - headOffset
          match sliceBytes hv.Bytes headOffset endOffset with
          | .error e => .error e
          | .ok overlapBytes => .ok (overlapBytes, overlapStartSlice, overlapEndSlice)
        else
          let totalLen := Sequence.Difference start end_ + 1
          let overlapEndSlice := totalLen - overlapEndOffset
          let tailSlice := (tv.Bytes.length : Int) - tailOffset
          match getRingSlice ringPtr h t headOffset tailSlice with
          | .error e => .error e
          | .ok overlapBytes => .ok (overlapBytes, overlapStartSlice, overlapEndSlice)
  | _, _ => .error Fault.nilHeadOrTail

/-! ## The connection -/

structure Connection where
  state : Nat
  clientState : Nat
  serverState : Nat
  clientFlow : TcpIpFlow
  serverFlow : TcpIpFlow
  closingFlow : TcpIpFlow
  clientNextSeq : Int
  serverNextSeq : Int
  hijackNextAck : Int
  packetCount : Nat
  ClientStreamRing : Ring
  ServerStreamRing : Ring
  /-- The calls made so far on `AttackLogger`, oldest first. -/
  reports : List Report
  /-- The number of calls of `Close` so far. -/
  closeCount : Nat
deriving DecidableEq, Repr

/-- The result of handling a packet: a normal return with the new connection,
or an abort, with the connection as it was when the fault happened. -/
inductive Outcome where
  | ok (c : Connection)
  | abort (why : Fault) (c : Connection)
deriving DecidableEq, Repr

/-- The zero value of `TcpIpFlow`. -/
def TcpIpFlow.zero : TcpIpFlow :=
  { srcIP := ⟨0, 0, 0, 0⟩, srcPort := 0, dstIP := ⟨0, 0, 0, 0⟩, dstPort := 0 }

def NewConnection : Connection :=
  { state := TCP_LISTEN, clientState := 0, serverState := 0,
    clientFlow := TcpIpFlow.zero, serverFlow := TcpIpFlow.zero, closingFlow := TcpIpFlow.zero,
    clientNextSeq := 0, serverNextSeq := 0, hijackNextAck := 0, packetCount := 0,
    ClientStreamRing := Ring.New MAX_CONN_PACKETS,
    ServerStreamRing := Ring.New MAX_CONN_PACKETS,
    reports := [], closeCount := 0 }

def Connection.Close (c : Connection) : Connection :=
  { c with closeCount := c.closeCount + 1 }

/-- The variables that `nextSeqPtr`, `statePtr`, ... of the source point to are
selected by the side of the connection. -/
inductive Side where
  | client
  | server
deriving DecidableEq, Repr

def Side.other : Side → Side
  | .client => .server
  | .server => .client

def Connection.nextSeq (c : Connection) : Side → Int
  | .client => c.clientNextSeq
  | .server => c.serverNextSeq

def Connection.setNextSeq (c : Connection) (s : Side) (v : Int) : Connection :=
  match s with
  | .client => { c with clientNextSeq := v }
  | .server => { c with serverNextSeq := v }

def Connection.sideState (c : Connection) : Side → Nat
  | .client => c.clientState
  | .server => c.serverState

def Connection.setSideState (c : Connection) (s : Side) (v : Nat) : Connection :=
  match s with
  | .client => { c with clientState := v }
  | .server => { c with serverState := v }

def Connection.detectHijack (c : Connection) (p : PacketManifest) (flow : TcpIpFlow) : Connection :=
  if !flow.Equal c.serverFlow then c
  else if p.ACK && p.SYN then
    if Sequence.Difference (p.Ack : Int) c.hijackNextAck = 0 then
      { c with reports := c.reports ++ [Report.hijack flow] }
    else c
  else c

/-- The ring that `getOverlapRings` selects for a packet of `flow`. -/
def Connection.overlapRing (c : Connection) (flow : TcpIpFlow) : Ring :=
  if flow.Equal c.clientFlow then c.ServerStreamRing else c.ClientStreamRing

def Connection.getOverlapRings (c : Connection) (p : PacketManifest) (flow : TcpIpFlow) :
    Except Fault (Option (Nat × Nat)) :=
  getOverlapRingsOn (c.overlapRing flow) (p.Seq : Int)
    (Sequence.Add (p.Seq : Int) ((p.Payload.length : Int) - 1))

def Connection.detectInjection (c : Connection) (p : PacketManifest) (flow : TcpIpFlow) : Outcome :=
  match c.getOverlapRings p flow with
  | .error e => .abort e c
  | .ok ht =>
    -- a nil head or tail is only logged here
    match getOverlapBytes (c.overlapRing flow) (ht.map Prod.fst) (ht.map Prod.snd) (p.Seq : Int)
        (Sequence.Add (p.Seq : Int) ((p.Payload.length : Int) - 1)) with
    | .error e => .abort e c
    | .ok (overlapBytes, startOffset, endOffset) =>
      match sliceBytes p.Payload startOffset endOffset with
      | .error e => .abort e c
      | .ok attempt =>
        if overlapBytes ≠ attempt then
          .ok { c with reports := c.reports ++ [Report.injection flow p.Payload overlapBytes
                  (p.Seq : Int) (Sequence.Add (p.Seq : Int) ((p.Payload.length : Int) - 1))
                  startOffset endOffset] }
        else .ok c

def Connection.stateListen (c : Connection) (p : PacketManifest) (flow : TcpIpFlow) : Connection :=
  if p.SYN && !p.ACK then
    { c with
      state := TCP_CONNECTION_REQUEST
      clientFlow := flow
      serverFlow := flow.Reverse
      clientNextSeq := Sequence.Add (p.Seq : Int) ((p.Payload.length : Int) + 1)
      hijackNextAck := Sequence.Add (p.Seq : Int) ((p.Payload.length : Int) + 1) }
  else c

def Connection.stateConnectionRequest (c : Connection) (p : PacketManifest) (flow : TcpIpFlow) :
    Connection :=
  if !flow.Equal c.serverFlow then c
  else if !(p.SYN && p.ACK) then c
  else if Sequence.Difference c.clientNextSeq (p.Ack : Int) ≠ 0 then c
  else
    { c with
      state := TCP_CONNECTION_ESTABLISHED
      serverNextSeq := Sequence.Add (p.Seq : Int) ((p.Payload.length : Int) + 1) }

def Connection.stateConnectionEstablished (c : Connection) (p : PacketManifest) (flow : TcpIpFlow) :
    Connection :=
  let c := c.detectHijack p flow
  if !flow.Equal c.clientFlow then c
  else if !p.ACK || p.SYN then c
  else if Sequence.Difference (p.Seq : Int) c.clientNextSeq ≠ 0 then c
  else if Sequence.Difference (p.Ack : Int) c.serverNextSeq ≠ 0 then c
  else { c with state := TCP_DATA_TRANSFER }

def Connection.stateDataTransfer (c : Connection) (p : PacketManifest) (flow : TcpIpFlow) : Outcome :=
  let c := if c.packetCount < FIRST_FEW_PACKETS then c.detectHijack p flow else c
  let side := if flow.Equal c.clientFlow then Side.client else Side.server
  let diff := Sequence.Difference (p.Seq : Int) (c.nextSeq side)
  if diff > 0 then c.detectInjection p flow
  else if diff = 0 then
    if p.FIN then
      .ok (((({ ({ c with closingFlow := c.clientFlow }).setNextSeq side (c.nextSeq side + 1) with
                state := TCP_CONNECTION_CLOSING }).setSideState side TCP_FIN_WAIT1).setSideState
                side.other TCP_CLOSE_WAIT))
    else if p.RST then
      .ok ({ c with state := TCP_CLOSED }).Close
    else if p.Payload.length > 0 then
      let reassembly : Reassembly :=
        { Start := false, End := false, Seq := (p.Seq : Int), Bytes := p.Payload }
      let c :=
        if flow = c.clientFlow then
          { c with ServerStreamRing := (c.ServerStreamRing.setValue reassembly).Next }
        else
          { c with ClientStreamRing := (c.ClientStreamRing.setValue reassembly).Next }
      .ok (c.setNextSeq side (Sequence.Add (p.Seq : Int) (p.Payload.length : Int)))
    else .ok c
  else .ok c

def Connection.stateFinWait1 (c : Connection) (p : PacketManifest) (side : Side) : Connection :=
  if Sequence.Difference (p.Seq : Int) (c.nextSeq side) ≠ 0 then c
  else if p.ACK then
    if Sequence.Difference (p.Ack : Int) (c.nextSeq side.other) ≠ 0 then c
    else if p.FIN then
      ((c.setSideState side TCP_CLOSING).setSideState side.other TCP_LAST_ACK).setNextSeq side
        (Sequence.Add (p.Seq : Int) ((p.Payload.length : Int) + 1))
    else c.setSideState side TCP_FIN_WAIT2
  else c

def Connection.stateFinWait2 (c : Connection) (p : PacketManifest) (side : Side) : Connection :=
  if Sequence.Difference (p.Seq : Int) (c.nextSeq side) = 0 then
    if p.ACK && p.FIN then
      if Sequence.Difference (p.Ack : Int) (c.nextSeq side.other) ≠ 0 then c
      else (c.setNextSeq side (c.nextSeq side + 1)).setSideState side TCP_TIME_WAIT
    else c
  else c

def Connection.stateCloseWait (c : Connection) (_p : PacketManifest) : Connection := c

def Connection.stateTimeWait (c : Connection) (_p : PacketManifest) : Connection := c

def Connection.stateClosing (c : Connection) (_p : PacketManifest) : Connection := c

def Connection.stateLastAck (c : Connection) (p : PacketManifest) (side : Side) : Connection :=
  if Sequence.Difference (p.Seq : Int) (c.nextSeq side) = 0 then
    if p.ACK && (!p.FIN && !p.SYN) then
      if Sequence.Difference (p.Ack : Int) (c.nextSeq side.other) ≠ 0 then c
      else ({ c with state := TCP_CLOSED }).Close
    else c
  else c

def Connection.stateConnectionClosing (c : Connection) (p : PacketManifest) (flow : TcpIpFlow) :
    Connection :=
  let side := if c.clientFlow.Equal flow then Side.client else Side.server
  if flow.Equal c.closingFlow then
    if c.sideState side = TCP_CLOSE_WAIT then c.stateCloseWait p
    else if c.sideState side = TCP_LAST_ACK then c.stateLastAck p side
    else c
  else
    if c.sideState side = TCP_FIN_WAIT1 then c.stateFinWait1 p side
    else if c.sideState side = TCP_FIN_WAIT2 then c.stateFinWait2 p side
    else if c.sideState side = TCP_TIME_WAIT then c.stateTimeWait p
    else if c.sideState side = TCP_CLOSING then c.stateClosing p
    else c

def Connection.stateClosed (c : Connection) (_p : PacketManifest) (_flow : TcpIpFlow) : Connection := c

def Connection.receivePacket (c : Connection) (p : PacketManifest) (flow : TcpIpFlow) : Outcome :=
  let c := { c with packetCount := (c.packetCount + 1) % 18446744073709551616 }
  if c.state = TCP_LISTEN then .ok (c.stateListen p flow)
  else if c.state = TCP_CONNECTION_REQUEST then .ok (c.stateConnectionRequest p flow)
  else if c.state = TCP_CONNECTION_ESTABLISHED then .ok (c.stateConnectionEstablished p flow)
  else if c.state = TCP_DATA_TRANSFER then c.stateDataTransfer p flow
  else if c.state = TCP_CONNECTION_CLOSING then .ok (c.stateConnectionClosing p flow)
  else if c.state = TCP_CLOSED then .ok (c.stateClosed p flow)
  else .ok c

/-- Feed a list of packets, in order, stopping at the first abort. -/
def Connection.receivePackets (c : Connection) : List (PacketManifest × TcpIpFlow) → Outcome
  | [] => .ok c
  | (p, flow) :: rest =>
    match c.receivePacket p flow with
    | .ok c1 => c1.receivePackets rest
    | .abort e c1 => .abort e c1

/-! ## The stored stream of a ring -/

/-- The stored segments of a ring, read from the ring pointer in `Next` order:
oldest first. -/
def Ring.segments (r : Ring) : List Reassembly := r.filterMap id

/-- The stored stream: the bytes of the stored segments, oldest first.  Its
first byte has the sequence number of the oldest stored segment. -/
def Ring.stream (r : Ring) : List Byte := (r.segments.map (fun s => s.Bytes)).flatten

/-- Every segment starts where the one before it ends:
`s2.Seq == s1.Seq.Add(len(s1.Bytes))`. -/
def Contiguous : List Reassembly → Bool
  | s1 :: s2 :: rest =>
    decide (s2.Seq = Sequence.Add s1.Seq (s1.Bytes.length : Int)) && Contiguous (s2 :: rest)
  | _ => true

/-- A ring of contiguous segments: read from the ring pointer, the empty cells
come first and are followed by the stored segments, oldest to newest; every
stored segment is non-empty and starts where the one before it ends. -/
def RingContiguous (r : Ring) : Prop :=
  r = List.replicate (r.length - r.segments.length) none ++ r.segments.map some ∧
    (∀ s ∈ r.segments, s.Bytes ≠ []) ∧ Contiguous r.segments = true

/-- The sequence number `x` is `px` numbers after `b`, modulo 2^32. -/
def SeqAt (b x px : Int) : Prop := ∃ q : Int, x = b + px + 4294967296 * q

/-- The number of bytes stored in the first `j` segments. -/
def bytesBefore (segs : List Reassembly) (j : Nat) : Nat :=
  ((segs.take j).map (fun s => s.Bytes)).flatten.length

/-- The bytes stored in the segments from the `j`-th on. -/
def bytesFrom (segs : List Reassembly) (j : Nat) : List Byte :=
  ((segs.drop j).map (fun s => s.Bytes)).flatten

/-- The position of the sequence number `x` in the stored stream of `r`: its
signed distance (`Difference`) from the first byte of the oldest stored segment. -/
def Ring.position (r : Ring) (x : Int) : Int :=
  match r.segments.head? with
  | some sb => Sequence.Difference sb.Seq x
  | none => 0

/-- The bytes of the stored stream at the positions `u .. v`, both included. -/
def Ring.streamSlice (r : Ring) (u v : Int) : List Byte :=
  (r.stream.drop u.toNat).take (v - u + 1).toNat

/-! ## Example inputs -/

/-- The flow `1.2.3.4:1-2.3.4.5:2` of the tests. -/
def exampleFlow : TcpIpFlow :=
  { srcIP := ⟨1, 2, 3, 4⟩, srcPort := 1, dstIP := ⟨2, 3, 4, 5⟩, dstPort := 2 }

/-- The connection after client SYN seq=1000 and server SYN+ACK seq=5000 ack=1001. -/
def establishedExample : Connection :=
  { NewConnection with
    state := TCP_CONNECTION_ESTABLISHED, clientFlow := exampleFlow,
    serverFlow := exampleFlow.Reverse, clientNextSeq := 1001, serverNextSeq := 5001,
    hijackNextAck := 1001, packetCount := 2 }

/-- The connection after the clean handshake 1000/5000 and the client data
segment `(1001, "abc")`. -/
def dataTransferExample : Connection :=
  { NewConnection with
    state := TCP_DATA_TRANSFER, clientFlow := exampleFlow,
    serverFlow := exampleFlow.Reverse, clientNextSeq := 1004, serverNextSeq := 5001,
    hijackNextAck := 1001, packetCount := 4,
    ServerStreamRing := List.replicate 39 none ++
      [some { Start := false, End := false, Seq := 1001, Bytes := [97, 98, 99] }] }

/-- The connection after a clean handshake with client initial sequence
`0xFFFFFFFD`, so that `clientNextSeq = 0xFFFFFFFE`. -/
def wrapExample : Connection :=
  { NewConnection with
    state := TCP_DATA_TRANSFER, clientFlow := exampleFlow,
    serverFlow := exampleFlow.Reverse, clientNextSeq := 4294967294, serverNextSeq := 5001,
    hijackNextAck := 4294967294, packetCount := 3 }

/-- The ring after appending the forty one-byte segments `(1000 + i, [i])`,
`i = 0 .. 39`, to `ring.New(40)`. -/
def fullRingExample : Ring :=
  (List.range 40).foldl
    (fun (r : Ring) (i : Nat) =>
      (r.setValue { Start := false, End := false, Seq := 1000 + (i : Int), Bytes := [i] }).Next)
    (Ring.New MAX_CONN_PACKETS)

/-- The forty client data packets `seq = 1001 + i`, payload `[i]`. -/
def fortyDataPackets : List (PacketManifest × TcpIpFlow) :=
  (List.range 40).map
    (fun i => (⟨false, true, false, false, 1001 + i, 5001, [i]⟩, exampleFlow))

/-- The clean handshake 1000/5000 on `exampleFlow`. -/
def handshakePackets : List (PacketManifest × TcpIpFlow) :=
  [(⟨true, false, false, false, 1000, 0, []⟩, exampleFlow),
   (⟨true, true, false, false, 5000, 1001, []⟩, exampleFlow.Reverse),
   (⟨false, true, false, false, 1001, 5001, []⟩, exampleFlow)]

/-- The connection after the handshake and the forty client data packets: the
server-side ring is full and its oldest stored segment is `(1001, [0])`. -/
def fullConnectionExample : Connection :=
  { NewConnection with
    state := TCP_DATA_TRANSFER, clientFlow := exampleFlow,
    serverFlow := exampleFlow.Reverse, clientNextSeq := 1041, serverNextSeq := 5001,
    hijackNextAck := 1001, packetCount := 43,
    ServerStreamRing := (List.range 40).map
      (fun (i : Nat) => some { Start := false, End := false, Seq := 1001 + (i : Int), Bytes := [i] }) }

/-- The connection right after the clean handshake 1000/5000: DATA_TRANSFER,
both rings still empty. -/
def handshakeDoneExample : Connection :=
  { NewConnection with
    state := TCP_DATA_TRANSFER, clientFlow := exampleFlow,
    serverFlow := exampleFlow.Reverse, clientNextSeq := 1001, serverNextSeq := 5001,
    hijackNextAck := 1001, packetCount := 3 }

/-- The thirty-nine client data packets `seq = 1004 + i`, payload `[i]`, that
follow the segment `(1001, "abc")`. -/
def thirtyNineDataPackets : List (PacketManifest × TcpIpFlow) :=
  (List.range 39).map
    (fun i => (⟨false, true, false, false, 1004 + i, 5001, [i]⟩, exampleFlow))

/-- The connection of the clean handshake and `(1001, "abc")` after thirty-nine
more client segments: the server-side ring is full, `(1001, "abc")` is in its
oldest cell. -/
def vetoFullExample : Connection :=
  { NewConnection with
    state := TCP_DATA_TRANSFER, clientFlow := exampleFlow,
    serverFlow := exampleFlow.Reverse, clientNextSeq := 1043, serverNextSeq := 5001,
    hijackNextAck := 1001, packetCount := 43,
    ServerStreamRing :=
      some { Start := false, End := false, Seq := 1001, Bytes := [97, 98, 99] } ::
      (List.range 39).map
        (fun (i : Nat) => some { Start := false, End := false, Seq := 1004 + (i : Int), Bytes := [i] }) }

/-- The 40-cell ring that holds the single segment `(1001, "abc")`. -/
def abcRingExample : Ring :=
  List.replicate 39 none ++
    [some { Start := false, End := false, Seq := 1001, Bytes := [97, 98, 99] }]

/-- The ring after appending the thirty-nine one-byte segments `(1000 + i, [i])`,
`i = 0 .. 38`, to `ring.New(40)`: only the cell at the ring pointer is empty. -/
def thirtyNineRingExample : Ring :=
  (List.range 39).foldl
    (fun (r : Ring) (i : Nat) =>
      (r.setValue { Start := false, End := false, Seq := 1000 + (i : Int), Bytes := [i] }).Next)
    (Ring.New MAX_CONN_PACKETS)

/-! ## The connection tracker -/

/-- A `*Connection` held by the tracker: the tracker stores and returns the
pointer and is modelled up to the identity of the pointer. -/
abbrev ConnPtr := Nat

/-- The error of `ConnTracker.Get`, `fmt.Errorf("failed to retreive flow\n")`. -/
inductive TrackerError where
  | failedToRetrieveFlow
deriving DecidableEq, Repr

/-- `ConnTracker`: the two Go maps `map[TcpIpFlow]*Connection`, each as the
function from a key to the entry, `none` when the key is absent. -/
structure ConnTracker where
  flowAMap : TcpIpFlow → Option ConnPtr
  flowBMap : TcpIpFlow → Option ConnPtr

def NewConnTracker : ConnTracker :=
  { flowAMap := fun _ => none, flowBMap := fun _ => none }

def ConnTracker.Has (c : ConnTracker) (key : TcpIpFlow) : Bool :=
  if (c.flowAMap key).isSome then true else (c.flowBMap key).isSome

/-- `ConnTracker.Get`: `.ok val` is the return `(val, nil)`, `.error` is the
return `(nil, err)`. -/
def ConnTracker.Get (c : ConnTracker) (key : TcpIpFlow) : Except TrackerError ConnPtr :=
  match c.flowAMap key with
  | some val => .ok val
  | none =>
    match c.flowBMap key with
    | some val => .ok val
    | none => .error TrackerError.failedToRetrieveFlow

def ConnTracker.Put (c : ConnTracker) (key : TcpIpFlow) (conn : ConnPtr) : ConnTracker :=
  { flowAMap := fun k => if k = key then some conn else c.flowAMap k,
    flowBMap := fun k => if k = key.Reverse then some conn else c.flowBMap k }

/-! ## Appending to a ring, reachable connections -/

/-- The two statements of `stateDataTransfer` that store a segment:
`ring.Value = reassembly; ring = ring.Next()`. -/
def Ring.append (r : Ring) (v : Reassembly) : Ring := (r.setValue v).Next

/-- Appending the segments of a list, first to last. -/
def Ring.appendAll (r : Ring) (vs : List Reassembly) : Ring := vs.foldl Ring.append r

/-- The statement `c.packetCount += 1` of `receivePacket` (`uint64`). -/
def Connection.countPacket (c : Connection) : Connection :=
  { c with packetCount := (c.packetCount + 1) % 18446744073709551616 }

/-- A connection that `NewConnection` becomes by a sequence of `receivePacket`
calls that all return, on packets with 32-bit header fields. -/
def Reachable (c : Connection) : Prop :=
  ∃ pkts : List (PacketManifest × TcpIpFlow),
    (∀ x ∈ pkts, x.1.wf) ∧ NewConnection.receivePackets pkts = Outcome.ok c

/-- The newest stored segment of the ring, if there is one, ends right before
the sequence number `next`. -/
def RingEndsAt (r : Ring) (next : Int) : Prop :=
  ∀ s, r.segments.getLast? = some s → next = Sequence.Add s.Seq (s.Bytes.length : Int)

/-- The invariant of the rings of a connection: both rings are rings of
contiguous segments, they are empty before DATA_TRANSFER, and in DATA_TRANSFER
each ring ends right before the next sequence number of the side whose
segments it stores. -/
def ConnInvariant (c : Connection) : Prop :=
  RingContiguous c.ServerStreamRing ∧ RingContiguous c.ClientStreamRing ∧
    (c.state < TCP_DATA_TRANSFER →
      c.ServerStreamRing.segments = [] ∧ c.ClientStreamRing.segments = []) ∧
    (c.state = TCP_DATA_TRANSFER →
      RingEndsAt c.ServerStreamRing c.clientNextSeq ∧
        RingEndsAt c.ClientStreamRing c.serverNextSeq)

/-- The connection `dataTransferExample` after the graceful close that the
client starts: client FIN 1004, server FIN+ACK 5001/1005, client ACK 1005/5002. -/
def closedExample : Connection :=
  { dataTransferExample with
    state := TCP_CLOSED, clientState := TCP_LAST_ACK, serverState := TCP_CLOSING,
    closingFlow := exampleFlow, clientNextSeq := 1005, serverNextSeq := 5002,
    packetCount := 7, closeCount := 1 }

/-! ## Further examples and the rendering of flows -/

/-- The connection of an outcome: the new connection of a normal return, or
the connection as it was when the call aborted. -/
def Outcome.conn : Outcome → Connection
  | .ok c => c
  | .abort _ c => c

/-- The connection after client SYN seq=1000 on `exampleFlow`. -/
def requestExample : Connection :=
  { NewConnection with
    state := TCP_CONNECTION_REQUEST, clientFlow := exampleFlow,
    serverFlow := exampleFlow.Reverse, clientNextSeq := 1001, hijackNextAck := 1001,
    packetCount := 1 }

/-- A handshake with client initial sequence `0xFFFFFFFE`, so that
`clientNextSeq = 0xFFFFFFFF`, followed by the client FIN at `0xFFFFFFFF`. -/
def finWrapPackets : List (PacketManifest × TcpIpFlow) :=
  [(⟨true, false, false, false, 4294967294, 0, []⟩, exampleFlow),
   (⟨true, true, false, false, 5000, 4294967295, []⟩, exampleFlow.Reverse),
   (⟨false, true, false, false, 4294967295, 5001, []⟩, exampleFlow),
   (⟨false, true, true, false, 4294967295, 5001, []⟩, exampleFlow)]

/-- The connection after `finWrapPackets`. -/
def finWrapExample : Connection :=
  { NewConnection with
    state := TCP_CONNECTION_CLOSING, clientState := TCP_FIN_WAIT1, serverState := TCP_CLOSE_WAIT,
    clientFlow := exampleFlow, serverFlow := exampleFlow.Reverse, closingFlow := exampleFlow,
    clientNextSeq := 4294967296, serverNextSeq := 5001,
    hijackNextAck := 4294967295, packetCount := 4 }

/-- A handshake with server initial sequence `0xFFFFFFFE`, so that
`serverNextSeq = 0xFFFFFFFF`, the client FIN at 1001, and the server ACK at
`0xFFFFFFFF` that is handled by `stateFinWait1`. -/
def finWait2Packets : List (PacketManifest × TcpIpFlow) :=
  [(⟨true, false, false, false, 1000, 0, []⟩, exampleFlow),
   (⟨true, true, false, false, 4294967294, 1001, []⟩, exampleFlow.Reverse),
   (⟨false, true, false, false, 1001, 4294967295, []⟩, exampleFlow),
   (⟨false, true, true, false, 1001, 4294967295, []⟩, exampleFlow),
   (⟨false, true, false, false, 4294967295, 1002, []⟩, exampleFlow.Reverse)]

/-- The connection after `finWait2Packets`: the server side is in FIN_WAIT2. -/
def finWait2Example : Connection :=
  { NewConnection with
    state := TCP_CONNECTION_CLOSING, clientState := TCP_FIN_WAIT1, serverState := TCP_FIN_WAIT2,
    clientFlow := exampleFlow, serverFlow := exampleFlow.Reverse, closingFlow := exampleFlow,
    clientNextSeq := 1002, serverNextSeq := 4294967295,
    hijackNextAck := 1001, packetCount := 5 }

/-- The connection after the first four packets of `finWait2Packets`: the
server side is handled by `stateFinWait1`. -/
def finWait1Example : Connection :=
  { finWait2Example with serverState := TCP_CLOSE_WAIT, packetCount := 4 }

/-- The forty one-byte segments `(1000 + i, [i])`, `i = 0 .. 39`. -/
def fortySegments : List Reassembly :=
  (List.range 40).map
    (fun (i : Nat) => { Start := false, End := false, Seq := 1000 + (i : Int), Bytes := [i] })

/-- The loop that writes a number in decimal, last digit first onto `acc`; one
unit of fuel is one digit. -/
def decimalLoop : Nat → Nat → List Char → List Char
  | 0, _, acc => acc
  | fuel + 1, n, acc =>
    if n / 10 = 0 then Nat.digitChar (n % 10) :: acc
    else decimalLoop fuel (n / 10) (Nat.digitChar (n % 10) :: acc)

/-- Modelled from the spec: a number in decimal, as ports and the octets of an
address are written in the rendering of a flow. -/
def decimal (n : Nat) : List Char := decimalLoop (n + 1) n []

/-- The number that a list of decimal digits writes. -/
def decimalValue (cs : List Char) : Nat :=
  cs.foldl (fun a ch => 10 * a + (ch.toNat - 48)) 0

/-- Modelled from the spec: the characters of the rendering of a flow,
`A.B.C.D:P-W.X.Y.Z:Q`, the source on the left and the destination on the right
(spec, Flow identifier rendering). -/
def TcpIpFlow.chars (f : TcpIpFlow) : List Char :=
  decimal f.srcIP.a ++ '.' :: (decimal f.srcIP.b ++ '.' :: (decimal f.srcIP.c ++ '.' ::
    (decimal f.srcIP.d ++ ':' :: (decimal f.srcPort ++ '-' ::
      (decimal f.dstIP.a ++ '.' :: (decimal f.dstIP.b ++ '.' :: (decimal f.dstIP.c ++ '.' ::
        (decimal f.dstIP.d ++ ':' :: decimal f.dstPort))))))))

/-- Modelled from the spec: `String()` of a flow, declared in a file of the
repository that is not available; `TestFlowString` expects
`1.2.3.4:1-2.3.4.5:2`. -/
def TcpIpFlow.String (f : TcpIpFlow) : String := ⟨f.chars⟩

/-! ## Sequence arithmetic: basic facts -/

theorem signed32_of_range (x : Int) (h1 : -2147483648 ≤ x) (h2 : x < 2147483648) :
    signed32 x = x := by
  unfold signed32
  split <;> omega

theorem signed32_add_mul (x k : Int) : signed32 (x + 4294967296 * k) = signed32 x := by
  unfold signed32
  have h : (x + 4294967296 * k) % 4294967296 = x % 4294967296 := by omega
  rw [h]

theorem Difference_eq_zero_iff (s t : Int) :
    Sequence.Difference s t = 0 ↔ (t - s) % 4294967296 = 0 := by
  unfold Sequence.Difference signed32
  split_ifs with h <;> constructor <;> intro h1 <;> omega

theorem Difference_self (s : Int) : Sequence.Difference s s = 0 := by
  rw [Difference_eq_zero_iff]; omega

/-- **C10.** Sequence arithmetic round trip: for every sequence `a` and every
integer `n` with `|n| < 2^31`, `difference(a, add(a, n)) = n`, also across the
wrap boundary; and `difference(0xFFFFFF00, 0x00000100)` is `0x200`. -/
theorem difference_add_round_trip (a n : Int) (hn : |n| < 2147483648) :
    Sequence.Difference a (Sequence.Add a n) = n ∧
      Sequence.Difference 4294967040 256 = 512 := by
  have h := abs_lt.mp hn
  refine ⟨?_, by decide⟩
  unfold Sequence.Difference Sequence.Add signed32
  split <;> omega

theorem difference_add_round_trip_witness :
    |(512 : Int)| < 2147483648 ∧
      (Sequence.Difference 4294967040 (Sequence.Add 4294967040 512) = 512 ∧
        Sequence.Difference 4294967040 256 = 512) :=
  ⟨by decide, difference_add_round_trip 4294967040 512 (by decide)⟩

/-! ## The handshake -/

theorem Equal_self (f : TcpIpFlow) : f.Equal f = true := by simp [TcpIpFlow.Equal]

theorem Equal_iff (f g : TcpIpFlow) : f.Equal g = true ↔ f = g := by simp [TcpIpFlow.Equal]

theorem Ring_New_setValue_Next (v : Reassembly) :
    ((Ring.New MAX_CONN_PACKETS).setValue v).Next = List.replicate 39 none ++ [some v] := by
  simp [Ring.New, MAX_CONN_PACKETS, List.replicate, Ring.setValue, Ring.Next]

/-- **C5.** Clean handshake plus data: a fresh connection fed client SYN
(seq `x`), server SYN+ACK (seq `y`, ack `x+1`), client ACK (seq `x+1`, ack `y+1`)
and client data (seq `x+1`, non-empty payload `P`) returns normally, is in
DATA_TRANSFER, has emitted no report, holds exactly the segment `(x+1, P)` in
the server-side ring (in the newest cell, every other cell empty), has an empty
client-side ring, and has `clientNextSeq = x+1+len(P)` modulo 2^32. -/
theorem clean_handshake_plus_data (x y : Nat) (P : List Byte) (f : TcpIpFlow)
    (p1 p2 p3 p4 : PacketManifest)
    (hP : P ≠ [])
    (h1 : p1.SYN = true ∧ p1.ACK = false ∧ p1.Seq = x ∧ p1.Payload = [])
    (h2 : p2.SYN = true ∧ p2.ACK = true ∧ p2.Seq = y ∧ p2.Ack = (x + 1) % 4294967296 ∧
      p2.Payload = [])
    (h3 : p3.SYN = false ∧ p3.ACK = true ∧ p3.Seq = (x + 1) % 4294967296 ∧
      p3.Ack = (y + 1) % 4294967296)
    (h4 : p4.SYN = false ∧ p4.FIN = false ∧ p4.RST = false ∧ p4.Seq = (x + 1) % 4294967296 ∧
      p4.Payload = P) :
    ∃ c, NewConnection.receivePackets [(p1, f), (p2, f.Reverse), (p3, f), (p4, f)] = Outcome.ok c ∧
      c.state = TCP_DATA_TRANSFER ∧ c.reports = [] ∧
      c.ServerStreamRing = List.replicate 39 none ++
        [some { Start := false, End := false, Seq := (((x + 1) % 4294967296 : Nat) : Int), Bytes := P }] ∧
      c.ClientStreamRing = Ring.New MAX_CONN_PACKETS ∧
      c.clientNextSeq = (((x + 1 + P.length) % 4294967296 : Nat) : Int) := by
  obtain ⟨a1, a2, a3, a4⟩ := h1
  obtain ⟨b1, b2, b3, b4, b5⟩ := h2
  obtain ⟨c1, c2, c3, c4⟩ := h3
  obtain ⟨d1, d2, d3, d4, d5⟩ := h4
  have hlen : 0 < P.length := List.length_pos.mpr hP
  have s1 : NewConnection.receivePacket p1 f = Outcome.ok
      { NewConnection with
        state := TCP_CONNECTION_REQUEST, clientFlow := f, serverFlow := f.Reverse,
        clientNextSeq := (((x + 1) % 4294967296 : Nat) : Int),
        hijackNextAck := (((x + 1) % 4294967296 : Nat) : Int), packetCount := 1 } := by
    simp [Connection.receivePacket, NewConnection, Connection.stateListen, TCP_LISTEN,
      a1, a2, a3, a4, Sequence.Add]
  have s2 : Connection.receivePacket
      { NewConnection with
        state := TCP_CONNECTION_REQUEST, clientFlow := f, serverFlow := f.Reverse,
        clientNextSeq := (((x + 1) % 4294967296 : Nat) : Int),
        hijackNextAck := (((x + 1) % 4294967296 : Nat) : Int), packetCount := 1 }
      p2 f.Reverse = Outcome.ok
      { NewConnection with
        state := TCP_CONNECTION_ESTABLISHED, clientFlow := f, serverFlow := f.Reverse,
        clientNextSeq := (((x + 1) % 4294967296 : Nat) : Int),
        serverNextSeq := (((y + 1) % 4294967296 : Nat) : Int),
        hijackNextAck := (((x + 1) % 4294967296 : Nat) : Int), packetCount := 2 } := by
    simp [Connection.receivePacket, NewConnection, Connection.stateConnectionRequest, TCP_LISTEN,
      TCP_CONNECTION_REQUEST, Equal_self, b1, b2, b3, b4, b5, Sequence.Add, Difference_self]
  have s3 : Connection.receivePacket
      { NewConnection with
        state := TCP_CONNECTION_ESTABLISHED, clientFlow := f, serverFlow := f.Reverse,
        clientNextSeq := (((x + 1) % 4294967296 : Nat) : Int),
        serverNextSeq := (((y + 1) % 4294967296 : Nat) : Int),
        hijackNextAck := (((x + 1) % 4294967296 : Nat) : Int), packetCount := 2 }
      p3 f = Outcome.ok
      { NewConnection with
        state := TCP_DATA_TRANSFER, clientFlow := f, serverFlow := f.Reverse,
        clientNextSeq := (((x + 1) % 4294967296 : Nat) : Int),
        serverNextSeq := (((y + 1) % 4294967296 : Nat) : Int),
        hijackNextAck := (((x + 1) % 4294967296 : Nat) : Int), packetCount := 3 } := by
    simp [Connection.receivePacket, NewConnection, Connection.stateConnectionEstablished,
      Connection.detectHijack, TCP_LISTEN, TCP_CONNECTION_REQUEST, TCP_CONNECTION_ESTABLISHED,
      Equal_self, c1, c2, c3, c4, Sequence.Add, Difference_self]
  have s4 : Connection.receivePacket
      { NewConnection with
        state := TCP_DATA_TRANSFER, clientFlow := f, serverFlow := f.Reverse,
        clientNextSeq := (((x + 1) % 4294967296 : Nat) : Int),
        serverNextSeq := (((y + 1) % 4294967296 : Nat) : Int),
        hijackNextAck := (((x + 1) % 4294967296 : Nat) : Int), packetCount := 3 }
      p4 f = Outcome.ok
      { NewConnection with
        state := TCP_DATA_TRANSFER, clientFlow := f, serverFlow := f.Reverse,
        clientNextSeq := (((x + 1 + P.length) % 4294967296 : Nat) : Int),
        serverNextSeq := (((y + 1) % 4294967296 : Nat) : Int),
        hijackNextAck := (((x + 1) % 4294967296 : Nat) : Int), packetCount := 4,
        ServerStreamRing := List.replicate 39 none ++
          [some { Start := false, End := false, Seq := (((x + 1) % 4294967296 : Nat) : Int),
                  Bytes := P }] } := by
    simp [Connection.receivePacket, NewConnection, Connection.stateDataTransfer,
      Connection.detectHijack, Connection.nextSeq, Connection.setNextSeq, FIRST_FEW_PACKETS,
      TCP_LISTEN, TCP_CONNECTION_REQUEST, TCP_CONNECTION_ESTABLISHED, TCP_DATA_TRANSFER,
      Equal_self, d1, d2, d3, d4, d5, Sequence.Add, Difference_self, hlen, Ring_New_setValue_Next]
  simp only [Connection.receivePackets, s1, s2, s3, s4]
  refine ⟨_, rfl, ?_⟩
  simp [NewConnection, TCP_DATA_TRANSFER]

theorem clean_handshake_plus_data_witness :
    ∃ c, NewConnection.receivePackets
        [(⟨true, false, false, false, 1000, 0, []⟩, exampleFlow),
         (⟨true, true, false, false, 5000, 1001, []⟩, exampleFlow.Reverse),
         (⟨false, true, false, false, 1001, 5001, []⟩, exampleFlow),
         (⟨false, true, false, false, 1001, 5001, [97, 98, 99]⟩, exampleFlow)] = Outcome.ok c ∧
      c.state = TCP_DATA_TRANSFER ∧ c.reports = [] ∧
      c.ServerStreamRing = List.replicate 39 none ++
        [some { Start := false, End := false, Seq := 1001, Bytes := [97, 98, 99] }] ∧
      c.ClientStreamRing = Ring.New MAX_CONN_PACKETS ∧
      c.clientNextSeq = 1004 :=
  clean_handshake_plus_data 1000 5000 [97, 98, 99] exampleFlow _ _ _ _ (by decide)
    ⟨rfl, rfl, rfl, rfl⟩ ⟨rfl, rfl, rfl, rfl, rfl⟩ ⟨rfl, rfl, rfl, rfl⟩ ⟨rfl, rfl, rfl, rfl, rfl⟩

theorem detectHijack_eq (c : Connection) (p : PacketManifest) (flow : TcpIpFlow) :
    c.detectHijack p flow =
      if flow = c.serverFlow ∧ p.SYN = true ∧ p.ACK = true ∧
          Sequence.Difference (p.Ack : Int) c.hijackNextAck = 0 then
        { c with reports := c.reports ++ [Report.hijack flow] }
      else c := by
  unfold Connection.detectHijack TcpIpFlow.Equal
  by_cases h1 : flow = c.serverFlow <;> by_cases h2 : p.SYN = true <;>
    by_cases h3 : p.ACK = true <;>
    by_cases h4 : Sequence.Difference (p.Ack : Int) c.hijackNextAck = 0 <;>
    simp [h1, h2, h3, h4]

theorem stateConnectionEstablished_reports (c : Connection) (p : PacketManifest)
    (flow : TcpIpFlow) :
    (c.stateConnectionEstablished p flow).reports = (c.detectHijack p flow).reports := by
  unfold Connection.stateConnectionEstablished
  simp only []
  split_ifs <;> rfl

/-- **C6.** Handshake hijack detection: in CONNECTION_ESTABLISHED, `receivePacket`
returns normally and emits exactly one hijack report, carrying the packet's
flow, when the packet is on `serverFlow` with SYN and ACK set and
`ack == hijackNextAck` (whatever its seq); in that case the state stays
CONNECTION_ESTABLISHED.  For every other packet no report is emitted. -/
theorem handshake_hijack_detection (c : Connection) (p : PacketManifest) (flow : TcpIpFlow)
    (hst : c.state = TCP_CONNECTION_ESTABLISHED) (hp : p.wf)
    (hh : 0 ≤ c.hijackNextAck ∧ c.hijackNextAck < 4294967296) :
    ∃ c1, c.receivePacket p flow = Outcome.ok c1 ∧
      ((flow = c.serverFlow ∧ p.SYN = true ∧ p.ACK = true ∧ (p.Ack : Int) = c.hijackNextAck) →
        c1.reports = c.reports ++ [Report.hijack flow] ∧ flow = c.serverFlow ∧
          c1.state = TCP_CONNECTION_ESTABLISHED) ∧
      (¬ (flow = c.serverFlow ∧ p.SYN = true ∧ p.ACK = true ∧ (p.Ack : Int) = c.hijackNextAck) →
        c1.reports = c.reports) := by
  have hd : Sequence.Difference (p.Ack : Int) c.hijackNextAck = 0 ↔ (p.Ack : Int) = c.hijackNextAck := by
    rw [Difference_eq_zero_iff]
    have := hp.2
    constructor <;> intro h <;> omega
  have hrec : c.receivePacket p flow = Outcome.ok
      (Connection.stateConnectionEstablished
        { c with packetCount := (c.packetCount + 1) % 18446744073709551616 } p flow) := by
    simp [Connection.receivePacket, hst, TCP_LISTEN, TCP_CONNECTION_REQUEST,
      TCP_CONNECTION_ESTABLISHED]
  refine ⟨_, hrec, ?_, ?_⟩
  · rintro ⟨h1, h2, h3, h4⟩
    have h5 := hd.mpr h4
    subst h1
    simp [Connection.stateConnectionEstablished, Connection.detectHijack, Equal_self, h2, h3, h5,
      hst]
  · intro hn
    have hn2 : ¬ (flow = c.serverFlow ∧ p.SYN = true ∧ p.ACK = true ∧
        Sequence.Difference (p.Ack : Int) c.hijackNextAck = 0) :=
      fun h => hn ⟨h.1, h.2.1, h.2.2.1, hd.mp h.2.2.2⟩
    rw [stateConnectionEstablished_reports, detectHijack_eq]
    simp only []
    rw [if_neg hn2]

theorem handshake_hijack_detection_witness :
    NewConnection.receivePackets
        [(⟨true, false, false, false, 1000, 0, []⟩, exampleFlow),
         (⟨true, true, false, false, 5000, 1001, []⟩, exampleFlow.Reverse)] =
      Outcome.ok establishedExample ∧
    ∃ c1, establishedExample.receivePacket ⟨true, true, false, false, 9999, 1001, []⟩
        exampleFlow.Reverse = Outcome.ok c1 ∧
      c1.reports = [Report.hijack exampleFlow.Reverse] ∧
      c1.state = TCP_CONNECTION_ESTABLISHED := by
  refine ⟨by decide, ?_⟩
  obtain ⟨c1, h1, h2, _⟩ := handshake_hijack_detection establishedExample
    ⟨true, true, false, false, 9999, 1001, []⟩ exampleFlow.Reverse rfl
    ⟨by decide, by decide⟩ ⟨by decide, by decide⟩
  have h3 := h2 ⟨rfl, rfl, rfl, rfl⟩
  exact ⟨c1, h1, h3.1, h3.2.2⟩

/-! ## Closing and contiguous data -/

/-- **C8.** Graceful close: from DATA_TRANSFER with next-sequence values `cs`
(client) and `vs` (server), client FIN (seq `cs`), then server FIN+ACK (seq `vs`,
ack `cs+1`), then client ACK (seq `cs+1`, ack `vs+1`) all return normally and
end with `state == CLOSED` and `Close` invoked exactly once.  The client and
server flows are the two distinct directions of the connection. -/
theorem graceful_close (c : Connection) (cs vs : Nat) (p1 p2 p3 : PacketManifest)
    (hst : c.state = TCP_DATA_TRANSFER) (hflows : c.serverFlow ≠ c.clientFlow)
    (hc : c.clientNextSeq = (cs : Int)) (hv : c.serverNextSeq = (vs : Int))
    (h1 : p1.FIN = true ∧ p1.Seq = cs)
    (h2 : p2.FIN = true ∧ p2.ACK = true ∧ p2.Seq = vs ∧ p2.Ack = (cs + 1) % 4294967296 ∧
      p2.Payload = [])
    (h3 : p3.ACK = true ∧ p3.FIN = false ∧ p3.SYN = false ∧ p3.Seq = (cs + 1) % 4294967296 ∧
      p3.Ack = (vs + 1) % 4294967296) :
    ∃ c3, c.receivePackets [(p1, c.clientFlow), (p2, c.serverFlow), (p3, c.clientFlow)] =
        Outcome.ok c3 ∧
      c3.state = TCP_CLOSED ∧ c3.closeCount = c.closeCount + 1 := by
  obtain ⟨a1, a2⟩ := h1
  obtain ⟨b1, b2, b3, b4, b5⟩ := h2
  obtain ⟨d1, d2, d3, d4, d5⟩ := h3
  have hflows2 : c.clientFlow ≠ c.serverFlow := fun h => hflows h.symm
  have e1 : Sequence.Difference (((cs : Int) + 1) % 4294967296) ((cs : Int) + 1) = 0 := by
    rw [Difference_eq_zero_iff]; omega
  have e2 : Sequence.Difference (((vs : Int) + 1) % 4294967296)
      (Sequence.Add (vs : Int) 1) = 0 := by
    rw [Difference_eq_zero_iff]; unfold Sequence.Add; omega
  have s1 : c.receivePacket p1 c.clientFlow = Outcome.ok
      { c with
        packetCount := (c.packetCount + 1) % 18446744073709551616,
        closingFlow := c.clientFlow, clientNextSeq := (cs : Int) + 1,
        state := TCP_CONNECTION_CLOSING, clientState := TCP_FIN_WAIT1,
        serverState := TCP_CLOSE_WAIT } := by
    simp only [Connection.receivePacket, hst, Connection.stateDataTransfer, detectHijack_eq]
    simp [TcpIpFlow.Equal, hflows2, a1, a2, hc, Difference_self, Connection.nextSeq,
      Connection.setNextSeq, Connection.setSideState, Side.other, TCP_LISTEN,
      TCP_CONNECTION_REQUEST, TCP_CONNECTION_ESTABLISHED, TCP_DATA_TRANSFER]
  have s2 : Connection.receivePacket
      { c with
        packetCount := (c.packetCount + 1) % 18446744073709551616,
        closingFlow := c.clientFlow, clientNextSeq := (cs : Int) + 1,
        state := TCP_CONNECTION_CLOSING, clientState := TCP_FIN_WAIT1,
        serverState := TCP_CLOSE_WAIT } p2 c.serverFlow = Outcome.ok
      { c with
        packetCount :=
          ((c.packetCount + 1) % 18446744073709551616 + 1) % 18446744073709551616,
        closingFlow := c.clientFlow, clientNextSeq := (cs : Int) + 1,
        serverNextSeq := Sequence.Add (vs : Int) 1,
        state := TCP_CONNECTION_CLOSING, clientState := TCP_LAST_ACK,
        serverState := TCP_CLOSING } := by
    simp [Connection.receivePacket, Connection.stateConnectionClosing, Connection.stateFinWait1,
      TcpIpFlow.Equal, hflows, hflows2, b1, b2, b3, b4, b5, hv, e1, Difference_self,
      Connection.nextSeq, Connection.setNextSeq, Connection.setSideState, Connection.sideState,
      Side.other, TCP_LISTEN, TCP_CONNECTION_REQUEST, TCP_CONNECTION_ESTABLISHED,
      TCP_DATA_TRANSFER, TCP_CONNECTION_CLOSING, TCP_CLOSE_WAIT, TCP_FIN_WAIT1, TCP_CLOSING,
      TCP_LAST_ACK]
  have s3 : Connection.receivePacket
      { c with
        packetCount :=
          ((c.packetCount + 1) % 18446744073709551616 + 1) % 18446744073709551616,
        closingFlow := c.clientFlow, clientNextSeq := (cs : Int) + 1,
        serverNextSeq := Sequence.Add (vs : Int) 1,
        state := TCP_CONNECTION_CLOSING, clientState := TCP_LAST_ACK,
        serverState := TCP_CLOSING } p3 c.clientFlow = Outcome.ok
      { c with
        packetCount :=
          (((c.packetCount + 1) % 18446744073709551616 + 1) % 18446744073709551616 + 1) %
            18446744073709551616,
        closingFlow := c.clientFlow, clientNextSeq := (cs : Int) + 1,
        serverNextSeq := Sequence.Add (vs : Int) 1,
        state := TCP_CLOSED, clientState := TCP_LAST_ACK,
        serverState := TCP_CLOSING, closeCount := c.closeCount + 1 } := by
    simp [Connection.receivePacket, Connection.stateConnectionClosing, Connection.stateLastAck,
      Connection.Close, TcpIpFlow.Equal, d1, d2, d3, d4, d5, e1, e2,
      Connection.nextSeq, Connection.sideState,
      Side.other, TCP_LISTEN, TCP_CONNECTION_REQUEST, TCP_CONNECTION_ESTABLISHED,
      TCP_DATA_TRANSFER, TCP_CONNECTION_CLOSING, TCP_CLOSE_WAIT, TCP_LAST_ACK, TCP_CLOSED]
  simp only [Connection.receivePackets, s1, s2, s3]
  exact ⟨_, rfl, rfl, rfl⟩

theorem graceful_close_witness :
    ∃ c3, dataTransferExample.receivePackets
        [(⟨false, true, true, false, 1004, 5001, []⟩, exampleFlow),
         (⟨false, true, true, false, 5001, 1005, []⟩, exampleFlow.Reverse),
         (⟨false, true, false, false, 1005, 5002, []⟩, exampleFlow)] = Outcome.ok c3 ∧
      c3.state = TCP_CLOSED ∧ c3.closeCount = 0 + 1 :=
  graceful_close dataTransferExample 1004 5001 _ _ _ rfl (by decide) rfl rfl
    ⟨rfl, rfl⟩ ⟨rfl, rfl, rfl, rfl, rfl⟩ ⟨rfl, rfl, rfl, rfl, rfl⟩

theorem detectHijack_only_reports (c : Connection) (p : PacketManifest) (flow : TcpIpFlow) :
    ∃ R, c.detectHijack p flow = { c with reports := R } := by
  rw [detectHijack_eq]
  split_ifs
  · exact ⟨_, rfl⟩
  · exact ⟨c.reports, rfl⟩

theorem receivePacket_dataTransfer (c : Connection) (p : PacketManifest) (flow : TcpIpFlow)
    (hst : c.state = TCP_DATA_TRANSFER) :
    c.receivePacket p flow = Connection.stateDataTransfer
      { c with packetCount := (c.packetCount + 1) % 18446744073709551616 } p flow := by
  simp [Connection.receivePacket, hst, TCP_LISTEN, TCP_CONNECTION_REQUEST,
    TCP_CONNECTION_ESTABLISHED, TCP_DATA_TRANSFER]

/-- The first statement of `stateDataTransfer` changes at most the reports. -/
theorem dataTransfer_hijack_only_reports (c : Connection) (p : PacketManifest)
    (flow : TcpIpFlow) :
    ∃ R, (if c.packetCount < FIRST_FEW_PACKETS then c.detectHijack p flow else c) =
      { c with reports := R } := by
  split_ifs
  · exact detectHijack_only_reports c p flow
  · exact ⟨c.reports, rfl⟩

/-- **C9.** Contiguous data with wrap-around: in DATA_TRANSFER, a packet whose
seq has difference 0 from the sender's nextSeq, with FIN and RST clear and a
non-empty payload, returns normally; the segment `(seq, payload)` becomes the
newest cell of the opposite-direction ring (the oldest cell is dropped, the
other cells keep their order), the other ring is unchanged, and the sender's
nextSeq becomes `(seq + len(payload)) mod 2^32` while the peer's is unchanged.
A packet on `clientFlow` is a client packet, any other a server packet. -/
theorem contiguous_data_appended (c : Connection) (p : PacketManifest) (flow : TcpIpFlow)
    (hst : c.state = TCP_DATA_TRANSFER) (hfin : p.FIN = false) (hrst : p.RST = false)
    (hpay : p.Payload ≠ []) :
    (flow = c.clientFlow → Sequence.Difference (p.Seq : Int) c.clientNextSeq = 0 →
      c.ServerStreamRing ≠ [] →
      ∃ c1, c.receivePacket p flow = Outcome.ok c1 ∧
        c1.ServerStreamRing = c.ServerStreamRing.tail ++
          [some { Start := false, End := false, Seq := (p.Seq : Int), Bytes := p.Payload }] ∧
        c1.ClientStreamRing = c.ClientStreamRing ∧
        c1.clientNextSeq = ((p.Seq : Int) + (p.Payload.length : Int)) % 4294967296 ∧
        c1.serverNextSeq = c.serverNextSeq ∧ c1.state = TCP_DATA_TRANSFER) ∧
    (flow ≠ c.clientFlow → Sequence.Difference (p.Seq : Int) c.serverNextSeq = 0 →
      c.ClientStreamRing ≠ [] →
      ∃ c1, c.receivePacket p flow = Outcome.ok c1 ∧
        c1.ClientStreamRing = c.ClientStreamRing.tail ++
          [some { Start := false, End := false, Seq := (p.Seq : Int), Bytes := p.Payload }] ∧
        c1.ServerStreamRing = c.ServerStreamRing ∧
        c1.serverNextSeq = ((p.Seq : Int) + (p.Payload.length : Int)) % 4294967296 ∧
        c1.clientNextSeq = c.clientNextSeq ∧ c1.state = TCP_DATA_TRANSFER) := by
  have hlen : 0 < p.Payload.length := List.length_pos.mpr hpay
  have happ : ∀ (r : Ring) (v : Reassembly), r ≠ [] → (r.setValue v).Next = r.tail ++ [some v] := by
    intro r v hr
    cases r with
    | nil => exact absurd rfl hr
    | cons x xs => rfl
  rw [receivePacket_dataTransfer c p flow hst]
  obtain ⟨R, hR⟩ := dataTransfer_hijack_only_reports
    { c with packetCount := (c.packetCount + 1) % 18446744073709551616 } p flow
  unfold Connection.stateDataTransfer
  rw [hR]
  constructor
  · intro hf hd hr
    subst hf
    simp [Equal_self, Connection.nextSeq, Connection.setNextSeq, hd, hfin, hrst, hlen, happ _ _ hr,
      Sequence.Add, hst]
  · intro hf hd hr
    simp [TcpIpFlow.Equal, hf, Connection.nextSeq, Connection.setNextSeq, hd, hfin, hrst, hlen,
      happ _ _ hr, Sequence.Add, hst]

theorem contiguous_data_appended_witness :
    ∃ c1, wrapExample.receivePacket ⟨false, true, false, false, 4294967294, 5001, [1, 2, 3, 4]⟩
        exampleFlow = Outcome.ok c1 ∧
      c1.ServerStreamRing = List.replicate 39 none ++
        [some { Start := false, End := false, Seq := 4294967294, Bytes := [1, 2, 3, 4] }] ∧
      c1.clientNextSeq = 2 := by
  obtain ⟨c1, h1, h2, _, h4, _, _⟩ :=
    (contiguous_data_appended wrapExample ⟨false, true, false, false, 4294967294, 5001, [1, 2, 3, 4]⟩
      exampleFlow rfl rfl rfl (by decide)).1 rfl (by decide) (by decide)
  refine ⟨c1, h1, ?_, ?_⟩
  · rw [h2]; decide
  · rw [h4]; decide

/-! ## Evaluations on a full ring and on an empty overlap -/

/-- **C1 (evaluation).** On the ring built by forty appends of contiguous
one-byte segments, the oldest stored segment `(1000, [0])` covers `[1000, 1000]`,
yet the search for `[1000, 1000]` returns no head and tail; for `[1039, 1045]`,
which starts in the newest segment and ends beyond it, the tail loop never
exits.  With thirty-nine segments stored, the search for `[990, 1000]`, which
reaches into the oldest segment `(1000, [0])`, returns no head and tail. -/
theorem overlap_search_misses_oldest_of_full_ring :
    fullRingExample.valueAt 0 = some { Start := false, End := false, Seq := 1000, Bytes := [0] } ∧
      getHeadFromRing fullRingExample 1000 1000 = .ok none ∧
      getOverlapRingsOn fullRingExample 1000 1000 = .ok none ∧
      getOverlapRingsOn fullRingExample 1039 1045 = .error Fault.noReturn ∧
      thirtyNineRingExample.valueAt 1 =
        some { Start := false, End := false, Seq := 1000, Bytes := [0] } ∧
      getOverlapRingsOn thirtyNineRingExample 990 1000 = .ok none := by
  decide

theorem fullConnectionExample_reached :
    NewConnection.receivePackets (handshakePackets ++ fortyDataPackets) =
      Outcome.ok fullConnectionExample := by
  decide

/-- **C3 (evaluation).** After the handshake and forty one-byte client segments
the server-side ring is full and `(1001, [0])` is stored in its oldest cell.  A
later client packet with `seq = 1001`, the same length and the payload `[7]`,
which differs from the stored byte, aborts in `getOverlapBytes` (head and tail
are nil) and no injection report has been emitted; the byte-identical packet
aborts in the same way. -/
theorem replay_of_oldest_segment_aborts :
    fullConnectionExample.ServerStreamRing.valueAt 0 =
        some { Start := false, End := false, Seq := 1001, Bytes := [0] } ∧
      fullConnectionExample.receivePacket ⟨false, true, false, false, 1001, 5001, [7]⟩ exampleFlow =
        Outcome.abort Fault.nilHeadOrTail
          { fullConnectionExample with packetCount := 44 } ∧
      fullConnectionExample.receivePacket ⟨false, true, false, false, 1001, 5001, [0]⟩ exampleFlow =
        Outcome.abort Fault.nilHeadOrTail
          { fullConnectionExample with packetCount := 44 } ∧
      fullConnectionExample.reports = [] := by
  decide

/-- **C4 (evaluation).** A packet before the sender's nextSeq for which the
consulted ring has no overlapping segment does not return normally: with an
empty ring (client packet `seq = 1000` after the handshake), and with a packet
that lies entirely before the stored history (`seq = 990`, two bytes, against
the ring holding `(1001, "abc")`), `receivePacket` aborts with the panic of
`getOverlapBytes` on a nil head. -/
theorem overlap_empty_suspicion_aborts :
    NewConnection.receivePackets handshakePackets = Outcome.ok handshakeDoneExample ∧
      handshakeDoneExample.receivePacket ⟨false, true, false, false, 1000, 5001, [97]⟩ exampleFlow =
        Outcome.abort Fault.nilHeadOrTail { handshakeDoneExample with packetCount := 4 } ∧
      dataTransferExample.receivePacket ⟨false, true, false, false, 990, 5001, [1, 2]⟩ exampleFlow =
        Outcome.abort Fault.nilHeadOrTail { dataTransferExample with packetCount := 5 } := by
  decide

/-- **C7 (evaluation).** The consulted ring holds `(1001, "abc")` (in the oldest
cell of the full ring) and the incoming packet has `seq = 1001` and the payload
`"abd"` of the same length: `receivePacket` aborts with the panic of
`getOverlapBytes` on a nil head, and no injection report (with
`overlapBytes = "abc"` or any other content) has been emitted. -/
theorem segment_veto_on_oldest_segment_aborts :
    dataTransferExample.receivePackets thirtyNineDataPackets = Outcome.ok vetoFullExample ∧
      vetoFullExample.ServerStreamRing.valueAt 0 =
        some { Start := false, End := false, Seq := 1001, Bytes := [97, 98, 99] } ∧
      vetoFullExample.receivePacket ⟨false, true, false, false, 1001, 5001, [97, 98, 100]⟩
          exampleFlow =
        Outcome.abort Fault.nilHeadOrTail { vetoFullExample with packetCount := 44 } ∧
      vetoFullExample.reports = [] := by
  decide

/-! ## Rings of contiguous segments: layout -/

theorem valueAt_layout (e : Nat) (segs : List Reassembly) (i : Nat) :
    Ring.valueAt (List.replicate e none ++ segs.map some) i =
      if i < e then none else segs[i - e]? := by
  unfold Ring.valueAt
  by_cases h : i < e
  · simp [List.getElem?_append, h]
  · simp [List.getElem?_append, h]
    cases segs[i - e]? <;> rfl

theorem segments_layout (e : Nat) (segs : List Reassembly) :
    Ring.segments (List.replicate e none ++ segs.map some) = segs := by
  unfold Ring.segments
  induction e with
  | zero => simp
  | succ e ih => simp [List.replicate_succ, List.filterMap_cons]

theorem bytesBefore_zero (segs : List Reassembly) : bytesBefore segs 0 = 0 := by
  simp [bytesBefore]

theorem bytesBefore_succ (segs : List Reassembly) (j : Nat) (s : Reassembly)
    (h : segs[j]? = some s) : bytesBefore segs (j + 1) = bytesBefore segs j + s.Bytes.length := by
  unfold bytesBefore
  rw [List.take_succ, h]
  simp

theorem bytesFrom_cons (segs : List Reassembly) (j : Nat) (s : Reassembly)
    (h : segs[j]? = some s) : bytesFrom segs j = s.Bytes ++ bytesFrom segs (j + 1) := by
  unfold bytesFrom
  have hj : j < segs.length := by
    rcases Nat.lt_or_ge j segs.length with h1 | h1
    · exact h1
    · rw [List.getElem?_eq_none h1] at h; cases h
  rw [List.drop_eq_getElem_cons hj]
  have : segs[j] = s := by
    rw [List.getElem?_eq_getElem hj] at h; exact Option.some.inj h
  simp [this]

theorem stream_split (segs : List Reassembly) (j : Nat) :
    (segs.map (fun s => s.Bytes)).flatten =
      ((segs.take j).map (fun s => s.Bytes)).flatten ++ bytesFrom segs j := by
  unfold bytesFrom
  rw [← List.flatten_append, ← List.map_append, List.take_append_drop]

theorem stream_drop (segs : List Reassembly) (j : Nat) :
    ((segs.map (fun s => s.Bytes)).flatten).drop (bytesBefore segs j) = bytesFrom segs j := by
  rw [stream_split segs j]
  unfold bytesBefore
  exact List.drop_left' rfl

theorem bytesBefore_add_length (segs : List Reassembly) (j : Nat) :
    bytesBefore segs j + (bytesFrom segs j).length =
      ((segs.map (fun s => s.Bytes)).flatten).length := by
  rw [stream_split segs j, List.length_append]
  rfl

theorem bytesBefore_le_succ (segs : List Reassembly) (j : Nat) :
    bytesBefore segs j ≤ bytesBefore segs (j + 1) := by
  cases h : segs[j]? with
  | some s => rw [bytesBefore_succ segs j s h]; omega
  | none =>
    have hj : segs.length ≤ j := by
      rcases Nat.lt_or_ge j segs.length with h1 | h1
      · rw [List.getElem?_eq_getElem h1] at h; cases h
      · exact h1
    unfold bytesBefore
    rw [List.take_of_length_le hj, List.take_of_length_le (by omega)]

theorem bytesBefore_mono (segs : List Reassembly) (j j1 : Nat) (h : j ≤ j1) :
    bytesBefore segs j ≤ bytesBefore segs j1 := by
  induction j1 with
  | zero =>
    have : j = 0 := by omega
    subst this
    exact Nat.le_refl _
  | succ k ih =>
    rcases Nat.lt_or_ge j (k + 1) with h1 | h1
    · exact Nat.le_trans (ih (by omega)) (bytesBefore_le_succ segs k)
    · have : j = k + 1 := by omega
      subst this
      exact Nat.le_refl _

theorem bytesBefore_le_total (segs : List Reassembly) (j : Nat) :
    bytesBefore segs j ≤ ((segs.map (fun s => s.Bytes)).flatten).length := by
  have := bytesBefore_add_length segs j
  omega

/-! ## Sequence positions -/

theorem Difference_of_SeqAt (b x y px py : Int) (hx : SeqAt b x px) (hy : SeqAt b y py)
    (h1 : -2147483648 ≤ py - px) (h2 : py - px < 2147483648) :
    Sequence.Difference x y = py - px := by
  obtain ⟨q1, rfl⟩ := hx
  obtain ⟨q2, rfl⟩ := hy
  unfold Sequence.Difference signed32
  split_ifs <;> omega

theorem SeqAt_self (b : Int) : SeqAt b b 0 := ⟨0, by omega⟩

theorem SeqAt_Add (b x px t : Int) (hx : SeqAt b x px) :
    SeqAt b (Sequence.Add x t) (px + t) := by
  obtain ⟨q, rfl⟩ := hx
  unfold Sequence.Add
  exact ⟨q - (b + px + 4294967296 * q + t) / 4294967296, by omega⟩

theorem SeqAt_Difference (b x : Int) : SeqAt b x (Sequence.Difference b x) := by
  unfold Sequence.Difference signed32
  split_ifs
  · exact ⟨(x - b) / 4294967296, by omega⟩
  · exact ⟨(x - b) / 4294967296 + 1, by omega⟩

theorem Contiguous_index : ∀ (segs : List Reassembly), Contiguous segs = true →
    ∀ (j : Nat) (s s1 : Reassembly), segs[j]? = some s → segs[j + 1]? = some s1 →
      s1.Seq = Sequence.Add s.Seq (s.Bytes.length : Int)
  | [], _, j, s, s1, h, _ => by simp at h
  | [_], _, j, s, s1, _, h1 => by simp at h1
  | a :: b :: rest, hc, 0, s, s1, h, h1 => by
    simp only [Contiguous, Bool.and_eq_true, decide_eq_true_eq] at hc
    simp at h h1
    subst h; subst h1
    exact hc.1
  | a :: b :: rest, hc, j + 1, s, s1, h, h1 => by
    simp only [Contiguous, Bool.and_eq_true, decide_eq_true_eq] at hc
    have h2 : (b :: rest)[j]? = some s := by simpa using h
    have h3 : (b :: rest)[j + 1]? = some s1 := by simpa using h1
    exact Contiguous_index (b :: rest) hc.2 j s s1 h2 h3

theorem getElem?_of_succ (segs : List Reassembly) (j : Nat) (s1 : Reassembly)
    (h : segs[j + 1]? = some s1) : ∃ s, segs[j]? = some s := by
  have hj : j + 1 < segs.length := by
    rcases Nat.lt_or_ge (j + 1) segs.length with h1 | h1
    · exact h1
    · rw [List.getElem?_eq_none h1] at h; cases h
  exact ⟨segs[j], List.getElem?_eq_getElem (by omega)⟩

theorem segment_SeqAt (segs : List Reassembly) (hc : Contiguous segs = true) (sb : Reassembly)
    (h0 : segs[0]? = some sb) :
    ∀ (j : Nat) (s : Reassembly), segs[j]? = some s →
      SeqAt sb.Seq s.Seq (bytesBefore segs j : Int) := by
  intro j
  induction j with
  | zero =>
    intro s h
    rw [h0] at h
    cases h
    rw [bytesBefore_zero]
    exact SeqAt_self _
  | succ k ih =>
    intro s h
    obtain ⟨s0, hs0⟩ := getElem?_of_succ segs k s h
    have h1 := Contiguous_index segs hc k s0 s hs0 h
    have h2 := SeqAt_Add _ _ _ (s0.Bytes.length : Int) (ih s0 hs0)
    rw [h1, bytesBefore_succ segs k s0 hs0]
    push_cast
    exact h2

theorem segment_last_SeqAt (segs : List Reassembly) (hc : Contiguous segs = true)
    (sb : Reassembly) (h0 : segs[0]? = some sb) (j : Nat) (s : Reassembly)
    (h : segs[j]? = some s) :
    SeqAt sb.Seq (getRingSegmentLastSequence s)
      ((bytesBefore segs j : Int) + ((s.Bytes.length : Int) - 1)) :=
  SeqAt_Add _ _ _ _ (segment_SeqAt segs hc sb h0 j s h)

/-! ## The head search -/

theorem getHeadLoop_some (r : Ring) (start end_ : Int) :
    ∀ (fuel current : Nat) (prev : Option Nat) (h : Nat),
      (∀ pi, prev = some pi →
        ∃ pv, r.valueAt pi = some pv ∧ Sequence.Difference pv.Seq start < 0) →
      getHeadLoop r start end_ fuel current prev = .ok (some h) →
      ∃ hv, r.valueAt h = some hv ∧
        (Sequence.Difference hv.Seq start = 0 ∨
          (0 < Sequence.Difference hv.Seq start ∧
            0 ≤ Sequence.Difference start (getRingSegmentLastSequence hv)) ∨
          (Sequence.Difference hv.Seq start < 0 ∧ 0 ≤ Sequence.Difference hv.Seq end_)) := by
  intro fuel
  induction fuel with
  | zero =>
    intro current prev h _ hres
    simp [getHeadLoop] at hres
  | succ f ih =>
    intro current prev h hprev hres
    unfold getHeadLoop at hres
    split_ifs at hres with hc0
    · cases hres
    · cases hcv : r.valueAt current with
      | none =>
        simp only [hcv] at hres
        cases prev with
        | none => simp at hres
        | some pi =>
          obtain ⟨pv, hpv, hlt⟩ := hprev pi rfl
          simp only [Option.some_bind, hpv] at hres
          split_ifs at hres with hd
          · cases hres
          · cases hres
            exact ⟨pv, hpv, Or.inr (Or.inr ⟨hlt, by omega⟩)⟩
      | some cv =>
        simp only [hcv] at hres
        split_ifs at hres with h1 h2 h3 h4
        · cases hres
          exact ⟨cv, hcv, Or.inl h1⟩
        · cases hres
          exact ⟨cv, hcv, Or.inr (Or.inl ⟨by omega, by omega⟩)⟩
        · cases hres
          exact ⟨cv, hcv, Or.inr (Or.inl ⟨by omega, by omega⟩)⟩
        · cases hres
        · apply ih _ _ h _ hres
          intro pi hpi
          cases hpi
          exact ⟨cv, hcv, by omega⟩

theorem getHeadFromRing_some (r : Ring) (start end_ : Int) (h : Nat)
    (hres : getHeadFromRing r start end_ = .ok (some h)) :
    ∃ hv, r.valueAt h = some hv ∧
      (Sequence.Difference hv.Seq start = 0 ∨
        (0 < Sequence.Difference hv.Seq start ∧
          0 ≤ Sequence.Difference start (getRingSegmentLastSequence hv)) ∨
        (Sequence.Difference hv.Seq start < 0 ∧ 0 ≤ Sequence.Difference hv.Seq end_)) := by
  unfold getHeadFromRing at hres
  cases hcv : r.valueAt (r.prevOff 0) with
  | none => simp [hcv] at hres
  | some cv =>
    simp only [hcv] at hres
    split_ifs at hres with h1
    · cases hres
    · exact getHeadLoop_some r start end_ _ _ none h (by intro pi hpi; cases hpi) hres

/-! ## The tail search -/

theorem getElem?_lt (segs : List Reassembly) (j : Nat) (s : Reassembly)
    (h : segs[j]? = some s) : j < segs.length := by
  rcases Nat.lt_or_ge j segs.length with h1 | h1
  · exact h1
  · rw [List.getElem?_eq_none h1] at h; cases h

theorem segment_bounds (segs : List Reassembly) (hne : ∀ s ∈ segs, s.Bytes ≠ [])
    (j : Nat) (s : Reassembly) (h : segs[j]? = some s) :
    1 ≤ s.Bytes.length ∧
      bytesBefore segs j + s.Bytes.length ≤ ((segs.map (fun s => s.Bytes)).flatten).length := by
  have h1 := hne s (List.getElem?_mem h)
  have h2 := bytesBefore_le_total segs (j + 1)
  rw [bytesBefore_succ segs j s h] at h2
  exact ⟨List.length_pos.mpr h1, h2⟩

theorem bytesBefore_length (segs : List Reassembly) :
    bytesBefore segs segs.length = ((segs.map (fun s => s.Bytes)).flatten).length := by
  unfold bytesBefore
  rw [List.take_length]

theorem valueAt_layout_seg (e : Nat) (segs : List Reassembly) (j : Nat) :
    Ring.valueAt (List.replicate e none ++ segs.map some) (e + j) = segs[j]? := by
  rw [valueAt_layout]
  have h : ¬ (e + j < e) := by omega
  rw [if_neg h]
  congr 1
  omega

theorem nextOff_layout_lt (e : Nat) (segs : List Reassembly) (j : Nat)
    (h : j + 1 < segs.length) :
    Ring.nextOff (List.replicate e none ++ segs.map some) (e + j) = e + (j + 1) := by
  unfold Ring.nextOff
  simp only [List.length_append, List.length_replicate, List.length_map]
  rw [Nat.mod_eq_of_lt (by omega)]
  omega

theorem nextOff_layout_last (e : Nat) (segs : List Reassembly) (j : Nat)
    (h : j + 1 = segs.length) :
    Ring.nextOff (List.replicate e none ++ segs.map some) (e + j) = 0 := by
  unfold Ring.nextOff
  simp only [List.length_append, List.length_replicate, List.length_map]
  have : e + j + 1 = e + segs.length := by omega
  rw [this, Nat.mod_self]

theorem last_Difference (segs : List Reassembly) (hc : Contiguous segs = true)
    (hne : ∀ s ∈ segs, s.Bytes ≠ []) (sb : Reassembly) (h0 : segs[0]? = some sb)
    (end_ E : Int) (hE : SeqAt sb.Seq end_ E) (hw1 : E < 2147483648)
    (hw2 : (((segs.map (fun s => s.Bytes)).flatten).length : Int) - E ≤ 2147483648)
    (j : Nat) (s : Reassembly) (h : segs[j]? = some s) :
    Sequence.Difference (getRingSegmentLastSequence s) end_ =
      E - ((bytesBefore segs j : Int) + ((s.Bytes.length : Int) - 1)) := by
  have hb := segment_bounds segs hne j s h
  apply Difference_of_SeqAt sb.Seq _ _ _ _ (segment_last_SeqAt segs hc sb h0 j s h) hE <;> omega

theorem getTailLoop_diverges (e : Nat) (segs : List Reassembly) (he : e = 0)
    (hc : Contiguous segs = true) (hne : ∀ s ∈ segs, s.Bytes ≠ []) (sb : Reassembly)
    (h0 : segs[0]? = some sb) (end_ E : Int) (hE : SeqAt sb.Seq end_ E)
    (hw1 : E < 2147483648)
    (hbeyond : (((segs.map (fun s => s.Bytes)).flatten).length : Int) ≤ E) :
    ∀ (fuel j : Nat) (s : Reassembly), segs[j]? = some s →
      getTailLoop (List.replicate e none ++ segs.map some) end_ fuel (e + j) =
        .error Fault.noReturn := by
  intro fuel
  induction fuel with
  | zero => intro j s _; rfl
  | succ f ih =>
    intro j s h
    have hb := segment_bounds segs hne j s h
    have hd := last_Difference segs hc hne sb h0 end_ E hE hw1 (by omega) j s h
    have hj := getElem?_lt segs j s h
    unfold getTailLoop
    rw [valueAt_layout_seg, h]
    simp only []
    rw [if_neg (by omega)]
    rcases Nat.lt_or_ge (j + 1) segs.length with h1 | h1
    · rw [nextOff_layout_lt e segs j h1, valueAt_layout_seg]
      have h2 : segs[j + 1]? = some segs[j + 1] := List.getElem?_eq_getElem h1
      rw [h2]
      exact ih (j + 1) _ h2
    · rw [nextOff_layout_last e segs j (by omega)]
      have h3 : (0 : Nat) = e + 0 := by omega
      rw [h3, valueAt_layout_seg, h0]
      exact ih 0 sb h0

theorem getTailLoop_ok (e : Nat) (segs : List Reassembly)
    (hc : Contiguous segs = true) (hne : ∀ s ∈ segs, s.Bytes ≠ []) (sb : Reassembly)
    (h0 : segs[0]? = some sb) (end_ E : Int) (hE : SeqAt sb.Seq end_ E)
    (hw1 : E < 2147483648)
    (hw2 : (((segs.map (fun s => s.Bytes)).flatten).length : Int) - E ≤ 2147483648) :
    ∀ (fuel j : Nat) (s : Reassembly) (t : Nat), segs[j]? = some s →
      (bytesBefore segs j : Int) ≤ E →
      getTailLoop (List.replicate e none ++ segs.map some) end_ fuel (e + j) = .ok t →
      ∃ j1 s1, t = e + j1 ∧ j ≤ j1 ∧ segs[j1]? = some s1 ∧ (bytesBefore segs j1 : Int) ≤ E := by
  intro fuel
  induction fuel with
  | zero => intro j s t _ _ hres; simp [getTailLoop] at hres
  | succ f ih =>
    intro j s t h hle hres
    have hb := segment_bounds segs hne j s h
    have hd := last_Difference segs hc hne sb h0 end_ E hE hw1 hw2 j s h
    have hj := getElem?_lt segs j s h
    unfold getTailLoop at hres
    rw [valueAt_layout_seg, h] at hres
    simp only [] at hres
    split_ifs at hres with h1
    · cases hres
      exact ⟨j, s, rfl, Nat.le_refl _, h, hle⟩
    · rcases Nat.lt_or_ge (j + 1) segs.length with h2 | h2
      · rw [nextOff_layout_lt e segs j h2, valueAt_layout_seg] at hres
        have h3 : segs[j + 1]? = some segs[j + 1] := List.getElem?_eq_getElem h2
        rw [h3] at hres
        simp only [] at hres
        have h4 : (bytesBefore segs (j + 1) : Int) ≤ E := by
          rw [bytesBefore_succ segs j s h]; push_cast; omega
        obtain ⟨j1, s1, a1, a2, a3, a4⟩ := ih (j + 1) _ t h3 h4 hres
        exact ⟨j1, s1, a1, by omega, a3, a4⟩
      · rw [nextOff_layout_last e segs j (by omega)] at hres
        rcases Nat.eq_zero_or_pos e with he | he
        · have h3 : (0 : Nat) = e + 0 := by omega
          rw [h3, valueAt_layout_seg, h0] at hres
          simp only [] at hres
          have hT := bytesBefore_length segs
          have h5 : bytesBefore segs (j + 1) = bytesBefore segs segs.length := by
            congr 1; omega
          rw [bytesBefore_succ segs j s h] at h5
          have h6 := getTailLoop_diverges e segs he hc hne sb h0 end_ E hE hw1 (by omega) f 0 sb h0
          rw [h6] at hres
          cases hres
        · rw [valueAt_layout, if_pos he] at hres
          simp only [] at hres
          cases hres
          exact ⟨j, s, rfl, Nat.le_refl _, h, hle⟩

/-! ## Slices of the stored stream -/

theorem bytesBefore_lt (segs : List Reassembly)
    (j j1 : Nat) (s : Reassembly) (h : segs[j]? = some s) (hlt : j < j1) :
    bytesBefore segs j + s.Bytes.length ≤ bytesBefore segs j1 := by
  have h1 := bytesBefore_mono segs (j + 1) j1 (by omega)
  rw [bytesBefore_succ segs j s h] at h1
  exact h1

theorem segment_Seq_ne (segs : List Reassembly) (hc : Contiguous segs = true)
    (hne : ∀ s ∈ segs, s.Bytes ≠ []) (sb : Reassembly) (h0 : segs[0]? = some sb)
    (hT : (((segs.map (fun s => s.Bytes)).flatten).length : Int) ≤ 2147483648)
    (j j1 : Nat) (s s1 : Reassembly) (h : segs[j]? = some s) (h1 : segs[j1]? = some s1)
    (hlt : j < j1) : s.Seq ≠ s1.Seq := by
  obtain ⟨q, hq⟩ := segment_SeqAt segs hc sb h0 j s h
  obtain ⟨q1, hq1⟩ := segment_SeqAt segs hc sb h0 j1 s1 h1
  have h2 := bytesBefore_lt segs j j1 s h hlt
  have h3 := segment_bounds segs hne j s h
  have h4 := segment_bounds segs hne j1 s1 h1
  intro heq
  omega

theorem slice_same (segs : List Reassembly) (a : Nat) (s : Reassembly)
    (h : segs[a]? = some s) (x y : Nat) (hy : y ≤ s.Bytes.length) :
    (((segs.map (fun s => s.Bytes)).flatten).drop (bytesBefore segs a + x)).take (y - x) =
      (s.Bytes.take y).drop x := by
  rcases Nat.lt_or_ge y x with hxy | hxy
  · have h1 : y - x = 0 := by omega
    rw [h1, List.take_zero]
    symm
    apply List.drop_eq_nil_of_le
    rw [List.length_take]
    omega
  · rw [← List.drop_drop, stream_drop, bytesFrom_cons segs a s h,
      List.drop_append_of_le_length (by omega),
      List.take_append_of_le_length (by rw [List.length_drop]; omega), List.drop_take]

theorem slice_span (segs : List Reassembly) (a b : Nat) (sa sb1 : Reassembly)
    (ha : segs[a]? = some sa) (hb : segs[b]? = some sb1) (hab : a < b)
    (x y : Nat) (hx : x ≤ sa.Bytes.length) (hy : y ≤ sb1.Bytes.length) :
    (((segs.map (fun s => s.Bytes)).flatten).drop (bytesBefore segs a + x)).take
        (bytesBefore segs b + y - (bytesBefore segs a + x)) =
      sa.Bytes.drop x ++
        (bytesFrom segs (a + 1)).take (bytesBefore segs b - bytesBefore segs (a + 1)) ++
        sb1.Bytes.take y := by
  have h1 := bytesBefore_mono segs (a + 1) b (by omega)
  have h2 := bytesBefore_succ segs a sa ha
  have h3 : bytesBefore segs b + y - (bytesBefore segs a + x) =
      (sa.Bytes.drop x).length + ((bytesBefore segs b - bytesBefore segs (a + 1)) + y) := by
    rw [List.length_drop]; omega
  have h4 : (bytesFrom segs (a + 1)).drop (bytesBefore segs b - bytesBefore segs (a + 1)) =
      bytesFrom segs b := by
    rw [← stream_drop segs (a + 1), List.drop_drop]
    have : bytesBefore segs (a + 1) + (bytesBefore segs b - bytesBefore segs (a + 1)) =
        bytesBefore segs b := by omega
    rw [this, stream_drop]
  rw [← List.drop_drop, stream_drop, bytesFrom_cons segs a sa ha,
    List.drop_append_of_le_length hx, h3, List.take_append, List.take_add, h4,
    bytesFrom_cons segs b sb1 hb, List.take_append_of_le_length hy, List.append_assoc]

theorem getRingSliceLoop_ok (e : Nat) (segs : List Reassembly)
    (hc : Contiguous segs = true) (hne : ∀ s ∈ segs, s.Bytes ≠ []) (sb : Reassembly)
    (h0 : segs[0]? = some sb)
    (hT : (((segs.map (fun s => s.Bytes)).flatten).length : Int) ≤ 2147483648)
    (b : Nat) (sb1 : Reassembly) (hb : segs[b]? = some sb1) :
    ∀ (fuel j : Nat) (acc : List Byte), j ≤ b → b - j < fuel →
      getRingSliceLoop (List.replicate e none ++ segs.map some) sb1.Seq fuel (e + j) acc =
        .ok (acc ++ (bytesFrom segs j).take (bytesBefore segs b - bytesBefore segs j)) := by
  intro fuel
  induction fuel with
  | zero => intro j acc _ h; omega
  | succ f ih =>
    intro j acc hjb hfuel
    have hbl := getElem?_lt segs b sb1 hb
    unfold getRingSliceLoop
    rw [valueAt_layout_seg]
    rcases Nat.lt_or_ge j b with hlt | hge
    · have hj : segs[j]? = some segs[j] := List.getElem?_eq_getElem (by omega)
      rw [hj]
      simp only []
      rw [if_pos (segment_Seq_ne segs hc hne sb h0 hT j b _ sb1 hj hb hlt),
        nextOff_layout_lt e segs j (by omega), ih (j + 1) _ (by omega) (by omega)]
      have h1 := bytesBefore_lt segs j b _ hj hlt
      have h2 := bytesBefore_succ segs j _ hj
      have h3 : bytesBefore segs b - bytesBefore segs j =
          (segs[j]).Bytes.length + (bytesBefore segs b - bytesBefore segs (j + 1)) := by omega
      rw [bytesFrom_cons segs j _ hj, h3, List.take_append, List.append_assoc]
    · have : j = b := by omega
      subst this
      rw [hb]
      simp

/-! ## The search on a ring of contiguous segments -/

theorem valueAt_layout_some (e : Nat) (segs : List Reassembly) (i : Nat) (s : Reassembly)
    (h : Ring.valueAt (List.replicate e none ++ segs.map some) i = some s) :
    ∃ j, i = e + j ∧ segs[j]? = some s := by
  rw [valueAt_layout] at h
  split_ifs at h with h1
  exact ⟨i - e, by omega, h⟩

theorem search_found (e : Nat) (segs : List Reassembly)
    (hc : Contiguous segs = true) (hne : ∀ s ∈ segs, s.Bytes ≠ []) (sb : Reassembly)
    (h0 : segs[0]? = some sb) (start : Int) (L head tail : Nat) (hL : 0 < L)
    (hLmax : (L : Int) ≤ 2147483648)
    (hw1 : (((segs.map (fun s => s.Bytes)).flatten).length : Int) -
      Sequence.Difference sb.Seq start ≤ 2147483648)
    (hw2 : Sequence.Difference sb.Seq start + (L : Int) ≤ 2147483648)
    (hfound : getOverlapRingsOn (List.replicate e none ++ segs.map some) start
      (Sequence.Add start ((L : Int) - 1)) = .ok (some (head, tail))) :
    ∃ (a b : Nat) (hv tv : Reassembly), head = e + a ∧ tail = e + b ∧ a ≤ b ∧
      segs[a]? = some hv ∧ segs[b]? = some tv ∧
      Sequence.Difference sb.Seq start ≤
        (bytesBefore segs a : Int) + ((hv.Bytes.length : Int) - 1) ∧
      (bytesBefore segs b : Int) ≤ Sequence.Difference sb.Seq start + ((L : Int) - 1) := by
  have hS := SeqAt_Difference sb.Seq start
  have hE := SeqAt_Add sb.Seq start _ ((L : Int) - 1) hS
  unfold getOverlapRingsOn at hfound
  cases hh : getHeadFromRing (List.replicate e none ++ segs.map some) start
      (Sequence.Add start ((L : Int) - 1)) with
  | error err => simp [hh] at hfound
  | ok ho =>
    cases ho with
    | none => simp [hh] at hfound
    | some h1 =>
      simp only [hh] at hfound
      cases ht : getTailFromRing (List.replicate e none ++ segs.map some) h1
          (Sequence.Add start ((L : Int) - 1)) with
      | error err => simp [ht] at hfound
      | ok t1 =>
        simp only [ht] at hfound
        have hfound2 : h1 = head ∧ t1 = tail := by
          simpa using hfound
        obtain ⟨rfl, rfl⟩ := hfound2
        obtain ⟨hv, hhv, hcase⟩ := getHeadFromRing_some _ start _ h1 hh
        obtain ⟨a, rfl, ha⟩ := valueAt_layout_some e segs h1 hv hhv
        have hba := segment_bounds segs hne a hv ha
        have hpa := segment_SeqAt segs hc sb h0 a hv ha
        have hla := segment_last_SeqAt segs hc sb h0 a hv ha
        have d1 : Sequence.Difference hv.Seq start =
            Sequence.Difference sb.Seq start - (bytesBefore segs a : Int) := by
          apply Difference_of_SeqAt sb.Seq _ _ _ _ hpa hS <;> omega
        have d2 : Sequence.Difference start (getRingSegmentLastSequence hv) =
            (bytesBefore segs a : Int) + ((hv.Bytes.length : Int) - 1) -
              Sequence.Difference sb.Seq start := by
          apply Difference_of_SeqAt sb.Seq _ _ _ _ hS hla <;> omega
        have d3 : Sequence.Difference hv.Seq (Sequence.Add start ((L : Int) - 1)) =
            Sequence.Difference sb.Seq start + ((L : Int) - 1) - (bytesBefore segs a : Int) := by
          apply Difference_of_SeqAt sb.Seq _ _ _ _ hpa hE <;> omega
        rw [d1, d2, d3] at hcase
        unfold getTailFromRing at ht
        obtain ⟨b, tv, rfl, hab, hb, hle⟩ := getTailLoop_ok e segs hc hne sb h0 _ _ hE
          (by omega) (by omega) _ a hv t1 ha (by omega) ht
        exact ⟨a, b, hv, tv, rfl, rfl, hab, ha, hb, by omega, hle⟩

/-! ## The extraction on a ring of contiguous segments -/

set_option maxHeartbeats 1600000 in
theorem overlap_bytes_layout (e : Nat) (segs : List Reassembly)
    (hc : Contiguous segs = true) (hne : ∀ s ∈ segs, s.Bytes ≠ []) (sb : Reassembly)
    (h0 : segs[0]? = some sb) (start : Int) (L : Nat) (hL : 0 < L)
    (hT : (((segs.map (fun s => s.Bytes)).flatten).length : Int) ≤ 2147483648)
    (hLmax : (L : Int) ≤ 2147483648)
    (hw1 : (((segs.map (fun s => s.Bytes)).flatten).length : Int) -
      Sequence.Difference sb.Seq start ≤ 2147483648)
    (hw2 : Sequence.Difference sb.Seq start + (L : Int) ≤ 2147483648)
    (a b : Nat) (hv tv : Reassembly) (hab : a ≤ b)
    (ha : segs[a]? = some hv) (hb : segs[b]? = some tv)
    (hS1 : Sequence.Difference sb.Seq start ≤
      (bytesBefore segs a : Int) + ((hv.Bytes.length : Int) - 1))
    (hE1 : (bytesBefore segs b : Int) ≤ Sequence.Difference sb.Seq start + ((L : Int) - 1))
    (u v : Int)
    (hu : u = max (bytesBefore segs a : Int) (Sequence.Difference sb.Seq start))
    (hv1 : v = min ((bytesBefore segs b : Int) + ((tv.Bytes.length : Int) - 1))
      (Sequence.Difference sb.Seq start + ((L : Int) - 1))) :
    getOverlapBytes (List.replicate e none ++ segs.map some) (some (e + a)) (some (e + b)) start
        (Sequence.Add start ((L : Int) - 1)) =
      .ok ((((segs.map (fun s => s.Bytes)).flatten).drop u.toNat).take (v - u + 1).toNat,
        u - Sequence.Difference sb.Seq start,
        (u - Sequence.Difference sb.Seq start) + (v - u + 1)) := by
  have hS := SeqAt_Difference sb.Seq start
  have hE := SeqAt_Add sb.Seq start _ ((L : Int) - 1) hS
  have hba := segment_bounds segs hne a hv ha
  have hbb := segment_bounds segs hne b tv hb
  have hpa := segment_SeqAt segs hc sb h0 a hv ha
  have hlb := segment_last_SeqAt segs hc sb h0 b tv hb
  have hmono := bytesBefore_mono segs a b hab
  have hu1 : (bytesBefore segs a : Int) ≤ u := by omega
  have hu2 : Sequence.Difference sb.Seq start ≤ u := by omega
  have hu3 : u = (bytesBefore segs a : Int) ∨ u = Sequence.Difference sb.Seq start := by omega
  have hv2 : v ≤ (bytesBefore segs b : Int) + ((tv.Bytes.length : Int) - 1) := by omega
  have hv3 : v ≤ Sequence.Difference sb.Seq start + ((L : Int) - 1) := by omega
  have hv4 : v = (bytesBefore segs b : Int) + ((tv.Bytes.length : Int) - 1) ∨
      v = Sequence.Difference sb.Seq start + ((L : Int) - 1) := by omega
  clear hu hv1
  have d1 : Sequence.Difference hv.Seq start =
      Sequence.Difference sb.Seq start - (bytesBefore segs a : Int) := by
    apply Difference_of_SeqAt sb.Seq _ _ _ _ hpa hS <;> omega
  have d2 : Sequence.Difference (getRingSegmentLastSequence tv)
      (Sequence.Add start ((L : Int) - 1)) =
      Sequence.Difference sb.Seq start + ((L : Int) - 1) -
        ((bytesBefore segs b : Int) + ((tv.Bytes.length : Int) - 1)) := by
    apply Difference_of_SeqAt sb.Seq _ _ _ _ hlb hE <;> omega
  have hss : SeqAt sb.Seq (getStartSequence hv start) u := by
    unfold getStartSequence
    rw [d1]
    split_ifs with hge
    · have : u = Sequence.Difference sb.Seq start := by omega
      rw [this]; exact hS
    · have : u = (bytesBefore segs a : Int) := by omega
      rw [this]; exact hpa
  have hes : SeqAt sb.Seq (getEndSequence tv (Sequence.Add start ((L : Int) - 1))) v := by
    unfold getEndSequence
    rw [d2]
    split_ifs with hge
    · have : v = Sequence.Difference sb.Seq start + ((L : Int) - 1) := by omega
      rw [this]; exact hE
    · have : v = (bytesBefore segs b : Int) + ((tv.Bytes.length : Int) - 1) := by omega
      rw [this]; exact hlb
  have oss : Sequence.Difference start (getStartSequence hv start) =
      u - Sequence.Difference sb.Seq start := by
    apply Difference_of_SeqAt sb.Seq _ _ _ _ hS hss <;> omega
  have hof : Sequence.Difference hv.Seq (getStartSequence hv start) =
      u - (bytesBefore segs a : Int) := by
    apply Difference_of_SeqAt sb.Seq _ _ _ _ hpa hss <;> omega
  have oeo : Sequence.Difference (getEndSequence tv (Sequence.Add start ((L : Int) - 1)))
      (Sequence.Add start ((L : Int) - 1)) =
      Sequence.Difference sb.Seq start + ((L : Int) - 1) - v := by
    apply Difference_of_SeqAt sb.Seq _ _ _ _ hes hE <;> omega
  have tof : Sequence.Difference (getEndSequence tv (Sequence.Add start ((L : Int) - 1)))
      (getRingSegmentLastSequence tv) =
      (bytesBefore segs b : Int) + ((tv.Bytes.length : Int) - 1) - v := by
    apply Difference_of_SeqAt sb.Seq _ _ _ _ hes hlb <;> omega
  have tot : Sequence.Difference start (Sequence.Add start ((L : Int) - 1)) = (L : Int) - 1 := by
    have := Difference_of_SeqAt sb.Seq _ _ _ _ hS hE (by omega) (by omega)
    rw [this]; omega
  unfold getOverlapBytes
  simp only [valueAt_layout_seg, ha, hb, getStartOverlapSequenceAndOffset, getHeadRingOffset,
    getEndOverlapSequenceAndOffset, getTailRingOffset, oss, hof, oeo, tof, tot]
  have hbl := getElem?_lt segs b tv hb
  rcases Nat.lt_or_ge a b with hlt | hge
  · have hlt2 := bytesBefore_lt segs a b hv ha hlt
    rw [if_neg (segment_Seq_ne segs hc hne sb h0 hT a b hv tv ha hb hlt)]
    unfold getRingSlice
    rw [if_neg (by omega)]
    simp only [valueAt_layout_seg, ha, hb]
    rw [if_neg (by omega), if_neg (by omega), if_neg (by omega),
      nextOff_layout_lt e segs a (by omega),
      getRingSliceLoop_ok e segs hc hne sb h0 hT b tv hb _ (a + 1) _ (by omega)
        (by simp only [List.length_append, List.length_replicate, List.length_map]; omega)]
    simp only []
    have e1 : u.toNat = bytesBefore segs a + (u - (bytesBefore segs a : Int)).toNat := by omega
    have e2 : (v - u + 1).toNat =
        bytesBefore segs b +
          ((tv.Bytes.length : Int) -
            ((bytesBefore segs b : Int) + ((tv.Bytes.length : Int) - 1) - v)).toNat -
          (bytesBefore segs a + (u - (bytesBefore segs a : Int)).toNat) := by omega
    rw [e1, e2, slice_span segs a b hv tv ha hb hlt _ _ (by omega) (by omega)]
    congr 2
    refine Prod.ext rfl ?_
    simp only []
    omega
  · have hab2 : a = b := by omega
    subst hab2
    rw [ha] at hb
    cases hb
    rw [if_pos rfl]
    unfold sliceBytes
    rw [if_pos (by omega)]
    simp only []
    have e1 : u.toNat = bytesBefore segs a + (u - (bytesBefore segs a : Int)).toNat := by omega
    have e2 : (v - u + 1).toNat =
        ((hv.Bytes.length : Int) -
            ((bytesBefore segs a : Int) + ((hv.Bytes.length : Int) - 1) - v)).toNat -
          (u - (bytesBefore segs a : Int)).toNat := by omega
    have e3 : ((hv.Bytes.length : Int) -
        ((bytesBefore segs a : Int) + ((hv.Bytes.length : Int) - 1) - v)).toNat ≤
          hv.Bytes.length := by omega
    rw [e1, e2, slice_same segs a hv ha _ _ e3]
    congr 2
    refine Prod.ext rfl ?_
    simp only []
    omega

theorem found_head_value (r : Ring) (start end_ : Int) (head tail : Nat)
    (hfound : getOverlapRingsOn r start end_ = .ok (some (head, tail))) :
    ∃ hv, r.valueAt head = some hv := by
  unfold getOverlapRingsOn at hfound
  cases hh : getHeadFromRing r start end_ with
  | error err => simp [hh] at hfound
  | ok ho =>
    cases ho with
    | none => simp [hh] at hfound
    | some h1 =>
      simp only [hh] at hfound
      cases ht : getTailFromRing r h1 end_ with
      | error err => simp [ht] at hfound
      | ok t1 =>
        simp only [ht] at hfound
        have hfound2 : h1 = head ∧ t1 = tail := by
          simpa using hfound
        obtain ⟨rfl, rfl⟩ := hfound2
        obtain ⟨hv, hhv, _⟩ := getHeadFromRing_some r start end_ h1 hh
        exact ⟨hv, hhv⟩

set_option maxHeartbeats 1600000 in
/-- **C2.** Overlap extraction: on a ring of contiguous segments, for an
incoming range `[start, end]` of `L ≥ 1` bytes and the `(head, tail)` found by
the search, with `overlapStart = max(head.seq, start)` and
`overlapEnd = min(tail.seq + len(tail.bytes) - 1, end)` (as positions in the
stored stream), `getOverlapBytes` returns normally; the returned bytes are
exactly the stored stream bytes at the positions `overlapStart .. overlapEnd`,
the returned start offset is `overlapStart - start` and the returned end offset
is `(overlapStart - start) + (overlapEnd - overlapStart + 1)`.  The stored
stream and the incoming range lie within a window of 2^31 sequence numbers, in
which `Difference` orders sequence numbers. -/
theorem overlap_extraction_exact (r : Ring) (start : Int) (L head tail : Nat)
    (hr : RingContiguous r) (hL : 0 < L)
    (hT : (r.stream.length : Int) ≤ 2147483648) (hLmax : (L : Int) ≤ 2147483648)
    (hw1 : (r.stream.length : Int) - r.position start ≤ 2147483648)
    (hw2 : r.position start + (L : Int) ≤ 2147483648)
    (hfound : getOverlapRingsOn r start (Sequence.Add start ((L : Int) - 1)) =
      .ok (some (head, tail))) :
    ∃ hv tv, r.valueAt head = some hv ∧ r.valueAt tail = some tv ∧
      0 ≤ max (r.position hv.Seq) (r.position start) ∧
      max (r.position hv.Seq) (r.position start) ≤
        min (r.position (getRingSegmentLastSequence tv))
          (r.position (Sequence.Add start ((L : Int) - 1))) ∧
      min (r.position (getRingSegmentLastSequence tv))
          (r.position (Sequence.Add start ((L : Int) - 1))) < (r.stream.length : Int) ∧
      getOverlapBytes r (some head) (some tail) start (Sequence.Add start ((L : Int) - 1)) =
        .ok (r.streamSlice (max (r.position hv.Seq) (r.position start))
              (min (r.position (getRingSegmentLastSequence tv))
                (r.position (Sequence.Add start ((L : Int) - 1)))),
            max (r.position hv.Seq) (r.position start) - r.position start,
            (max (r.position hv.Seq) (r.position start) - r.position start) +
              (min (r.position (getRingSegmentLastSequence tv))
                  (r.position (Sequence.Add start ((L : Int) - 1))) -
                max (r.position hv.Seq) (r.position start) + 1)) := by
  obtain ⟨hlay, hne, hc⟩ := hr
  unfold Ring.streamSlice Ring.position Ring.stream at *
  generalize hs : r.segments = segs at *
  generalize he : r.length - segs.length = e at hlay
  subst hlay
  obtain ⟨hv0, hhv0⟩ := found_head_value _ _ _ _ _ hfound
  obtain ⟨j0, _, hj0⟩ := valueAt_layout_some e segs head hv0 hhv0
  have hlen := getElem?_lt segs j0 hv0 hj0
  obtain ⟨sb, h0⟩ : ∃ sb, segs[0]? = some sb :=
    ⟨segs[0], List.getElem?_eq_getElem (by omega)⟩
  have hhead : segs.head? = some sb := by
    rw [List.head?_eq_getElem?]; exact h0
  simp only [hhead] at hw1 hw2 ⊢
  obtain ⟨a, b, hv, tv, rfl, rfl, hab, ha, hb, hS1, hE1⟩ :=
    search_found e segs hc hne sb h0 start L _ _ hL hLmax hw1 hw2 hfound
  clear hfound hhv0 hj0 hhead he hs
  have hS := SeqAt_Difference sb.Seq start
  have hE := SeqAt_Add sb.Seq start _ ((L : Int) - 1) hS
  have hba := segment_bounds segs hne a hv ha
  have hbb := segment_bounds segs hne b tv hb
  have hmono := bytesBefore_mono segs a b hab
  have hlast : bytesBefore segs a + hv.Bytes.length ≤ bytesBefore segs b + tv.Bytes.length := by
    rcases Nat.lt_or_ge a b with hlt | hge
    · have := bytesBefore_lt segs a b hv ha hlt
      omega
    · have hab2 : a = b := by omega
      subst hab2
      rw [ha] at hb
      cases hb
      exact Nat.le_refl _
  have p1 : Sequence.Difference sb.Seq hv.Seq = (bytesBefore segs a : Int) := by
    have := Difference_of_SeqAt _ _ _ _ _ (SeqAt_self sb.Seq)
      (segment_SeqAt segs hc _ h0 a hv ha) (by omega) (by omega)
    rw [this]; omega
  have p2 : Sequence.Difference sb.Seq (getRingSegmentLastSequence tv) =
      (bytesBefore segs b : Int) + ((tv.Bytes.length : Int) - 1) := by
    have := Difference_of_SeqAt _ _ _ _ _ (SeqAt_self sb.Seq)
      (segment_last_SeqAt segs hc _ h0 b tv hb) (by omega) (by omega)
    rw [this]; omega
  have p3 : Sequence.Difference sb.Seq (Sequence.Add start ((L : Int) - 1)) =
      Sequence.Difference sb.Seq start + ((L : Int) - 1) := by
    have := Difference_of_SeqAt _ _ _ _ _ (SeqAt_self sb.Seq) hE (by omega) (by omega)
    rw [this]; omega
  refine ⟨hv, tv, by rw [valueAt_layout_seg]; exact ha, by rw [valueAt_layout_seg]; exact hb,
    ?_, ?_, ?_, ?_⟩
  · rw [p1]; omega
  · rw [p1, p2, p3]; omega
  · rw [p2, p3]; omega
  · rw [p1, p2, p3]
    exact overlap_bytes_layout e segs hc hne sb h0 start L hL hT hLmax hw1 hw2 a b hv tv hab
      ha hb hS1 hE1 _ _ rfl rfl

theorem overlap_extraction_exact_witness :
    (∃ hv tv, abcRingExample.valueAt 39 = some hv ∧ abcRingExample.valueAt 39 = some tv ∧
      0 ≤ max (abcRingExample.position hv.Seq) (abcRingExample.position 1003) ∧
      max (abcRingExample.position hv.Seq) (abcRingExample.position 1003) ≤
        min (abcRingExample.position (getRingSegmentLastSequence tv))
          (abcRingExample.position (Sequence.Add 1003 (((3 : Nat) : Int) - 1))) ∧
      min (abcRingExample.position (getRingSegmentLastSequence tv))
          (abcRingExample.position (Sequence.Add 1003 (((3 : Nat) : Int) - 1))) <
        (abcRingExample.stream.length : Int) ∧
      getOverlapBytes abcRingExample (some 39) (some 39) 1003
          (Sequence.Add 1003 (((3 : Nat) : Int) - 1)) =
        .ok (abcRingExample.streamSlice
              (max (abcRingExample.position hv.Seq) (abcRingExample.position 1003))
              (min (abcRingExample.position (getRingSegmentLastSequence tv))
                (abcRingExample.position (Sequence.Add 1003 (((3 : Nat) : Int) - 1)))),
            max (abcRingExample.position hv.Seq) (abcRingExample.position 1003) -
              abcRingExample.position 1003,
            (max (abcRingExample.position hv.Seq) (abcRingExample.position 1003) -
                abcRingExample.position 1003) +
              (min (abcRingExample.position (getRingSegmentLastSequence tv))
                  (abcRingExample.position (Sequence.Add 1003 (((3 : Nat) : Int) - 1))) -
                max (abcRingExample.position hv.Seq) (abcRingExample.position 1003) + 1))) ∧
      getOverlapBytes abcRingExample (some 39) (some 39) 1003 1005 = .ok ([99], 0, 1) ∧
      sliceBytes [99, 100, 101] 0 1 = .ok [99] :=
  ⟨overlap_extraction_exact abcRingExample 1003 3 39 39 ⟨by decide, by decide, by decide⟩
      (by decide) (by decide) (by decide) (by decide) (by decide) (by decide),
    by decide, by decide⟩

/-! ## The connection tracker: Put, Get, Has -/

/-- **C11 (counterexample).** After `Put(reverse(key), 1)` and then
`Put(key, 2)`, `Get(reverse(key))` returns the connection 1 of the forward map
and not the connection 2 that was put last. -/
theorem tracker_put_reverse_lookup_stale :
    ((NewConnTracker.Put exampleFlow.Reverse 1).Put exampleFlow 2).Get exampleFlow.Reverse =
        .ok 1 ∧
      ((NewConnTracker.Put exampleFlow.Reverse 1).Put exampleFlow 2).Get exampleFlow.Reverse ≠
        .ok 2 := by
  decide

/-- **C11 (amended).** Tracker put: for every tracker state, every key and
every connection `conn`, after `Put(key, conn)` both `Has(key)` and
`Has(reverse(key))` are true and `Get(key)` returns `conn` without error;
`Get(reverse(key))` returns `conn` without error exactly when, before the
`Put`, the forward map held no entry for `reverse(key)` or held `conn` there,
or when `key` is its own reverse; otherwise it returns, without error, the
entry that the forward map held for `reverse(key)`. -/
theorem tracker_put_aliases (t : ConnTracker) (key : TcpIpFlow) (conn : ConnPtr) :
    (t.Put key conn).Has key = true ∧ (t.Put key conn).Has key.Reverse = true ∧
      (t.Put key conn).Get key = .ok conn ∧
      ((t.Put key conn).Get key.Reverse = .ok conn ↔
        (t.flowAMap key.Reverse = none ∨ t.flowAMap key.Reverse = some conn ∨
          key.Reverse = key)) ∧
      (∀ old, key.Reverse ≠ key → t.flowAMap key.Reverse = some old →
        (t.Put key conn).Get key.Reverse = .ok old) := by
  refine ⟨?_, ?_, ?_, ?_, ?_⟩
  · simp [ConnTracker.Has, ConnTracker.Put]
  · simp [ConnTracker.Has, ConnTracker.Put]
  · simp [ConnTracker.Get, ConnTracker.Put]
  · by_cases hk : key.Reverse = key
    · simp [ConnTracker.Get, ConnTracker.Put, hk]
    · cases h : t.flowAMap key.Reverse with
      | none => simp [ConnTracker.Get, ConnTracker.Put, hk, h]
      | some old => simp [ConnTracker.Get, ConnTracker.Put, hk, h]
  · intro old hk h
    simp [ConnTracker.Get, ConnTracker.Put, hk, h]

theorem tracker_put_aliases_witness :
    (NewConnTracker.Put exampleFlow 7).Has exampleFlow = true ∧
      (NewConnTracker.Put exampleFlow 7).Has exampleFlow.Reverse = true ∧
      (NewConnTracker.Put exampleFlow 7).Get exampleFlow = .ok 7 ∧
      (NewConnTracker.Put exampleFlow 7).Get exampleFlow.Reverse = .ok 7 ∧
      ((NewConnTracker.Put exampleFlow.Reverse 3).Put exampleFlow 7).Has exampleFlow.Reverse =
        true ∧
      ((NewConnTracker.Put exampleFlow.Reverse 3).Put exampleFlow 7).Get exampleFlow = .ok 7 ∧
      ((NewConnTracker.Put exampleFlow.Reverse 3).Put exampleFlow 7).Get exampleFlow.Reverse =
        .ok 3 :=
  ⟨(tracker_put_aliases NewConnTracker exampleFlow 7).1,
    (tracker_put_aliases NewConnTracker exampleFlow 7).2.1,
    (tracker_put_aliases NewConnTracker exampleFlow 7).2.2.1,
    (tracker_put_aliases NewConnTracker exampleFlow 7).2.2.2.1.mpr (Or.inl rfl),
    (tracker_put_aliases (NewConnTracker.Put exampleFlow.Reverse 3) exampleFlow 7).2.1,
    (tracker_put_aliases (NewConnTracker.Put exampleFlow.Reverse 3) exampleFlow 7).2.2.1,
    (tracker_put_aliases (NewConnTracker.Put exampleFlow.Reverse 3) exampleFlow 7).2.2.2.2 3
      (by decide) (by decide)⟩

/-- **C12.** Tracker lookup failure: `Get(key)` returns the error exactly when
`Has(key)` is false; when `key` is in the forward map `Get` returns that entry,
otherwise, when it is in the reverse map, the entry of the reverse map; on a
fresh tracker `Has` is false for every key. -/
theorem tracker_get_has (t : ConnTracker) (key : TcpIpFlow) :
    (t.Get key = .error TrackerError.failedToRetrieveFlow ↔ t.Has key = false) ∧
      ((∃ v, t.Get key = .ok v) ↔ t.Has key = true) ∧
      (∀ v, t.flowAMap key = some v → t.Get key = .ok v) ∧
      (∀ v, t.flowAMap key = none → t.flowBMap key = some v → t.Get key = .ok v) ∧
      NewConnTracker.Has key = false := by
  unfold ConnTracker.Get ConnTracker.Has
  cases hA : t.flowAMap key <;> cases hB : t.flowBMap key <;> simp [NewConnTracker]

theorem tracker_get_has_witness :
    ((NewConnTracker.Put exampleFlow 7).Get exampleFlow.Reverse =
        .error TrackerError.failedToRetrieveFlow ↔
      (NewConnTracker.Put exampleFlow 7).Has exampleFlow.Reverse = false) ∧
    ((∃ v, (NewConnTracker.Put exampleFlow 7).Get exampleFlow.Reverse = .ok v) ↔
      (NewConnTracker.Put exampleFlow 7).Has exampleFlow.Reverse = true) ∧
    (∀ v, (NewConnTracker.Put exampleFlow 7).flowAMap exampleFlow.Reverse = some v →
      (NewConnTracker.Put exampleFlow 7).Get exampleFlow.Reverse = .ok v) ∧
    (∀ v, (NewConnTracker.Put exampleFlow 7).flowAMap exampleFlow.Reverse = none →
      (NewConnTracker.Put exampleFlow 7).flowBMap exampleFlow.Reverse = some v →
      (NewConnTracker.Put exampleFlow 7).Get exampleFlow.Reverse = .ok v) ∧
    NewConnTracker.Has exampleFlow.Reverse = false :=
  tracker_get_has (NewConnTracker.Put exampleFlow 7) exampleFlow.Reverse

/-- **C20.** Flow reversal is an involution: `reverse(f)` is
`(dstIP, dstPort, srcIP, srcPort)` and `reverse(reverse(f))` equals `f` under
`Equal`, which is tuple equality. -/
theorem flow_reverse_involution (f : TcpIpFlow) :
    f.Reverse = { srcIP := f.dstIP, srcPort := f.dstPort, dstIP := f.srcIP, dstPort := f.srcPort } ∧
      f.Reverse.Reverse = f ∧ f.Reverse.Reverse.Equal f = true ∧
      (∀ g : TcpIpFlow, f.Equal g = true ↔
        (f.srcIP = g.srcIP ∧ f.srcPort = g.srcPort ∧ f.dstIP = g.dstIP ∧ f.dstPort = g.dstPort)) := by
  refine ⟨rfl, rfl, ?_, ?_⟩
  · simp [TcpIpFlow.Equal, TcpIpFlow.Reverse]
  · intro g
    cases f; cases g
    simp [TcpIpFlow.Equal]

/-! ## Appending to a ring -/

theorem append_eq_tail (r : Ring) (v : Reassembly) (hr : r ≠ []) :
    r.append v = r.tail ++ [some v] := by
  cases r with
  | nil => exact absurd rfl hr
  | cons x xs => rfl

theorem append_layout_empty_cell (e : Nat) (segs : List Reassembly) (v : Reassembly) :
    Ring.append (List.replicate (e + 1) none ++ segs.map some) v =
      List.replicate e none ++ (segs ++ [v]).map some := by
  rw [append_eq_tail _ _ (by simp [List.replicate_succ])]
  simp [List.replicate_succ]

theorem append_layout_full (s0 : Reassembly) (rest : List Reassembly) (v : Reassembly) :
    Ring.append (List.replicate 0 none ++ (s0 :: rest).map some) v =
      List.replicate 0 none ++ (rest ++ [v]).map some := by
  rw [append_eq_tail _ _ (by simp)]
  simp

theorem appendAll_snoc (r : Ring) (vs : List Reassembly) (v : Reassembly) :
    r.appendAll (vs ++ [v]) = (r.appendAll vs).append v := by
  simp [Ring.appendAll, List.foldl_append]

/-- **C13.** Ring capacity and eviction: appending never fails (it is a total
function), and after appending any list of `n` segments to a fresh ring of
`MAX_CONN_PACKETS = 40` cells the ring, read from the ring pointer, consists of
`40 - min(n, 40)` empty cells followed by exactly the most recent `min(n, 40)`
appended segments in arrival order, the newest in the cell `Prev` of the ring
pointer; for `n < 40` the empty cells are the ones that follow the newest
segment in ring order. -/
theorem ring_holds_most_recent (vs : List Reassembly) :
    (Ring.New MAX_CONN_PACKETS).appendAll vs =
        List.replicate (40 - min vs.length 40) none ++
          (vs.drop (vs.length - min vs.length 40)).map some ∧
      ((Ring.New MAX_CONN_PACKETS).appendAll vs).length = 40 ∧
      ((Ring.New MAX_CONN_PACKETS).appendAll vs).segments =
        vs.drop (vs.length - min vs.length 40) ∧
      (vs.drop (vs.length - min vs.length 40)).length = min vs.length 40 := by
  have key : (Ring.New MAX_CONN_PACKETS).appendAll vs =
      List.replicate (40 - min vs.length 40) none ++
        (vs.drop (vs.length - min vs.length 40)).map some := by
    induction vs using List.reverseRecOn with
    | nil => simp [Ring.appendAll, Ring.New, MAX_CONN_PACKETS]
    | append_singleton vs v ih =>
      rw [appendAll_snoc, ih]
      rcases Nat.lt_or_ge vs.length 40 with hlt | hge
      · have h1 : min vs.length 40 = vs.length := by omega
        have h2 : min (vs ++ [v]).length 40 = vs.length + 1 := by
          simp only [List.length_append, List.length_singleton]; omega
        have h3 : 40 - vs.length = (40 - (vs.length + 1)) + 1 := by omega
        rw [h1, h2, Nat.sub_self, List.drop_zero, h3, append_layout_empty_cell]
        simp
      · have h1 : min vs.length 40 = 40 := by omega
        have h2 : min (vs ++ [v]).length 40 = 40 := by
          simp only [List.length_append, List.length_singleton]; omega
        rw [h1, h2, Nat.sub_self]
        have h4 : vs.length - 40 < vs.length := by omega
        rw [List.drop_eq_getElem_cons h4, append_layout_full]
        have h5 : (vs ++ [v]).length - 40 = vs.length - 40 + 1 := by
          simp only [List.length_append, List.length_singleton]; omega
        rw [h5, List.drop_append_of_le_length (by omega)]
  refine ⟨key, ?_, ?_, ?_⟩
  · rw [key]
    simp only [List.length_append, List.length_replicate, List.length_map, List.length_drop]
    omega
  · rw [key, segments_layout]
  · rw [List.length_drop]; omega

/-! ## Frame facts of the state handlers -/

theorem receivePacket_listen (c : Connection) (p : PacketManifest) (flow : TcpIpFlow)
    (h : c.state = TCP_LISTEN) :
    c.receivePacket p flow = Outcome.ok (c.countPacket.stateListen p flow) := by
  simp [Connection.receivePacket, Connection.countPacket, h]

theorem receivePacket_connectionRequest (c : Connection) (p : PacketManifest) (flow : TcpIpFlow)
    (h : c.state = TCP_CONNECTION_REQUEST) :
    c.receivePacket p flow = Outcome.ok (c.countPacket.stateConnectionRequest p flow) := by
  simp [Connection.receivePacket, Connection.countPacket, h, TCP_LISTEN, TCP_CONNECTION_REQUEST]

theorem receivePacket_connectionEstablished (c : Connection) (p : PacketManifest)
    (flow : TcpIpFlow) (h : c.state = TCP_CONNECTION_ESTABLISHED) :
    c.receivePacket p flow = Outcome.ok (c.countPacket.stateConnectionEstablished p flow) := by
  simp [Connection.receivePacket, Connection.countPacket, h, TCP_LISTEN, TCP_CONNECTION_REQUEST,
    TCP_CONNECTION_ESTABLISHED]

theorem receivePacket_connectionClosing (c : Connection) (p : PacketManifest) (flow : TcpIpFlow)
    (h : c.state = TCP_CONNECTION_CLOSING) :
    c.receivePacket p flow = Outcome.ok (c.countPacket.stateConnectionClosing p flow) := by
  simp [Connection.receivePacket, Connection.countPacket, h, TCP_LISTEN, TCP_CONNECTION_REQUEST,
    TCP_CONNECTION_ESTABLISHED, TCP_DATA_TRANSFER, TCP_CONNECTION_CLOSING]

theorem receivePacket_closed (c : Connection) (p : PacketManifest) (flow : TcpIpFlow)
    (h : c.state = TCP_CLOSED) :
    c.receivePacket p flow = Outcome.ok c.countPacket := by
  simp [Connection.receivePacket, Connection.countPacket, Connection.stateClosed, h, TCP_LISTEN,
    TCP_CONNECTION_REQUEST, TCP_CONNECTION_ESTABLISHED, TCP_DATA_TRANSFER, TCP_CONNECTION_CLOSING,
    TCP_CLOSED]

theorem receivePacket_no_handler (c : Connection) (p : PacketManifest) (flow : TcpIpFlow)
    (h : 5 < c.state) :
    c.receivePacket p flow = Outcome.ok c.countPacket := by
  have h0 : c.state ≠ 0 := by omega
  have h1 : c.state ≠ 1 := by omega
  have h2 : c.state ≠ 2 := by omega
  have h3 : c.state ≠ 3 := by omega
  have h4 : c.state ≠ 4 := by omega
  have h5 : c.state ≠ 5 := by omega
  simp [Connection.receivePacket, Connection.countPacket, h0, h1, h2, h3, h4, h5, TCP_LISTEN,
    TCP_CONNECTION_REQUEST, TCP_CONNECTION_ESTABLISHED, TCP_DATA_TRANSFER, TCP_CONNECTION_CLOSING,
    TCP_CLOSED]

theorem stateListen_cases (c : Connection) (p : PacketManifest) (flow : TcpIpFlow) :
    (p.SYN = true ∧ p.ACK = false ∧
      c.stateListen p flow =
        { c with
          state := TCP_CONNECTION_REQUEST
          clientFlow := flow
          serverFlow := flow.Reverse
          clientNextSeq := Sequence.Add (p.Seq : Int) ((p.Payload.length : Int) + 1)
          hijackNextAck := Sequence.Add (p.Seq : Int) ((p.Payload.length : Int) + 1) }) ∨
      (¬ (p.SYN = true ∧ p.ACK = false) ∧ c.stateListen p flow = c) := by
  unfold Connection.stateListen
  cases hs : p.SYN <;> cases ha : p.ACK <;> simp

theorem stateConnectionRequest_cases (c : Connection) (p : PacketManifest) (flow : TcpIpFlow) :
    c.stateConnectionRequest p flow = c ∨
      c.stateConnectionRequest p flow =
        { c with
          state := TCP_CONNECTION_ESTABLISHED
          serverNextSeq := Sequence.Add (p.Seq : Int) ((p.Payload.length : Int) + 1) } := by
  unfold Connection.stateConnectionRequest
  split_ifs
  · exact Or.inl rfl
  · exact Or.inl rfl
  · exact Or.inl rfl
  · exact Or.inr rfl

theorem stateConnectionEstablished_cases (c : Connection) (p : PacketManifest)
    (flow : TcpIpFlow) :
    ∃ R, c.stateConnectionEstablished p flow = { c with reports := R } ∨
      c.stateConnectionEstablished p flow = { c with reports := R, state := TCP_DATA_TRANSFER } := by
  obtain ⟨R, hR⟩ := detectHijack_only_reports c p flow
  refine ⟨R, ?_⟩
  unfold Connection.stateConnectionEstablished
  rw [hR]
  simp only []
  split_ifs
  · exact Or.inl rfl
  · exact Or.inl rfl
  · exact Or.inl rfl
  · exact Or.inl rfl
  · exact Or.inr rfl

theorem stateLastAck_cases (c : Connection) (p : PacketManifest) (side : Side) :
    c.stateLastAck p side = c ∨
      c.stateLastAck p side = { c with state := TCP_CLOSED, closeCount := c.closeCount + 1 } := by
  unfold Connection.stateLastAck Connection.Close
  split_ifs
  · exact Or.inl rfl
  · exact Or.inr rfl
  · exact Or.inl rfl
  · exact Or.inl rfl

theorem stateFinWait1_frame (c : Connection) (p : PacketManifest) (side : Side) :
    (c.stateFinWait1 p side).state = c.state ∧
      (c.stateFinWait1 p side).ClientStreamRing = c.ClientStreamRing ∧
      (c.stateFinWait1 p side).ServerStreamRing = c.ServerStreamRing ∧
      (c.stateFinWait1 p side).clientFlow = c.clientFlow ∧
      (c.stateFinWait1 p side).serverFlow = c.serverFlow := by
  unfold Connection.stateFinWait1
  cases side <;> split_ifs <;>
    simp [Connection.setSideState, Connection.setNextSeq, Side.other]

theorem stateFinWait2_frame (c : Connection) (p : PacketManifest) (side : Side) :
    (c.stateFinWait2 p side).state = c.state ∧
      (c.stateFinWait2 p side).ClientStreamRing = c.ClientStreamRing ∧
      (c.stateFinWait2 p side).ServerStreamRing = c.ServerStreamRing ∧
      (c.stateFinWait2 p side).clientFlow = c.clientFlow ∧
      (c.stateFinWait2 p side).serverFlow = c.serverFlow := by
  unfold Connection.stateFinWait2
  cases side <;> split_ifs <;>
    simp [Connection.setSideState, Connection.setNextSeq, Side.other]

theorem stateConnectionClosing_frame (c : Connection) (p : PacketManifest) (flow : TcpIpFlow) :
    ((c.stateConnectionClosing p flow).state = c.state ∨
        (c.stateConnectionClosing p flow).state = TCP_CLOSED) ∧
      (c.stateConnectionClosing p flow).ClientStreamRing = c.ClientStreamRing ∧
      (c.stateConnectionClosing p flow).ServerStreamRing = c.ServerStreamRing ∧
      (c.stateConnectionClosing p flow).clientFlow = c.clientFlow ∧
      (c.stateConnectionClosing p flow).serverFlow = c.serverFlow := by
  unfold Connection.stateConnectionClosing
  simp only []
  generalize (if c.clientFlow.Equal flow = true then Side.client else Side.server) = side
  split_ifs
  · exact ⟨Or.inl rfl, rfl, rfl, rfl, rfl⟩
  · rcases stateLastAck_cases c p side with h | h <;> rw [h]
    · exact ⟨Or.inl rfl, rfl, rfl, rfl, rfl⟩
    · exact ⟨Or.inr rfl, rfl, rfl, rfl, rfl⟩
  · exact ⟨Or.inl rfl, rfl, rfl, rfl, rfl⟩
  · have h := stateFinWait1_frame c p side
    exact ⟨Or.inl h.1, h.2⟩
  · have h := stateFinWait2_frame c p side
    exact ⟨Or.inl h.1, h.2⟩
  · exact ⟨Or.inl rfl, rfl, rfl, rfl, rfl⟩
  · exact ⟨Or.inl rfl, rfl, rfl, rfl, rfl⟩
  · exact ⟨Or.inl rfl, rfl, rfl, rfl, rfl⟩

theorem receivePacket_outside_dataTransfer (c : Connection) (p : PacketManifest)
    (flow : TcpIpFlow) (h : c.state ≠ TCP_DATA_TRANSFER) :
    ∃ c1, c.receivePacket p flow = Outcome.ok c1 ∧
      c1.ClientStreamRing = c.ClientStreamRing ∧ c1.ServerStreamRing = c.ServerStreamRing ∧
      (c1.state < TCP_DATA_TRANSFER → c.state < TCP_DATA_TRANSFER) ∧
      (c1.state = TCP_DATA_TRANSFER → c.state < TCP_DATA_TRANSFER) ∧
      (c.state ≠ TCP_LISTEN → c1.clientFlow = c.clientFlow ∧ c1.serverFlow = c.serverFlow) := by
  simp only [TCP_DATA_TRANSFER, TCP_LISTEN] at *
  rcases Nat.lt_or_ge 5 c.state with h6 | h6
  · refine ⟨_, receivePacket_no_handler c p flow h6, rfl, rfl, ?_, ?_, fun _ => ⟨rfl, rfl⟩⟩
    · intro h1; simp only [Connection.countPacket] at h1; omega
    · intro h1; simp only [Connection.countPacket] at h1; omega
  · have hcases : c.state = 0 ∨ c.state = 1 ∨ c.state = 2 ∨ c.state = 4 ∨ c.state = 5 := by omega
    rcases hcases with h0 | h1 | h2 | h4 | h5
    · refine ⟨_, receivePacket_listen c p flow h0, ?_⟩
      rcases stateListen_cases c.countPacket p flow with ⟨_, _, hl⟩ | ⟨_, hl⟩ <;> rw [hl] <;>
        simp [Connection.countPacket, h0, TCP_CONNECTION_REQUEST]
    · refine ⟨_, receivePacket_connectionRequest c p flow h1, ?_⟩
      rcases stateConnectionRequest_cases c.countPacket p flow with hl | hl <;> rw [hl] <;>
        simp [Connection.countPacket, h1, TCP_CONNECTION_ESTABLISHED]
    · refine ⟨_, receivePacket_connectionEstablished c p flow h2, ?_⟩
      obtain ⟨R, hl | hl⟩ := stateConnectionEstablished_cases c.countPacket p flow <;> rw [hl] <;>
        simp [Connection.countPacket, h2, TCP_DATA_TRANSFER]
    · refine ⟨_, receivePacket_connectionClosing c p flow h4, ?_⟩
      obtain ⟨hs, hr1, hr2, hf1, hf2⟩ := stateConnectionClosing_frame c.countPacket p flow
      refine ⟨hr1, hr2, ?_, ?_, fun _ => ⟨hf1, hf2⟩⟩
      · intro hlt
        rcases hs with hs | hs <;> rw [hs] at hlt <;>
          simp [Connection.countPacket, h4, TCP_CLOSED] at hlt
      · intro hlt
        rcases hs with hs | hs <;> rw [hs] at hlt <;>
          simp [Connection.countPacket, h4, TCP_CLOSED] at hlt
    · refine ⟨_, receivePacket_closed c p flow h5, rfl, rfl, ?_, ?_, fun _ => ⟨rfl, rfl⟩⟩
      · intro h1; simp only [Connection.countPacket] at h1; omega
      · intro h1; simp only [Connection.countPacket] at h1; omega

theorem detectInjection_ok (c c1 : Connection) (p : PacketManifest) (flow : TcpIpFlow)
    (h : c.detectInjection p flow = Outcome.ok c1) : ∃ R, c1 = { c with reports := R } := by
  unfold Connection.detectInjection at h
  split at h
  · cases h
  · split at h
    · cases h
    · split at h
      · cases h
      · split_ifs at h
        · cases h; exact ⟨_, rfl⟩
        · cases h; exact ⟨c.reports, rfl⟩

/-- What a returning `receivePacket` does in DATA_TRANSFER: nothing to the
stream (a), a change of state without touching the rings (b), or the append of
the contiguous segment of the client (c) or of the server (d). -/
theorem dataTransfer_step (c c1 : Connection) (p : PacketManifest) (flow : TcpIpFlow)
    (hst : c.state = TCP_DATA_TRANSFER) (hok : c.receivePacket p flow = Outcome.ok c1) :
    c1.clientFlow = c.clientFlow ∧ c1.serverFlow = c.serverFlow ∧
    ((c1.state = c.state ∧ c1.ClientStreamRing = c.ClientStreamRing ∧
        c1.ServerStreamRing = c.ServerStreamRing ∧ c1.clientNextSeq = c.clientNextSeq ∧
        c1.serverNextSeq = c.serverNextSeq) ∨
      ((c1.state = TCP_CONNECTION_CLOSING ∨ c1.state = TCP_CLOSED) ∧
        c1.ClientStreamRing = c.ClientStreamRing ∧ c1.ServerStreamRing = c.ServerStreamRing) ∨
      (flow = c.clientFlow ∧ Sequence.Difference (p.Seq : Int) c.clientNextSeq = 0 ∧
        p.Payload ≠ [] ∧ c1.state = c.state ∧
        c1.ServerStreamRing = c.ServerStreamRing.append
          { Start := false, End := false, Seq := (p.Seq : Int), Bytes := p.Payload } ∧
        c1.ClientStreamRing = c.ClientStreamRing ∧
        c1.clientNextSeq = Sequence.Add (p.Seq : Int) (p.Payload.length : Int) ∧
        c1.serverNextSeq = c.serverNextSeq) ∨
      (flow ≠ c.clientFlow ∧ Sequence.Difference (p.Seq : Int) c.serverNextSeq = 0 ∧
        p.Payload ≠ [] ∧ c1.state = c.state ∧
        c1.ClientStreamRing = c.ClientStreamRing.append
          { Start := false, End := false, Seq := (p.Seq : Int), Bytes := p.Payload } ∧
        c1.ServerStreamRing = c.ServerStreamRing ∧
        c1.serverNextSeq = Sequence.Add (p.Seq : Int) (p.Payload.length : Int) ∧
        c1.clientNextSeq = c.clientNextSeq)) := by
  rw [receivePacket_dataTransfer c p flow hst] at hok
  obtain ⟨R, hR⟩ := dataTransfer_hijack_only_reports
    { c with packetCount := (c.packetCount + 1) % 18446744073709551616 } p flow
  unfold Connection.stateDataTransfer at hok
  rw [hR] at hok
  simp only [] at hok
  by_cases hf : flow = c.clientFlow
  · subst hf
    have hf : c.clientFlow = c.clientFlow := rfl
    simp only [Equal_self, if_true, Connection.nextSeq, Connection.setNextSeq,
      Connection.setSideState, Side.other] at hok
    split_ifs at hok with hd1 hd0 hfin hrst hlen
    · obtain ⟨R1, rfl⟩ := detectInjection_ok _ _ _ _ hok
      exact ⟨rfl, rfl, Or.inl ⟨rfl, rfl, rfl, rfl, rfl⟩⟩
    · cases hok
      exact ⟨rfl, rfl, Or.inr (Or.inl ⟨Or.inl rfl, rfl, rfl⟩)⟩
    · cases hok
      exact ⟨rfl, rfl, Or.inr (Or.inl ⟨Or.inr rfl, rfl, rfl⟩)⟩
    · cases hok
      have hne : p.Payload ≠ [] := by
        intro hnil; simp [hnil] at hlen
      exact ⟨rfl, rfl, Or.inr (Or.inr (Or.inl ⟨hf, hd0, hne, rfl, rfl, rfl, rfl, rfl⟩))⟩
    · cases hok
      exact ⟨rfl, rfl, Or.inl ⟨rfl, rfl, rfl, rfl, rfl⟩⟩
    · cases hok
      exact ⟨rfl, rfl, Or.inl ⟨rfl, rfl, rfl, rfl, rfl⟩⟩
  · have hfe : flow.Equal c.clientFlow = false := by simp [TcpIpFlow.Equal, hf]
    simp only [hfe, hf, if_false, Bool.false_eq_true, Connection.nextSeq, Connection.setNextSeq,
      Connection.setSideState, Side.other] at hok
    split_ifs at hok with hd1 hd0 hfin hrst hlen
    · obtain ⟨R1, rfl⟩ := detectInjection_ok _ _ _ _ hok
      exact ⟨rfl, rfl, Or.inl ⟨rfl, rfl, rfl, rfl, rfl⟩⟩
    · cases hok
      exact ⟨rfl, rfl, Or.inr (Or.inl ⟨Or.inl rfl, rfl, rfl⟩)⟩
    · cases hok
      exact ⟨rfl, rfl, Or.inr (Or.inl ⟨Or.inr rfl, rfl, rfl⟩)⟩
    · cases hok
      have hne : p.Payload ≠ [] := by
        intro hnil; simp [hnil] at hlen
      exact ⟨rfl, rfl, Or.inr (Or.inr (Or.inr ⟨hf, hd0, hne, rfl, rfl, rfl, rfl, rfl⟩))⟩
    · cases hok
      exact ⟨rfl, rfl, Or.inl ⟨rfl, rfl, rfl, rfl, rfl⟩⟩
    · cases hok
      exact ⟨rfl, rfl, Or.inl ⟨rfl, rfl, rfl, rfl, rfl⟩⟩

/-! ## The ring invariant -/

theorem RingContiguous_of_layout (e : Nat) (segs : List Reassembly)
    (hne : ∀ s ∈ segs, s.Bytes ≠ []) (hc : Contiguous segs = true) :
    RingContiguous (List.replicate e none ++ segs.map some) := by
  unfold RingContiguous
  rw [segments_layout]
  refine ⟨?_, hne, hc⟩
  simp only [List.length_append, List.length_replicate, List.length_map]
  rw [Nat.add_sub_cancel]

theorem Contiguous_snoc : ∀ (segs : List Reassembly) (v : Reassembly),
    Contiguous segs = true →
    (∀ s, segs.getLast? = some s → v.Seq = Sequence.Add s.Seq (s.Bytes.length : Int)) →
    Contiguous (segs ++ [v]) = true
  | [], v, _, _ => rfl
  | [s], v, _, hl => by
    simp only [List.singleton_append, Contiguous, Bool.and_true, decide_eq_true_eq]
    exact hl s rfl
  | s1 :: s2 :: rest, v, hc, hl => by
    simp only [Contiguous, Bool.and_eq_true, decide_eq_true_eq] at hc
    simp only [List.cons_append, Contiguous, Bool.and_eq_true, decide_eq_true_eq]
    refine ⟨hc.1, ?_⟩
    have := Contiguous_snoc (s2 :: rest) v hc.2 (by
      intro s hs
      apply hl s
      rw [List.getLast?_cons_cons]
      exact hs)
    simpa using this

theorem Contiguous_tail (s : Reassembly) (rest : List Reassembly)
    (hc : Contiguous (s :: rest) = true) : Contiguous rest = true := by
  cases rest with
  | nil => rfl
  | cons s2 rest2 =>
    simp only [Contiguous, Bool.and_eq_true, decide_eq_true_eq] at hc
    exact hc.2

theorem append_contiguous (r : Ring) (next : Int) (v : Reassembly)
    (hr : RingContiguous r) (hend : RingEndsAt r next)
    (hv : Sequence.Difference v.Seq next = 0) (hvr : 0 ≤ v.Seq ∧ v.Seq < 4294967296)
    (hvne : v.Bytes ≠ []) :
    RingContiguous (r.append v) ∧
      RingEndsAt (r.append v) (Sequence.Add v.Seq (v.Bytes.length : Int)) := by
  obtain ⟨hlay, hne, hc⟩ := hr
  unfold RingEndsAt at hend
  generalize hs : r.segments = segs at *
  generalize he : r.length - segs.length = e at hlay
  subst hlay
  have hlink : ∀ s, segs.getLast? = some s →
      v.Seq = Sequence.Add s.Seq (s.Bytes.length : Int) := by
    intro s hs1
    have h1 := hend s hs1
    rw [Difference_eq_zero_iff] at hv
    rw [h1] at hv
    unfold Sequence.Add at hv ⊢
    omega
  cases e with
  | succ e1 =>
    rw [append_layout_empty_cell]
    have hne2 : ∀ s ∈ segs ++ [v], s.Bytes ≠ [] := by
      intro s hmem
      rcases List.mem_append.mp hmem with h1 | h1
      · exact hne s h1
      · rw [List.mem_singleton] at h1; rw [h1]; exact hvne
    refine ⟨RingContiguous_of_layout e1 _ hne2 (Contiguous_snoc segs v hc hlink), ?_⟩
    unfold RingEndsAt
    rw [segments_layout]
    intro s hs1
    rw [List.getLast?_append_of_ne_nil _ (by simp)] at hs1
    simp at hs1
    rw [← hs1]
  | zero =>
    cases segs with
    | nil =>
      have hnil : Ring.append (List.replicate 0 none ++ List.map some ([] : List Reassembly)) v =
          List.replicate 0 none ++ List.map some ([] : List Reassembly) := rfl
      rw [hnil]
      refine ⟨RingContiguous_of_layout 0 [] (by simp) rfl, ?_⟩
      unfold RingEndsAt
      rw [segments_layout]
      intro s hs1
      simp at hs1
    | cons s0 rest =>
      rw [append_layout_full]
      have hne2 : ∀ s ∈ rest ++ [v], s.Bytes ≠ [] := by
        intro s hmem
        rcases List.mem_append.mp hmem with h1 | h1
        · exact hne s (List.mem_cons_of_mem _ h1)
        · rw [List.mem_singleton] at h1; rw [h1]; exact hvne
      have hlink2 : ∀ s, rest.getLast? = some s →
          v.Seq = Sequence.Add s.Seq (s.Bytes.length : Int) := by
        intro s hs1
        apply hlink s
        cases rest with
        | nil => simp at hs1
        | cons s2 rest2 => rw [List.getLast?_cons_cons]; exact hs1
      refine ⟨RingContiguous_of_layout 0 _ hne2
        (Contiguous_snoc rest v (Contiguous_tail s0 rest hc) hlink2), ?_⟩
      unfold RingEndsAt
      rw [segments_layout]
      intro s hs1
      rw [List.getLast?_append_of_ne_nil _ (by simp)] at hs1
      simp at hs1
      rw [← hs1]

theorem RingEndsAt_of_no_segments (r : Ring) (next : Int) (h : r.segments = []) :
    RingEndsAt r next := by
  unfold RingEndsAt
  rw [h]
  intro s hs
  simp at hs

theorem ConnInvariant_NewConnection : ConnInvariant NewConnection := by
  have h1 : RingContiguous (Ring.New MAX_CONN_PACKETS) := by
    have := RingContiguous_of_layout 40 [] (by simp) rfl
    simpa [Ring.New, MAX_CONN_PACKETS] using this
  have h2 : (Ring.New MAX_CONN_PACKETS).segments = [] := by decide
  exact ⟨h1, h1, fun _ => ⟨h2, h2⟩,
    fun _ => ⟨RingEndsAt_of_no_segments _ _ h2, RingEndsAt_of_no_segments _ _ h2⟩⟩

theorem ConnInvariant_step (c c1 : Connection) (p : PacketManifest) (flow : TcpIpFlow)
    (hinv : ConnInvariant c) (hp : p.wf) (hok : c.receivePacket p flow = Outcome.ok c1) :
    ConnInvariant c1 := by
  obtain ⟨hS, hC, hempty, hlink⟩ := hinv
  by_cases hst : c.state = TCP_DATA_TRANSFER
  · obtain ⟨_, _, hcase⟩ := dataTransfer_step c c1 p flow hst hok
    obtain ⟨hlS, hlC⟩ := hlink hst
    have hpr : (0 : Int) ≤ (p.Seq : Int) ∧ (p.Seq : Int) < 4294967296 := by
      have := hp.1
      constructor <;> omega
    rcases hcase with ⟨a1, a2, a3, a4, a5⟩ | ⟨a1, a2, a3⟩ | ⟨_, b1, b2, b3, b4, b5, b6, b7⟩ |
        ⟨_, b1, b2, b3, b4, b5, b6, b7⟩
    · refine ⟨by rw [a3]; exact hS, by rw [a2]; exact hC, ?_, ?_⟩
      · intro h; rw [a1, hst] at h; exact absurd h (Nat.lt_irrefl _)
      · intro _; rw [a3, a2, a4, a5]; exact ⟨hlS, hlC⟩
    · refine ⟨by rw [a3]; exact hS, by rw [a2]; exact hC, ?_, ?_⟩
      · intro h
        rcases a1 with a1 | a1 <;> rw [a1] at h <;>
          simp [TCP_CONNECTION_CLOSING, TCP_CLOSED, TCP_DATA_TRANSFER] at h
      · intro h
        rcases a1 with a1 | a1 <;> rw [a1] at h <;>
          simp [TCP_CONNECTION_CLOSING, TCP_CLOSED, TCP_DATA_TRANSFER] at h
    · obtain ⟨h1, h2⟩ := append_contiguous c.ServerStreamRing c.clientNextSeq
        { Start := false, End := false, Seq := (p.Seq : Int), Bytes := p.Payload } hS hlS b1 hpr b2
      refine ⟨by rw [b4]; exact h1, by rw [b5]; exact hC, ?_, ?_⟩
      · intro h; rw [b3, hst] at h; exact absurd h (Nat.lt_irrefl _)
      · intro _; rw [b4, b5, b6, b7]; exact ⟨h2, hlC⟩
    · obtain ⟨h1, h2⟩ := append_contiguous c.ClientStreamRing c.serverNextSeq
        { Start := false, End := false, Seq := (p.Seq : Int), Bytes := p.Payload } hC hlC b1 hpr b2
      refine ⟨by rw [b5]; exact hS, by rw [b4]; exact h1, ?_, ?_⟩
      · intro h; rw [b3, hst] at h; exact absurd h (Nat.lt_irrefl _)
      · intro _; rw [b4, b5, b6, b7]; exact ⟨hlS, h2⟩
  · obtain ⟨c2, hok2, hr1, hr2, hs1, hs2, _⟩ := receivePacket_outside_dataTransfer c p flow hst
    rw [hok2] at hok
    cases hok
    refine ⟨by rw [hr2]; exact hS, by rw [hr1]; exact hC, ?_, ?_⟩
    · intro h; rw [hr2, hr1]; exact hempty (hs1 h)
    · intro h
      obtain ⟨e1, e2⟩ := hempty (hs2 h)
      rw [hr2, hr1]
      exact ⟨RingEndsAt_of_no_segments _ _ e1, RingEndsAt_of_no_segments _ _ e2⟩

theorem receivePackets_preserves (I : Connection → Prop)
    (hstep : ∀ (c c1 : Connection) (p : PacketManifest) (flow : TcpIpFlow),
      I c → p.wf → c.receivePacket p flow = Outcome.ok c1 → I c1) :
    ∀ (pkts : List (PacketManifest × TcpIpFlow)) (c c1 : Connection), I c →
      (∀ x ∈ pkts, x.1.wf) → c.receivePackets pkts = Outcome.ok c1 → I c1 := by
  intro pkts
  induction pkts with
  | nil =>
    intro c c1 hI _ hrun
    simp only [Connection.receivePackets] at hrun
    cases hrun
    exact hI
  | cons x rest ih =>
    intro c c1 hI hwf hrun
    obtain ⟨p, flow⟩ := x
    simp only [Connection.receivePackets] at hrun
    cases hstep1 : c.receivePacket p flow with
    | abort e c2 => rw [hstep1] at hrun; cases hrun
    | ok c2 =>
      rw [hstep1] at hrun
      simp only [] at hrun
      exact ih c2 c1 (hstep c c2 p flow hI (hwf (p, flow) (List.mem_cons_self _ _)) hstep1)
        (fun y hy => hwf y (List.mem_cons_of_mem _ hy)) hrun

/-- **C14.** Ring contiguity invariant: in every connection reachable from
`NewConnection` by `receivePacket` calls (on packets with 32-bit header fields),
each ring is a ring of contiguous segments: every stored segment has non-empty
bytes and every pair of adjacent stored segments (older `s1`, newer `s2`)
satisfies `s2.seq == (s1.seq + len(s1.bytes)) mod 2^32`. -/
theorem ring_contiguity_invariant (c : Connection) (hreach : Reachable c) :
    (RingContiguous c.ServerStreamRing ∧
      (∀ s ∈ c.ServerStreamRing.segments, s.Bytes ≠ []) ∧
      (∀ (j : Nat) (s1 s2 : Reassembly), c.ServerStreamRing.segments[j]? = some s1 →
        c.ServerStreamRing.segments[j + 1]? = some s2 →
        s2.Seq = (s1.Seq + (s1.Bytes.length : Int)) % 4294967296)) ∧
    (RingContiguous c.ClientStreamRing ∧
      (∀ s ∈ c.ClientStreamRing.segments, s.Bytes ≠ []) ∧
      (∀ (j : Nat) (s1 s2 : Reassembly), c.ClientStreamRing.segments[j]? = some s1 →
        c.ClientStreamRing.segments[j + 1]? = some s2 →
        s2.Seq = (s1.Seq + (s1.Bytes.length : Int)) % 4294967296)) := by
  obtain ⟨pkts, hwf, hrun⟩ := hreach
  obtain ⟨hS, hC, _, _⟩ := receivePackets_preserves ConnInvariant ConnInvariant_step pkts
    NewConnection c ConnInvariant_NewConnection hwf hrun
  exact ⟨⟨hS, hS.2.1, Contiguous_index _ hS.2.2⟩, ⟨hC, hC.2.1, Contiguous_index _ hC.2.2⟩⟩

theorem ring_contiguity_invariant_witness :
    (RingContiguous fullConnectionExample.ServerStreamRing ∧
      (∀ s ∈ fullConnectionExample.ServerStreamRing.segments, s.Bytes ≠ []) ∧
      (∀ (j : Nat) (s1 s2 : Reassembly),
        fullConnectionExample.ServerStreamRing.segments[j]? = some s1 →
        fullConnectionExample.ServerStreamRing.segments[j + 1]? = some s2 →
        s2.Seq = (s1.Seq + (s1.Bytes.length : Int)) % 4294967296)) ∧
    (RingContiguous fullConnectionExample.ClientStreamRing ∧
      (∀ s ∈ fullConnectionExample.ClientStreamRing.segments, s.Bytes ≠ []) ∧
      (∀ (j : Nat) (s1 s2 : Reassembly),
        fullConnectionExample.ClientStreamRing.segments[j]? = some s1 →
        fullConnectionExample.ClientStreamRing.segments[j + 1]? = some s2 →
        s2.Seq = (s1.Seq + (s1.Bytes.length : Int)) % 4294967296)) :=
  ring_contiguity_invariant fullConnectionExample
    ⟨handshakePackets ++ fortyDataPackets, by simp only [PacketManifest.wf]; decide,
      fullConnectionExample_reached⟩

/-! ## FIN in DATA_TRANSFER, CLOSED, LISTEN -/

/-- **C15.** FIN in DATA_TRANSFER: a packet with FIN set whose seq has
difference 0 from the sender's nextSeq returns normally, sets
`closingFlow = clientFlow`, increases the sender's nextSeq by exactly 1
(whatever the payload), leaves the peer's nextSeq, sets
`state = CONNECTION_CLOSING`, the sender's side-state to FIN_WAIT1 and the
peer's to CLOSE_WAIT, and leaves both rings unchanged.  A packet on
`clientFlow` is sent by the client, any other by the server. -/
theorem fin_in_data_transfer (c : Connection) (p : PacketManifest) (flow : TcpIpFlow)
    (hst : c.state = TCP_DATA_TRANSFER) (hfin : p.FIN = true) :
    (flow = c.clientFlow → Sequence.Difference (p.Seq : Int) c.clientNextSeq = 0 →
      ∃ c1, c.receivePacket p flow = Outcome.ok c1 ∧
        c1.closingFlow = c.clientFlow ∧ c1.clientNextSeq = c.clientNextSeq + 1 ∧
        c1.serverNextSeq = c.serverNextSeq ∧ c1.state = TCP_CONNECTION_CLOSING ∧
        c1.clientState = TCP_FIN_WAIT1 ∧ c1.serverState = TCP_CLOSE_WAIT ∧
        c1.ClientStreamRing = c.ClientStreamRing ∧
        c1.ServerStreamRing = c.ServerStreamRing) ∧
    (flow ≠ c.clientFlow → Sequence.Difference (p.Seq : Int) c.serverNextSeq = 0 →
      ∃ c1, c.receivePacket p flow = Outcome.ok c1 ∧
        c1.closingFlow = c.clientFlow ∧ c1.serverNextSeq = c.serverNextSeq + 1 ∧
        c1.clientNextSeq = c.clientNextSeq ∧ c1.state = TCP_CONNECTION_CLOSING ∧
        c1.serverState = TCP_FIN_WAIT1 ∧ c1.clientState = TCP_CLOSE_WAIT ∧
        c1.ClientStreamRing = c.ClientStreamRing ∧
        c1.ServerStreamRing = c.ServerStreamRing) := by
  rw [receivePacket_dataTransfer c p flow hst]
  obtain ⟨R, hR⟩ := dataTransfer_hijack_only_reports
    { c with packetCount := (c.packetCount + 1) % 18446744073709551616 } p flow
  unfold Connection.stateDataTransfer
  rw [hR]
  constructor
  · intro hf hd
    subst hf
    simp [Equal_self, Connection.nextSeq, Connection.setNextSeq, Connection.setSideState,
      Side.other, hd, hfin]
  · intro hf hd
    simp [TcpIpFlow.Equal, hf, Connection.nextSeq, Connection.setNextSeq,
      Connection.setSideState, Side.other, hd, hfin]

theorem fin_in_data_transfer_witness :
    ∃ c1, dataTransferExample.receivePacket ⟨false, true, true, false, 1004, 5001, [1, 2]⟩
        exampleFlow = Outcome.ok c1 ∧
      c1.closingFlow = exampleFlow ∧ c1.clientNextSeq = 1004 + 1 ∧
      c1.serverNextSeq = 5001 ∧ c1.state = TCP_CONNECTION_CLOSING ∧
      c1.clientState = TCP_FIN_WAIT1 ∧ c1.serverState = TCP_CLOSE_WAIT ∧
      c1.ClientStreamRing = dataTransferExample.ClientStreamRing ∧
      c1.ServerStreamRing = dataTransferExample.ServerStreamRing :=
  (fin_in_data_transfer dataTransferExample ⟨false, true, true, false, 1004, 5001, [1, 2]⟩
    exampleFlow rfl rfl).1 rfl (by decide)

/-- **C16 (evaluation).** A contiguous FIN of the server, on the server flow,
leaves `closingFlow` equal to the client flow, which is not the flow of the
FIN.  The close that the server initiates (server FIN, client FIN+ACK, server
ACK) then stays in CONNECTION_CLOSING, whereas the same three packets with the
sides exchanged reach CLOSED. -/
theorem closing_flow_is_not_the_fin_flow :
    (∃ c1, dataTransferExample.receivePacket ⟨false, true, true, false, 5001, 1004, []⟩
        exampleFlow.Reverse = Outcome.ok c1 ∧
      c1.closingFlow = exampleFlow ∧ c1.closingFlow ≠ exampleFlow.Reverse) ∧
    (∃ c3, dataTransferExample.receivePackets
        [(⟨false, true, true, false, 5001, 1004, []⟩, exampleFlow.Reverse),
         (⟨false, true, true, false, 1004, 5002, []⟩, exampleFlow),
         (⟨false, true, false, false, 5002, 1005, []⟩, exampleFlow.Reverse)] = Outcome.ok c3 ∧
      c3.state = TCP_CONNECTION_CLOSING ∧ c3.closeCount = 0) ∧
    (∃ c3, dataTransferExample.receivePackets
        [(⟨false, true, true, false, 1004, 5001, []⟩, exampleFlow),
         (⟨false, true, true, false, 5001, 1005, []⟩, exampleFlow.Reverse),
         (⟨false, true, false, false, 1005, 5002, []⟩, exampleFlow)] = Outcome.ok c3 ∧
      c3.state = TCP_CLOSED ∧ c3.closeCount = 1) := by
  refine ⟨⟨_, rfl, by decide, by decide⟩, ⟨_, rfl, by decide, by decide⟩,
    ⟨_, rfl, by decide, by decide⟩⟩

/-- **C17.** CLOSED is absorbing: with `state == CLOSED`, `receivePacket`
returns normally and leaves state, clientState, serverState, the three flows,
clientNextSeq, serverNextSeq, hijackNextAck and both rings unchanged, emits no
report, does not invoke `Close`, and adds 1 to `packetCount` (a `uint64`; by
exactly 1 below its maximum). -/
theorem closed_is_absorbing (c : Connection) (p : PacketManifest) (flow : TcpIpFlow)
    (hst : c.state = TCP_CLOSED) :
    ∃ c1, c.receivePacket p flow = Outcome.ok c1 ∧
      c1 = { c with packetCount := (c.packetCount + 1) % 18446744073709551616 } ∧
      c1.state = c.state ∧ c1.clientState = c.clientState ∧ c1.serverState = c.serverState ∧
      c1.clientFlow = c.clientFlow ∧ c1.serverFlow = c.serverFlow ∧
      c1.closingFlow = c.closingFlow ∧ c1.clientNextSeq = c.clientNextSeq ∧
      c1.serverNextSeq = c.serverNextSeq ∧ c1.hijackNextAck = c.hijackNextAck ∧
      c1.ClientStreamRing = c.ClientStreamRing ∧ c1.ServerStreamRing = c.ServerStreamRing ∧
      c1.reports = c.reports ∧ c1.closeCount = c.closeCount ∧
      (c.packetCount + 1 < 18446744073709551616 → c1.packetCount = c.packetCount + 1) := by
  refine ⟨_, receivePacket_closed c p flow hst, rfl, rfl, rfl, rfl, rfl, rfl, rfl, rfl, rfl, rfl,
    rfl, rfl, rfl, rfl, ?_⟩
  intro h
  simp only [Connection.countPacket]
  exact Nat.mod_eq_of_lt h

/-- **C18.** Rings change only in DATA_TRANSFER: with the state LISTEN,
CONNECTION_REQUEST, CONNECTION_ESTABLISHED, CONNECTION_CLOSING or CLOSED before
the call, `receivePacket` returns normally and leaves the contents and the
position of both rings unchanged. -/
theorem rings_change_only_in_data_transfer (c : Connection) (p : PacketManifest)
    (flow : TcpIpFlow)
    (hst : c.state = TCP_LISTEN ∨ c.state = TCP_CONNECTION_REQUEST ∨
      c.state = TCP_CONNECTION_ESTABLISHED ∨ c.state = TCP_CONNECTION_CLOSING ∨
      c.state = TCP_CLOSED) :
    ∃ c1, c.receivePacket p flow = Outcome.ok c1 ∧
      c1.ClientStreamRing = c.ClientStreamRing ∧ c1.ServerStreamRing = c.ServerStreamRing := by
  have h3 : c.state ≠ TCP_DATA_TRANSFER := by
    simp only [TCP_LISTEN, TCP_CONNECTION_REQUEST, TCP_CONNECTION_ESTABLISHED,
      TCP_CONNECTION_CLOSING, TCP_CLOSED, TCP_DATA_TRANSFER] at *
    omega
  obtain ⟨c1, h1, h2, h4, _⟩ := receivePacket_outside_dataTransfer c p flow h3
  exact ⟨c1, h1, h2, h4⟩

theorem closed_is_absorbing_witness :
    dataTransferExample.receivePackets
        [(⟨false, true, true, false, 1004, 5001, []⟩, exampleFlow),
         (⟨false, true, true, false, 5001, 1005, []⟩, exampleFlow.Reverse),
         (⟨false, true, false, false, 1005, 5002, []⟩, exampleFlow)] = Outcome.ok closedExample ∧
    ∃ c1, closedExample.receivePacket ⟨false, true, false, false, 1005, 5002, [1]⟩ exampleFlow =
        Outcome.ok c1 ∧
      c1 = { closedExample with packetCount := 8 } ∧ c1.state = TCP_CLOSED ∧
      c1.reports = [] ∧ c1.closeCount = 1 ∧ c1.packetCount = 7 + 1 := by
  refine ⟨by decide, ?_⟩
  obtain ⟨c1, h1, h2, h3, _, _, _, _, _, _, _, _, _, _, h4, h5, h6⟩ :=
    closed_is_absorbing closedExample ⟨false, true, false, false, 1005, 5002, [1]⟩ exampleFlow rfl
  exact ⟨c1, h1, h2, h3, h4, h5, h6 (by decide)⟩

theorem rings_change_only_in_data_transfer_witness :
    ∃ c1, establishedExample.receivePacket ⟨false, true, false, false, 1001, 5001, [1, 2, 3]⟩
        exampleFlow = Outcome.ok c1 ∧
      c1.ClientStreamRing = establishedExample.ClientStreamRing ∧
      c1.ServerStreamRing = establishedExample.ServerStreamRing :=
  rings_change_only_in_data_transfer establishedExample _ exampleFlow (Or.inr (Or.inr (Or.inl rfl)))

theorem flows_reverse_step (c c1 : Connection) (p : PacketManifest) (flow : TcpIpFlow)
    (hinv : c.state ≠ TCP_LISTEN → c.serverFlow = c.clientFlow.Reverse)
    (hok : c.receivePacket p flow = Outcome.ok c1) :
    c1.state ≠ TCP_LISTEN → c1.serverFlow = c1.clientFlow.Reverse := by
  intro hne
  by_cases h0 : c.state = TCP_LISTEN
  · rw [receivePacket_listen c p flow h0] at hok
    cases hok
    rcases stateListen_cases c.countPacket p flow with ⟨_, _, hl⟩ | ⟨_, hl⟩
    · rw [hl]
    · rw [hl] at hne
      exact absurd h0 hne
  · by_cases h3 : c.state = TCP_DATA_TRANSFER
    · obtain ⟨e1, e2, _⟩ := dataTransfer_step c c1 p flow h3 hok
      rw [e1, e2]
      exact hinv h0
    · obtain ⟨c2, hok2, _, _, _, _, hf⟩ := receivePacket_outside_dataTransfer c p flow h3
      rw [hok2] at hok
      cases hok
      obtain ⟨e1, e2⟩ := hf h0
      rw [e1, e2]
      exact hinv h0

/-- **C19.** LISTEN transition: in LISTEN a packet on flow `f` with SYN set
and ACK clear returns normally with `state == CONNECTION_REQUEST`,
`clientFlow == f`, `serverFlow == reverse(f)`,
`clientNextSeq == (seq + len(payload) + 1) mod 2^32` and
`hijackNextAck == clientNextSeq`, the other fields but `packetCount` unchanged;
for any other packet every field except `packetCount` is unchanged.  In every
reachable connection that is not in LISTEN, `serverFlow == reverse(clientFlow)`. -/
theorem listen_transition (c : Connection) (p : PacketManifest) (flow : TcpIpFlow) :
    (c.state = TCP_LISTEN → p.SYN = true → p.ACK = false →
      ∃ c1, c.receivePacket p flow = Outcome.ok c1 ∧
        c1.state = TCP_CONNECTION_REQUEST ∧ c1.clientFlow = flow ∧
        c1.serverFlow = flow.Reverse ∧
        c1.clientNextSeq = ((p.Seq : Int) + ((p.Payload.length : Int) + 1)) % 4294967296 ∧
        c1.hijackNextAck = c1.clientNextSeq ∧
        c1 = { c with
          packetCount := (c.packetCount + 1) % 18446744073709551616
          state := TCP_CONNECTION_REQUEST
          clientFlow := flow
          serverFlow := flow.Reverse
          clientNextSeq := ((p.Seq : Int) + ((p.Payload.length : Int) + 1)) % 4294967296
          hijackNextAck := ((p.Seq : Int) + ((p.Payload.length : Int) + 1)) % 4294967296 }) ∧
    (c.state = TCP_LISTEN → ¬ (p.SYN = true ∧ p.ACK = false) →
      c.receivePacket p flow =
        Outcome.ok { c with packetCount := (c.packetCount + 1) % 18446744073709551616 }) ∧
    (Reachable c → c.state ≠ TCP_LISTEN → c.serverFlow = c.clientFlow.Reverse) := by
  refine ⟨?_, ?_, ?_⟩
  · intro h0 hs ha
    rw [receivePacket_listen c p flow h0]
    rcases stateListen_cases c.countPacket p flow with ⟨_, _, hl⟩ | ⟨hn, _⟩
    · rw [hl]
      exact ⟨_, rfl, rfl, rfl, rfl, rfl, rfl, rfl⟩
    · exact absurd ⟨hs, ha⟩ hn
  · intro h0 hn
    rw [receivePacket_listen c p flow h0]
    rcases stateListen_cases c.countPacket p flow with ⟨hs, ha, _⟩ | ⟨_, hl⟩
    · exact absurd ⟨hs, ha⟩ hn
    · rw [hl]; rfl
  · rintro ⟨pkts, hwf, hrun⟩
    exact receivePackets_preserves
      (fun c => c.state ≠ TCP_LISTEN → c.serverFlow = c.clientFlow.Reverse)
      (fun c c1 p flow hI _ hok => flows_reverse_step c c1 p flow hI hok)
      pkts NewConnection c (fun h => absurd rfl h) hwf hrun

theorem listen_transition_witness :
    (∃ c1, NewConnection.receivePacket ⟨true, false, false, false, 1000, 0, []⟩ exampleFlow =
        Outcome.ok c1 ∧
      c1.state = TCP_CONNECTION_REQUEST ∧ c1.clientFlow = exampleFlow ∧
      c1.serverFlow = exampleFlow.Reverse ∧ c1.clientNextSeq = 1001 ∧
      c1.hijackNextAck = c1.clientNextSeq) ∧
    NewConnection.receivePacket ⟨false, true, false, false, 1000, 0, []⟩ exampleFlow =
      Outcome.ok { NewConnection with packetCount := 1 } ∧
    fullConnectionExample.serverFlow = fullConnectionExample.clientFlow.Reverse := by
  obtain ⟨h1, h2, _⟩ := listen_transition NewConnection ⟨true, false, false, false, 1000, 0, []⟩
    exampleFlow
  obtain ⟨_, h3, _⟩ := listen_transition NewConnection ⟨false, true, false, false, 1000, 0, []⟩
    exampleFlow
  obtain ⟨_, _, h4⟩ := listen_transition fullConnectionExample
    ⟨false, true, false, false, 1000, 0, []⟩ exampleFlow
  obtain ⟨c1, a1, a2, a3, a4, a5, a6, _⟩ := h1 rfl rfl rfl
  refine ⟨⟨c1, a1, a2, a3, a4, ?_, a6⟩, h3 rfl (by decide), ?_⟩
  · rw [a5]; decide
  · exact h4 ⟨handshakePackets ++ fortyDataPackets, by simp only [PacketManifest.wf]; decide,
      fullConnectionExample_reached⟩ (by decide)

/-! ## Reports in DATA_TRANSFER -/

theorem detectInjection_conn_reports (c : Connection) (p : PacketManifest) (flow : TcpIpFlow) :
    ∃ extra, (c.detectInjection p flow).conn.reports = c.reports ++ extra ∧
      extra.filter Report.isHijack = [] := by
  unfold Connection.detectInjection
  split
  · exact ⟨[], by simp [Outcome.conn], rfl⟩
  · split
    · exact ⟨[], by simp [Outcome.conn], rfl⟩
    · split
      · exact ⟨[], by simp [Outcome.conn], rfl⟩
      · split_ifs
        · exact ⟨[_], rfl, rfl⟩
        · exact ⟨[], by simp [Outcome.conn], rfl⟩

theorem stateDataTransfer_conn_reports (c : Connection) (p : PacketManifest) (flow : TcpIpFlow) :
    ∃ extra, (c.stateDataTransfer p flow).conn.reports =
        (if c.packetCount < FIRST_FEW_PACKETS then c.detectHijack p flow else c).reports ++ extra ∧
      extra.filter Report.isHijack = [] := by
  obtain ⟨R, hR⟩ := dataTransfer_hijack_only_reports c p flow
  unfold Connection.stateDataTransfer
  rw [hR]
  simp only []
  generalize (if flow.Equal c.clientFlow = true then Side.client else Side.server) = side
  split_ifs <;>
    first
    | exact detectInjection_conn_reports _ p flow
    | (refine ⟨[], ?_, rfl⟩
       cases side <;>
         simp [Outcome.conn, Connection.setNextSeq, Connection.setSideState, Side.other,
           Connection.Close])

/-- **C22.** Late hijack window: in DATA_TRANSFER, for a packet on `serverFlow`
with SYN and ACK set and `ack == hijackNextAck`, `receivePacket` emits one
hijack report (for the packet's flow) exactly when `packetCount`, counted after
the increment for this packet, is less than `FIRST_FEW_PACKETS = 12`; and when
that count is 12 or more no packet at all makes `receivePacket` emit a hijack
report in DATA_TRANSFER.  The reports are those emitted up to the return or
the abort of the call. -/
theorem late_hijack_window (c : Connection) (p : PacketManifest) (flow : TcpIpFlow)
    (hst : c.state = TCP_DATA_TRANSFER) :
    (flow = c.serverFlow → p.SYN = true → p.ACK = true → (p.Ack : Int) = c.hijackNextAck →
      (c.receivePacket p flow).conn.reports.filter Report.isHijack =
        c.reports.filter Report.isHijack ++
          (if (c.packetCount + 1) % 18446744073709551616 < FIRST_FEW_PACKETS then
            [Report.hijack flow] else [])) ∧
    (¬ ((c.packetCount + 1) % 18446744073709551616 < FIRST_FEW_PACKETS) →
      (c.receivePacket p flow).conn.reports.filter Report.isHijack =
        c.reports.filter Report.isHijack) ∧
    FIRST_FEW_PACKETS = 12 := by
  rw [receivePacket_dataTransfer c p flow hst]
  obtain ⟨extra, he, hx⟩ := stateDataTransfer_conn_reports
    { c with packetCount := (c.packetCount + 1) % 18446744073709551616 } p flow
  rw [he]
  simp only [List.filter_append, hx, List.append_nil]
  refine ⟨?_, ?_, rfl⟩
  · intro hf hs ha hack
    have hd : Sequence.Difference (p.Ack : Int) c.hijackNextAck = 0 := by
      rw [hack]; exact Difference_self _
    split_ifs with hlt
    · rw [detectHijack_eq]
      simp only []
      rw [if_pos ⟨hf, hs, ha, hd⟩]
      simp [Report.isHijack]
    · simp
  · intro hge
    rw [if_neg hge]

theorem late_hijack_window_witness :
    (dataTransferExample.receivePacket ⟨true, true, false, false, 5001, 1001, []⟩
        exampleFlow.Reverse).conn.reports.filter Report.isHijack =
      [Report.hijack exampleFlow.Reverse] ∧
    ({ dataTransferExample with packetCount := 11 }.receivePacket
        ⟨true, true, false, false, 5001, 1001, []⟩
        exampleFlow.Reverse).conn.reports.filter Report.isHijack = [] := by
  obtain ⟨h1, _, _⟩ := late_hijack_window dataTransferExample
    ⟨true, true, false, false, 5001, 1001, []⟩ exampleFlow.Reverse rfl
  obtain ⟨_, h2, _⟩ := late_hijack_window { dataTransferExample with packetCount := 11 }
    ⟨true, true, false, false, 5001, 1001, []⟩ exampleFlow.Reverse rfl
  exact ⟨h1 rfl rfl rfl rfl, h2 (by decide)⟩

/-! ## Handshake anomalies -/

theorem Difference_eq_zero_of_range (s t : Int) (hs : 0 ≤ s ∧ s < 4294967296)
    (ht : 0 ≤ t ∧ t < 4294967296) : Sequence.Difference s t = 0 ↔ s = t := by
  rw [Difference_eq_zero_iff]
  constructor <;> intro h <;> omega

/-- **C23.** Handshake anomalies do not mutate state.  In CONNECTION_REQUEST a
packet that is not (on `serverFlow`, SYN and ACK set, `ack == clientNextSeq`)
leaves every field but `packetCount` unchanged; a packet that is sets
`state = CONNECTION_ESTABLISHED` and
`serverNextSeq = (seq + len(payload) + 1) mod 2^32` and changes nothing else
besides `packetCount`.  In CONNECTION_ESTABLISHED a packet that is not (on
`clientFlow`, ACK set, SYN clear, `seq == clientNextSeq`,
`ack == serverNextSeq`) leaves every field of the Connection but `packetCount`
unchanged; the only other effect is the hijack report that the hijack check may
hand to the attack logger.  Header fields and next-sequence values are 32-bit. -/
theorem handshake_anomalies_do_not_mutate (c : Connection) (p : PacketManifest)
    (flow : TcpIpFlow) (hp : p.wf)
    (hcn : 0 ≤ c.clientNextSeq ∧ c.clientNextSeq < 4294967296)
    (hsn : 0 ≤ c.serverNextSeq ∧ c.serverNextSeq < 4294967296) :
    (c.state = TCP_CONNECTION_REQUEST →
      ¬ (flow = c.serverFlow ∧ p.SYN = true ∧ p.ACK = true ∧ (p.Ack : Int) = c.clientNextSeq) →
      c.receivePacket p flow =
        Outcome.ok { c with packetCount := (c.packetCount + 1) % 18446744073709551616 }) ∧
    (c.state = TCP_CONNECTION_REQUEST →
      (flow = c.serverFlow ∧ p.SYN = true ∧ p.ACK = true ∧ (p.Ack : Int) = c.clientNextSeq) →
      c.receivePacket p flow =
        Outcome.ok { c with
          packetCount := (c.packetCount + 1) % 18446744073709551616
          state := TCP_CONNECTION_ESTABLISHED
          serverNextSeq := ((p.Seq : Int) + ((p.Payload.length : Int) + 1)) % 4294967296 }) ∧
    (c.state = TCP_CONNECTION_ESTABLISHED →
      ¬ (flow = c.clientFlow ∧ p.ACK = true ∧ p.SYN = false ∧ (p.Seq : Int) = c.clientNextSeq ∧
        (p.Ack : Int) = c.serverNextSeq) →
      ∃ R, c.receivePacket p flow =
          Outcome.ok { c with
            packetCount := (c.packetCount + 1) % 18446744073709551616, reports := R } ∧
        (R = c.reports ∨ R = c.reports ++ [Report.hijack flow])) := by
  have hpa : (0 : Int) ≤ (p.Ack : Int) ∧ (p.Ack : Int) < 4294967296 := by
    have := hp.2
    constructor <;> omega
  have hps : (0 : Int) ≤ (p.Seq : Int) ∧ (p.Seq : Int) < 4294967296 := by
    have := hp.1
    constructor <;> omega
  have d1 := Difference_eq_zero_of_range c.clientNextSeq (p.Ack : Int) hcn hpa
  have d2 := Difference_eq_zero_of_range (p.Seq : Int) c.clientNextSeq hps hcn
  have d3 := Difference_eq_zero_of_range (p.Ack : Int) c.serverNextSeq hpa hsn
  refine ⟨?_, ?_, ?_⟩
  · intro hst hn
    rw [receivePacket_connectionRequest c p flow hst]
    unfold Connection.stateConnectionRequest Connection.countPacket
    simp only []
    split_ifs with h1 h2 h3
    · rfl
    · rfl
    · rfl
    · exfalso
      apply hn
      simp only [TcpIpFlow.Equal, Bool.not_eq_true', decide_eq_false_iff_not, not_not] at h1
      simp only [Bool.not_eq_true', Bool.not_eq_false, Bool.and_eq_true] at h2
      simp only [ne_eq, not_not] at h3
      exact ⟨h1, h2.1, h2.2, (d1.mp h3).symm⟩
  · rintro hst ⟨hf, hs, ha, hack⟩
    rw [receivePacket_connectionRequest c p flow hst]
    have hd : Sequence.Difference c.clientNextSeq (p.Ack : Int) = 0 := d1.mpr hack.symm
    subst hf
    simp [Connection.stateConnectionRequest, Connection.countPacket, Equal_self, hs, ha, hd,
      Sequence.Add]
  · intro hst hn
    rw [receivePacket_connectionEstablished c p flow hst]
    have h0 := detectHijack_eq c.countPacket p flow
    unfold Connection.stateConnectionEstablished
    by_cases hh : flow = c.countPacket.serverFlow ∧ p.SYN = true ∧ p.ACK = true ∧
        Sequence.Difference (p.Ack : Int) c.countPacket.hijackNextAck = 0
    · rw [if_pos hh] at h0
      rw [h0]
      refine ⟨c.reports ++ [Report.hijack flow], ?_, Or.inr rfl⟩
      simp only [Connection.countPacket]
      split_ifs with h1 h2 h3 h4
      · rfl
      · rfl
      · rfl
      · rfl
      · exfalso
        apply hn
        simp only [TcpIpFlow.Equal, Bool.not_eq_true', decide_eq_false_iff_not, not_not] at h1
        simp only [Bool.or_eq_true, Bool.not_eq_true', not_or, Bool.not_eq_false] at h2
        simp only [ne_eq, not_not] at h3 h4
        exact ⟨h1, h2.1, by simpa using h2.2, d2.mp h3, d3.mp h4⟩
    · rw [if_neg hh] at h0
      rw [h0]
      refine ⟨c.reports, ?_, Or.inl rfl⟩
      simp only [Connection.countPacket]
      split_ifs with h1 h2 h3 h4
      · rfl
      · rfl
      · rfl
      · rfl
      · exfalso
        apply hn
        simp only [TcpIpFlow.Equal, Bool.not_eq_true', decide_eq_false_iff_not, not_not] at h1
        simp only [Bool.or_eq_true, Bool.not_eq_true', not_or, Bool.not_eq_false] at h2
        simp only [ne_eq, not_not] at h3 h4
        exact ⟨h1, h2.1, by simpa using h2.2, d2.mp h3, d3.mp h4⟩

theorem handshake_anomalies_do_not_mutate_witness :
    NewConnection.receivePacket ⟨true, false, false, false, 1000, 0, []⟩ exampleFlow =
      Outcome.ok requestExample ∧
    requestExample.receivePacket ⟨true, true, false, false, 5000, 777, []⟩ exampleFlow.Reverse =
      Outcome.ok { requestExample with packetCount := 2 } ∧
    requestExample.receivePacket ⟨true, true, false, false, 5000, 1001, []⟩ exampleFlow.Reverse =
      Outcome.ok establishedExample ∧
    (∃ R, establishedExample.receivePacket ⟨false, true, false, false, 1001, 4999, []⟩
          exampleFlow =
        Outcome.ok { establishedExample with packetCount := 3, reports := R } ∧
      (R = [] ∨ R = [] ++ [Report.hijack exampleFlow])) := by
  have h1 := handshake_anomalies_do_not_mutate requestExample
    ⟨true, true, false, false, 5000, 777, []⟩ exampleFlow.Reverse ⟨by decide, by decide⟩
    ⟨by decide, by decide⟩ ⟨by decide, by decide⟩
  have h2 := handshake_anomalies_do_not_mutate requestExample
    ⟨true, true, false, false, 5000, 1001, []⟩ exampleFlow.Reverse ⟨by decide, by decide⟩
    ⟨by decide, by decide⟩ ⟨by decide, by decide⟩
  have h3 := handshake_anomalies_do_not_mutate establishedExample
    ⟨false, true, false, false, 1001, 4999, []⟩ exampleFlow ⟨by decide, by decide⟩
    ⟨by decide, by decide⟩ ⟨by decide, by decide⟩
  exact ⟨by decide, h1.1 rfl (by decide), h2.2.1 rfl ⟨rfl, rfl, rfl, rfl⟩, h3.2.2 rfl (by decide)⟩

/-! ## Overlap and future packets -/

/-- **C27.** Overlap and future packets do not advance the stream: in
DATA_TRANSFER, for a packet whose seq differs from the sender's nextSeq (the
difference is not 0), whenever `receivePacket` returns, state, clientNextSeq,
serverNextSeq, closingFlow and both rings are unchanged, whatever the FIN and
RST flags; for a packet after nextSeq (difference below 0) `receivePacket`
returns and no injection report is emitted.  A packet on `clientFlow` is sent
by the client, any other by the server. -/
theorem overlap_and_future_do_not_advance (c : Connection) (p : PacketManifest)
    (flow : TcpIpFlow) (hst : c.state = TCP_DATA_TRANSFER) :
    (Sequence.Difference (p.Seq : Int)
        (c.nextSeq (if flow = c.clientFlow then Side.client else Side.server)) ≠ 0 →
      ∀ c1, c.receivePacket p flow = Outcome.ok c1 →
        c1.state = c.state ∧ c1.clientNextSeq = c.clientNextSeq ∧
        c1.serverNextSeq = c.serverNextSeq ∧ c1.closingFlow = c.closingFlow ∧
        c1.ClientStreamRing = c.ClientStreamRing ∧
        c1.ServerStreamRing = c.ServerStreamRing) ∧
    (Sequence.Difference (p.Seq : Int)
        (c.nextSeq (if flow = c.clientFlow then Side.client else Side.server)) < 0 →
      ∃ c1, c.receivePacket p flow = Outcome.ok c1 ∧
        c1.state = c.state ∧ c1.clientNextSeq = c.clientNextSeq ∧
        c1.serverNextSeq = c.serverNextSeq ∧ c1.closingFlow = c.closingFlow ∧
        c1.ClientStreamRing = c.ClientStreamRing ∧
        c1.ServerStreamRing = c.ServerStreamRing ∧
        c1.reports.filter Report.isInjection = c.reports.filter Report.isInjection) := by
  rw [receivePacket_dataTransfer c p flow hst]
  have hside : (if flow.Equal c.clientFlow = true then Side.client else Side.server) =
      (if flow = c.clientFlow then Side.client else Side.server) := by
    by_cases hf : flow = c.clientFlow <;> simp [TcpIpFlow.Equal, hf]
  have hR := detectHijack_eq
    { c with packetCount := (c.packetCount + 1) % 18446744073709551616 } p flow
  have hR2 : ∃ R, (if (c.packetCount + 1) % 18446744073709551616 < FIRST_FEW_PACKETS then
        Connection.detectHijack
          { c with packetCount := (c.packetCount + 1) % 18446744073709551616 } p flow
      else { c with packetCount := (c.packetCount + 1) % 18446744073709551616 }) =
      { c with packetCount := (c.packetCount + 1) % 18446744073709551616, reports := R } ∧
      R.filter Report.isInjection = c.reports.filter Report.isInjection := by
    rw [hR]
    split_ifs
    · exact ⟨_, rfl, by simp [Report.isInjection]⟩
    · exact ⟨_, rfl, rfl⟩
    · exact ⟨_, rfl, rfl⟩
  obtain ⟨R, hR3, hR4⟩ := hR2
  unfold Connection.stateDataTransfer
  simp only []
  rw [hR3]
  simp only [hside]
  generalize hsd : (if flow = c.clientFlow then Side.client else Side.server) = side
  have hnext : Connection.nextSeq
      { c with packetCount := (c.packetCount + 1) % 18446744073709551616, reports := R } side =
      c.nextSeq side := by
    cases side <;> rfl
  rw [hnext]
  constructor
  · intro hne c1 hok
    rw [if_neg hne] at hok
    split_ifs at hok with h1
    · obtain ⟨R1, rfl⟩ := detectInjection_ok _ _ _ _ hok
      exact ⟨rfl, rfl, rfl, rfl, rfl, rfl⟩
    · cases hok
      exact ⟨rfl, rfl, rfl, rfl, rfl, rfl⟩
  · intro hlt
    rw [if_neg (by omega), if_neg (by omega)]
    exact ⟨_, rfl, rfl, rfl, rfl, rfl, rfl, rfl, hR4⟩

theorem overlap_and_future_do_not_advance_witness :
    (∀ c1, dataTransferExample.receivePacket ⟨false, true, true, true, 1002, 5001, [98, 99]⟩
        exampleFlow = Outcome.ok c1 →
      c1.state = TCP_DATA_TRANSFER ∧ c1.clientNextSeq = 1004 ∧ c1.serverNextSeq = 5001 ∧
      c1.closingFlow = TcpIpFlow.zero ∧
      c1.ClientStreamRing = dataTransferExample.ClientStreamRing ∧
      c1.ServerStreamRing = dataTransferExample.ServerStreamRing) ∧
    (∃ c1, dataTransferExample.receivePacket ⟨false, true, true, true, 1002, 5001, [98, 99]⟩
        exampleFlow = Outcome.ok c1) ∧
    (∃ c1, dataTransferExample.receivePacket ⟨false, true, true, true, 2000, 5001, [1]⟩
        exampleFlow = Outcome.ok c1 ∧
      c1.state = TCP_DATA_TRANSFER ∧ c1.clientNextSeq = 1004 ∧ c1.serverNextSeq = 5001 ∧
      c1.closingFlow = TcpIpFlow.zero ∧
      c1.ClientStreamRing = dataTransferExample.ClientStreamRing ∧
      c1.ServerStreamRing = dataTransferExample.ServerStreamRing ∧
      c1.reports.filter Report.isInjection = []) :=
  ⟨(overlap_and_future_do_not_advance dataTransferExample
      ⟨false, true, true, true, 1002, 5001, [98, 99]⟩ exampleFlow rfl).1 (by decide),
    ⟨_, rfl⟩,
    (overlap_and_future_do_not_advance dataTransferExample
      ⟨false, true, true, true, 2000, 5001, [1]⟩ exampleFlow rfl).2 (by decide)⟩

/-! ## The range of the next-sequence values -/

/-- **C24 (evaluation).** A FIN at `seq == nextSeq == 0xFFFFFFFF` takes the
next-sequence value out of the 32-bit range.  After a handshake with client
initial sequence `0xFFFFFFFE` the client FIN at `0xFFFFFFFF` in DATA_TRANSFER
leaves `clientNextSeq = 2^32`; with the server side in FIN_WAIT2 and
`serverNextSeq = 0xFFFFFFFF` the server FIN+ACK at `0xFFFFFFFF` leaves
`serverNextSeq = 2^32`.  All packets have 32-bit header fields.  The same
FIN+ACK handled by `stateFinWait1`, which advances with `Add`, leaves
`serverNextSeq = 0`.  With the modular difference of the specification a
following packet with seq 0 still has difference 0 from `2^32`. -/
theorem fin_at_last_sequence_leaves_32_bit_range :
    (∀ x ∈ finWrapPackets, x.1.Seq < 4294967296 ∧ x.1.Ack < 4294967296) ∧
    NewConnection.receivePackets finWrapPackets = Outcome.ok finWrapExample ∧
    finWrapExample.clientNextSeq = 4294967296 ∧
    ¬ (finWrapExample.clientNextSeq < 4294967296) ∧
    (∀ x ∈ finWait2Packets, x.1.Seq < 4294967296 ∧ x.1.Ack < 4294967296) ∧
    NewConnection.receivePackets finWait2Packets = Outcome.ok finWait2Example ∧
    finWait2Example.receivePacket ⟨false, true, true, false, 4294967295, 1002, []⟩
        exampleFlow.Reverse =
      Outcome.ok { finWait2Example with
        serverNextSeq := 4294967296, serverState := TCP_TIME_WAIT, packetCount := 6 } ∧
    finWait1Example.receivePacket ⟨false, true, true, false, 4294967295, 1002, []⟩
        exampleFlow.Reverse =
      Outcome.ok { finWait1Example with
        serverNextSeq := 0, serverState := TCP_CLOSING, clientState := TCP_LAST_ACK,
        packetCount := 5 } ∧
    Sequence.Difference 0 4294967296 = 0 := by
  decide

/-! ## Termination of the tail search -/

theorem Difference_lt (s t : Int) : Sequence.Difference s t < 2147483648 := by
  unfold Sequence.Difference signed32
  split_ifs <;> omega

theorem Difference_ge (s t : Int) : -2147483648 ≤ Sequence.Difference s t := by
  unfold Sequence.Difference signed32
  split_ifs <;> omega

/-- **C25.** The tail search does not return on a full ring when the end lies
beyond the newest segment: for every ring without an empty cell that holds
contiguous non-empty segments, oldest first from the ring pointer, every
populated head cell and every end sequence at or after the sequence number that
follows the newest stored byte, the loop of `getTailFromRing` is still running
after any number of iterations, and `getTailFromRing` does not return. -/
theorem tail_search_never_returns_on_full_ring (segs : List Reassembly)
    (hc : Contiguous segs = true) (hne : ∀ s ∈ segs, s.Bytes ≠ []) (sb : Reassembly)
    (h0 : segs[0]? = some sb) (end_ : Int)
    (hbeyond : (((segs.map (fun s => s.Bytes)).flatten).length : Int) ≤
      Sequence.Difference sb.Seq end_)
    (head : Nat) (hhead : head < segs.length) :
    (∀ fuel, getTailLoop (segs.map some) end_ fuel head = .error Fault.noReturn) ∧
      getTailFromRing (segs.map some) head end_ = .error Fault.noReturn := by
  have key : ∀ fuel, getTailLoop (segs.map some) end_ fuel head = .error Fault.noReturn := by
    intro fuel
    have h := getTailLoop_diverges 0 segs rfl hc hne sb h0 end_ _ (SeqAt_Difference sb.Seq end_)
      (Difference_lt _ _) hbeyond fuel head segs[head] (List.getElem?_eq_getElem hhead)
    rw [Nat.zero_add] at h
    exact h
  exact ⟨key, key _⟩

theorem tail_search_never_returns_on_full_ring_witness :
    fullRingExample = fortySegments.map some ∧
    getHeadFromRing fullRingExample 1039 1045 = .ok (some 39) ∧
    ((∀ fuel, getTailLoop (fortySegments.map some) 1045 fuel 39 = .error Fault.noReturn) ∧
      getTailFromRing (fortySegments.map some) 39 1045 = .error Fault.noReturn) ∧
    fullConnectionExample.receivePacket ⟨false, true, false, false, 1040, 5001, [39, 1]⟩
        exampleFlow =
      Outcome.abort Fault.noReturn { fullConnectionExample with packetCount := 44 } :=
  ⟨by decide, by decide,
    tail_search_never_returns_on_full_ring fortySegments (by decide) (by decide)
      { Start := false, End := false, Seq := 1000, Bytes := [0] } (by decide) 1045 (by decide)
      39 (by decide),
    by decide⟩

/-! ## Overlap slicing stays in bounds -/

/-- An empty incoming range: the search finds a head only when `start` lies in
a stored segment, the tail is the head, and nothing is extracted. -/
theorem overlap_empty_layout (e : Nat) (segs : List Reassembly)
    (hc : Contiguous segs = true) (hne : ∀ s ∈ segs, s.Bytes ≠ []) (sb : Reassembly)
    (h0 : segs[0]? = some sb) (start end_ : Int) (head tail : Nat)
    (hE : SeqAt sb.Seq end_ (Sequence.Difference sb.Seq start - 1))
    (hw1 : (((segs.map (fun s => s.Bytes)).flatten).length : Int) -
      Sequence.Difference sb.Seq start < 2147483648)
    (hfound : getOverlapRingsOn (List.replicate e none ++ segs.map some) start end_ =
      .ok (some (head, tail))) :
    getOverlapBytes (List.replicate e none ++ segs.map some) (some head) (some tail) start end_ =
      .ok ([], 0, 0) := by
  have hS := SeqAt_Difference sb.Seq start
  have hSlt := Difference_lt sb.Seq start
  generalize Sequence.Difference sb.Seq start = S at *
  unfold getOverlapRingsOn at hfound
  cases hh : getHeadFromRing (List.replicate e none ++ segs.map some) start end_ with
  | error err => simp [hh] at hfound
  | ok ho =>
    cases ho with
    | none => simp [hh] at hfound
    | some h1 =>
      simp only [hh] at hfound
      obtain ⟨hv, hhv, hcase⟩ := getHeadFromRing_some _ start _ h1 hh
      obtain ⟨a, rfl, ha⟩ := valueAt_layout_some e segs h1 hv hhv
      have hba := segment_bounds segs hne a hv ha
      have hpa := segment_SeqAt segs hc sb h0 a hv ha
      have hla := segment_last_SeqAt segs hc sb h0 a hv ha
      have hal := getElem?_lt segs a hv ha
      have d1 : Sequence.Difference hv.Seq start = S - (bytesBefore segs a : Int) := by
        apply Difference_of_SeqAt sb.Seq _ _ _ _ hpa hS <;> omega
      have d2 : Sequence.Difference start (getRingSegmentLastSequence hv) =
          (bytesBefore segs a : Int) + ((hv.Bytes.length : Int) - 1) - S := by
        apply Difference_of_SeqAt sb.Seq _ _ _ _ hS hla <;> omega
      have d3 : Sequence.Difference hv.Seq end_ = S - 1 - (bytesBefore segs a : Int) := by
        apply Difference_of_SeqAt sb.Seq _ _ _ _ hpa hE <;> omega
      have d4 : Sequence.Difference (getRingSegmentLastSequence hv) end_ =
          S - 1 - ((bytesBefore segs a : Int) + ((hv.Bytes.length : Int) - 1)) := by
        apply Difference_of_SeqAt sb.Seq _ _ _ _ hla hE <;> omega
      have d5 : Sequence.Difference end_ (getRingSegmentLastSequence hv) =
          (bytesBefore segs a : Int) + ((hv.Bytes.length : Int) - 1) - (S - 1) := by
        apply Difference_of_SeqAt sb.Seq _ _ _ _ hE hla <;> omega
      rw [d1, d2, d3] at hcase
      have hin1 : (bytesBefore segs a : Int) ≤ S := by omega
      have hin2 : S ≤ (bytesBefore segs a : Int) + ((hv.Bytes.length : Int) - 1) := by omega
      have ht : getTailFromRing (List.replicate e none ++ segs.map some) (e + a) end_ =
          .ok (e + a) := by
        unfold getTailFromRing
        have hlen : (List.replicate e none ++ segs.map some).length =
            (e + segs.length - 1) + 1 := by
          simp only [List.length_append, List.length_replicate, List.length_map]
          omega
        rw [hlen]
        unfold getTailLoop
        rw [hhv]
        simp only []
        rw [if_pos (by rw [d4]; omega)]
      rw [ht] at hfound
      have hfound2 : e + a = head ∧ e + a = tail := by
        simpa using hfound
      obtain ⟨rfl, h2⟩ := hfound2
      subst h2
      have hss : getStartSequence hv start = start := by
        unfold getStartSequence
        rw [d1]
        exact if_pos (by omega)
      have hes : getEndSequence hv end_ = end_ := by
        unfold getEndSequence
        rw [d4]
        exact if_pos (by omega)
      unfold getOverlapBytes
      simp only [hhv, getStartOverlapSequenceAndOffset, getHeadRingOffset,
        getEndOverlapSequenceAndOffset, getTailRingOffset, hss, hes, Difference_self, d1, d5]
      rw [if_pos trivial]
      unfold sliceBytes
      rw [if_pos (by omega)]
      simp only []
      congr 2
      · apply List.eq_nil_of_length_eq_zero
        simp only [List.length_drop, List.length_take]
        omega
      · refine Prod.ext rfl ?_
        simp only []
        omega

/-- A non-empty incoming range: the offsets returned by the extraction lie in
the payload and the extracted bytes are as many as the offsets span. -/
theorem overlap_bounds_layout (e : Nat) (segs : List Reassembly)
    (hc : Contiguous segs = true) (hne : ∀ s ∈ segs, s.Bytes ≠ []) (sb : Reassembly)
    (h0 : segs[0]? = some sb) (start : Int) (L head tail : Nat) (hL : 0 < L)
    (hT : (((segs.map (fun s => s.Bytes)).flatten).length : Int) ≤ 2147483648)
    (hLmax : (L : Int) ≤ 2147483648)
    (hw1 : (((segs.map (fun s => s.Bytes)).flatten).length : Int) -
      Sequence.Difference sb.Seq start ≤ 2147483648)
    (hw2 : Sequence.Difference sb.Seq start + (L : Int) ≤ 2147483648)
    (hfound : getOverlapRingsOn (List.replicate e none ++ segs.map some) start
      (Sequence.Add start ((L : Int) - 1)) = .ok (some (head, tail))) :
    ∃ (overlapBytes : List Byte) (startOffset endOffset : Int),
      getOverlapBytes (List.replicate e none ++ segs.map some) (some head) (some tail) start
          (Sequence.Add start ((L : Int) - 1)) = .ok (overlapBytes, startOffset, endOffset) ∧
        0 ≤ startOffset ∧ startOffset ≤ endOffset ∧ endOffset ≤ (L : Int) ∧
        (overlapBytes.length : Int) = endOffset - startOffset := by
  obtain ⟨a, b, hv, tv, rfl, rfl, hab, ha, hb, hS1, hE1⟩ :=
    search_found e segs hc hne sb h0 start L _ _ hL hLmax hw1 hw2 hfound
  have hba := segment_bounds segs hne a hv ha
  have hbb := segment_bounds segs hne b tv hb
  have hmono := bytesBefore_mono segs a b hab
  have hlast : bytesBefore segs a + hv.Bytes.length ≤ bytesBefore segs b + tv.Bytes.length := by
    rcases Nat.lt_or_ge a b with hlt | hge
    · have := bytesBefore_lt segs a b hv ha hlt
      omega
    · have hab2 : a = b := by omega
      subst hab2
      rw [ha] at hb
      cases hb
      exact Nat.le_refl _
  obtain ⟨u, hu⟩ : ∃ u : Int,
      u = max (bytesBefore segs a : Int) (Sequence.Difference sb.Seq start) := ⟨_, rfl⟩
  obtain ⟨v, hv1⟩ : ∃ v : Int,
      v = min ((bytesBefore segs b : Int) + ((tv.Bytes.length : Int) - 1))
        (Sequence.Difference sb.Seq start + ((L : Int) - 1)) := ⟨_, rfl⟩
  have hres := overlap_bytes_layout e segs hc hne sb h0 start L hL hT hLmax hw1 hw2 a b hv tv
    hab ha hb hS1 hE1 u v hu hv1
  refine ⟨_, _, _, hres, ?_, ?_, ?_, ?_⟩
  · omega
  · omega
  · omega
  · simp only [List.length_take, List.length_drop]
    omega

/-- **C26.** Overlap slicing is in bounds: on a ring of contiguous non-empty
segments, for an incoming packet with sequence number `start` and a payload of
any length (the empty payload included) and the `(head, tail)` found by the
search of `getOverlapRings`, `getOverlapBytes` returns normally, so that none
of the panics of `getRingSlice` and no slice expression out of range is
reached; the returned offsets satisfy
`0 <= startOffset <= endOffset <= len(payload)`, the returned bytes are
`endOffset - startOffset` many, and the slice `payload[startOffset:endOffset]`
of `detectInjection` is in range.  The stored stream and the incoming range lie
within a window of 2^31 sequence numbers, in which `Difference` orders sequence
numbers. -/
theorem overlap_slicing_in_bounds (r : Ring) (start : Int) (payload : List Byte)
    (head tail : Nat) (hr : RingContiguous r)
    (hT : (r.stream.length : Int) ≤ 2147483648)
    (hLmax : (payload.length : Int) ≤ 2147483648)
    (hw1 : (r.stream.length : Int) - r.position start < 2147483648)
    (hw2 : r.position start + (payload.length : Int) ≤ 2147483648)
    (hfound : getOverlapRingsOn r start (Sequence.Add start ((payload.length : Int) - 1)) =
      .ok (some (head, tail))) :
    ∃ (overlapBytes : List Byte) (startOffset endOffset : Int) (attempt : List Byte),
      getOverlapBytes r (some head) (some tail) start
          (Sequence.Add start ((payload.length : Int) - 1)) =
        .ok (overlapBytes, startOffset, endOffset) ∧
      0 ≤ startOffset ∧ startOffset ≤ endOffset ∧ endOffset ≤ (payload.length : Int) ∧
      (overlapBytes.length : Int) = endOffset - startOffset ∧
      sliceBytes payload startOffset endOffset = .ok attempt ∧
      attempt.length = overlapBytes.length := by
  obtain ⟨hlay, hne, hc⟩ := hr
  unfold Ring.position Ring.stream at *
  generalize hs : r.segments = segs at *
  generalize he : r.length - segs.length = e at hlay
  subst hlay
  obtain ⟨hv0, hhv0⟩ := found_head_value _ _ _ _ _ hfound
  obtain ⟨j0, _, hj0⟩ := valueAt_layout_some e segs head hv0 hhv0
  have hlen := getElem?_lt segs j0 hv0 hj0
  obtain ⟨sb, h0⟩ : ∃ sb, segs[0]? = some sb :=
    ⟨segs[0], List.getElem?_eq_getElem (by omega)⟩
  have hhead : segs.head? = some sb := by
    rw [List.head?_eq_getElem?]; exact h0
  simp only [hhead] at hw1 hw2
  clear hhv0 hj0 hhead he hs
  have key : ∃ (overlapBytes : List Byte) (startOffset endOffset : Int),
      getOverlapBytes (List.replicate e none ++ segs.map some) (some head) (some tail) start
          (Sequence.Add start ((payload.length : Int) - 1)) =
        .ok (overlapBytes, startOffset, endOffset) ∧
      0 ≤ startOffset ∧ startOffset ≤ endOffset ∧ endOffset ≤ (payload.length : Int) ∧
      (overlapBytes.length : Int) = endOffset - startOffset := by
    rcases Nat.eq_zero_or_pos payload.length with hz | hpos
    · have hE := SeqAt_Add sb.Seq start _ ((payload.length : Int) - 1)
        (SeqAt_Difference sb.Seq start)
      have hE2 : Sequence.Difference sb.Seq start + ((payload.length : Int) - 1) =
          Sequence.Difference sb.Seq start - 1 := by omega
      rw [hE2] at hE
      have hres := overlap_empty_layout e segs hc hne sb h0 start _ head tail hE hw1 hfound
      exact ⟨[], 0, 0, hres, by omega, by omega, by omega, by simp⟩
    · exact overlap_bounds_layout e segs hc hne sb h0 start payload.length head tail hpos hT
        hLmax (by omega) hw2 hfound
  obtain ⟨ob, so, eo, hres, b1, b2, b3, b4⟩ := key
  refine ⟨ob, so, eo, (payload.take eo.toNat).drop so.toNat, hres, b1, b2, b3, b4, ?_, ?_⟩
  · unfold sliceBytes
    rw [if_pos ⟨b1, b2, b3⟩]
  · simp only [List.length_take, List.length_drop]
    omega

theorem overlap_slicing_in_bounds_witness :
    (∃ (overlapBytes : List Byte) (startOffset endOffset : Int) (attempt : List Byte),
      getOverlapBytes abcRingExample (some 39) (some 39) 1002
          (Sequence.Add 1002 ((([] : List Byte).length : Int) - 1)) =
        .ok (overlapBytes, startOffset, endOffset) ∧
      0 ≤ startOffset ∧ startOffset ≤ endOffset ∧
      endOffset ≤ (([] : List Byte).length : Int) ∧
      (overlapBytes.length : Int) = endOffset - startOffset ∧
      sliceBytes [] startOffset endOffset = .ok attempt ∧
      attempt.length = overlapBytes.length) ∧
    getOverlapBytes abcRingExample (some 39) (some 39) 1002 1001 = .ok ([], 0, 0) ∧
    (∃ (overlapBytes : List Byte) (startOffset endOffset : Int) (attempt : List Byte),
      getOverlapBytes abcRingExample (some 39) (some 39) 999
          (Sequence.Add 999 ((([1, 2, 97, 98] : List Byte).length : Int) - 1)) =
        .ok (overlapBytes, startOffset, endOffset) ∧
      0 ≤ startOffset ∧ startOffset ≤ endOffset ∧
      endOffset ≤ (([1, 2, 97, 98] : List Byte).length : Int) ∧
      (overlapBytes.length : Int) = endOffset - startOffset ∧
      sliceBytes [1, 2, 97, 98] startOffset endOffset = .ok attempt ∧
      attempt.length = overlapBytes.length) ∧
    getOverlapBytes abcRingExample (some 39) (some 39) 999 1002 = .ok ([97, 98], 2, 4) :=
  ⟨overlap_slicing_in_bounds abcRingExample 1002 [] 39 39 ⟨by decide, by decide, by decide⟩
      (by decide) (by decide) (by decide) (by decide) (by decide),
    by decide,
    overlap_slicing_in_bounds abcRingExample 999 [1, 2, 97, 98] 39 39
      ⟨by decide, by decide, by decide⟩
      (by decide) (by decide) (by decide) (by decide) (by decide),
    by decide⟩

/-! ## Flow rendering -/

theorem digitChar_digit : ∀ k, k < 10 →
    (Nat.digitChar k).isDigit = true ∧ (Nat.digitChar k).toNat - 48 = k := by
  decide

theorem decimalLoop_digits : ∀ (fuel n : Nat) (acc : List Char),
    (∀ ch ∈ acc, ch.isDigit = true) → ∀ ch ∈ decimalLoop fuel n acc, ch.isDigit = true := by
  intro fuel
  induction fuel with
  | zero => intro n acc h; exact h
  | succ k ih =>
    intro n acc h
    have hd := (digitChar_digit (n % 10) (Nat.mod_lt _ (by decide))).1
    have h2 : ∀ ch ∈ Nat.digitChar (n % 10) :: acc, ch.isDigit = true := by
      intro ch hch
      rcases List.mem_cons.mp hch with rfl | hm
      · exact hd
      · exact h ch hm
    unfold decimalLoop
    split_ifs
    · exact h2
    · exact ih _ _ h2

theorem decimal_digits (n : Nat) : ∀ ch ∈ decimal n, ch.isDigit = true :=
  decimalLoop_digits _ _ [] (by intro ch hch; cases hch)

theorem decimalLoop_value : ∀ (fuel n : Nat) (acc : List Char), n < fuel →
    (decimalLoop fuel n acc).foldl (fun a ch => 10 * a + (ch.toNat - 48)) 0 =
      acc.foldl (fun a ch => 10 * a + (ch.toNat - 48)) n := by
  intro fuel
  induction fuel with
  | zero => intro n acc h; omega
  | succ k ih =>
    intro n acc h
    have hd := (digitChar_digit (n % 10) (Nat.mod_lt _ (by decide))).2
    unfold decimalLoop
    split_ifs with h0
    · rw [List.foldl_cons, hd]
      congr 1
      omega
    · rw [ih (n / 10) _ (by omega), List.foldl_cons, hd]
      congr 1
      omega

theorem decimalValue_decimal (n : Nat) : decimalValue (decimal n) = n :=
  decimalLoop_value (n + 1) n [] (by omega)

theorem decimal_injective (m n : Nat) (h : decimal m = decimal n) : m = n := by
  rw [← decimalValue_decimal m, ← decimalValue_decimal n, h]

/-- Two texts that begin with digits up to the same separator, which is not a
digit, have the same digits and the same rest. -/
theorem split_at_separator (s : Char) (hs : s.isDigit = false) :
    ∀ (xs ys r r1 : List Char), (∀ ch ∈ xs, ch.isDigit = true) →
      (∀ ch ∈ ys, ch.isDigit = true) → xs ++ s :: r = ys ++ s :: r1 → xs = ys ∧ r = r1 := by
  intro xs
  induction xs with
  | nil =>
    intro ys r r1 _ hy h
    cases ys with
    | nil =>
      simp only [List.nil_append, List.cons.injEq, true_and] at h
      exact ⟨rfl, h⟩
    | cons y ys1 =>
      simp only [List.nil_append, List.cons_append, List.cons.injEq] at h
      have := hy y (List.mem_cons_self _ _)
      rw [← h.1, hs] at this
      cases this
  | cons x xs1 ih =>
    intro ys r r1 hx hy h
    cases ys with
    | nil =>
      simp only [List.nil_append, List.cons_append, List.cons.injEq] at h
      have := hx x (List.mem_cons_self _ _)
      rw [h.1, hs] at this
      cases this
    | cons y ys1 =>
      simp only [List.cons_append, List.cons.injEq] at h
      obtain ⟨h1, h2⟩ := ih ys1 r r1 (fun ch hch => hx ch (List.mem_cons_of_mem _ hch))
        (fun ch hch => hy ch (List.mem_cons_of_mem _ hch)) h.2
      exact ⟨by rw [h.1, h1], h2⟩

theorem decimal_split (s : Char) (hs : s.isDigit = false) (m n : Nat) (r r1 : List Char)
    (h : decimal m ++ s :: r = decimal n ++ s :: r1) : m = n ∧ r = r1 := by
  obtain ⟨h1, h2⟩ := split_at_separator s hs _ _ r r1 (decimal_digits m) (decimal_digits n) h
  exact ⟨decimal_injective m n h1, h2⟩

theorem chars_injective (f g : TcpIpFlow) (h : f.chars = g.chars) : f = g := by
  obtain ⟨⟨a, b, c, d⟩, P, ⟨w, x, y, z⟩, Q⟩ := f
  obtain ⟨⟨a1, b1, c1, d1⟩, P1, ⟨w1, x1, y1, z1⟩, Q1⟩ := g
  unfold TcpIpFlow.chars at h
  simp only [] at h
  have e0 := decimal_split '.' (by decide) _ _ _ _ h
  obtain ⟨rfl, k0⟩ := e0
  have e1 := decimal_split '.' (by decide) _ _ _ _ k0
  obtain ⟨rfl, k1⟩ := e1
  have e2 := decimal_split '.' (by decide) _ _ _ _ k1
  obtain ⟨rfl, k2⟩ := e2
  have e3 := decimal_split ':' (by decide) _ _ _ _ k2
  obtain ⟨rfl, k3⟩ := e3
  have e4 := decimal_split '-' (by decide) _ _ _ _ k3
  obtain ⟨rfl, k4⟩ := e4
  have e5 := decimal_split '.' (by decide) _ _ _ _ k4
  obtain ⟨rfl, k5⟩ := e5
  have e6 := decimal_split '.' (by decide) _ _ _ _ k5
  obtain ⟨rfl, k6⟩ := e6
  have e7 := decimal_split '.' (by decide) _ _ _ _ k6
  obtain ⟨rfl, k7⟩ := e7
  have e8 := decimal_split ':' (by decide) _ _ _ _ k7
  obtain ⟨rfl, k8⟩ := e8
  have := decimal_injective _ _ k8
  subst this
  rfl

/-- **C21.** Flow rendering: the rendering of the flow with source address
`A.B.C.D`, source port `P`, destination address `W.X.Y.Z` and destination port
`Q` is the text `A.B.C.D:P-W.X.Y.Z:Q`, the source on the left, every number
written in decimal (digits only, and the digits write the number); two flows
render identically exactly when they are equal, so flows that differ in any
component render differently; the flow 1.2.3.4 port 1 to 2.3.4.5 port 2
renders `1.2.3.4:1-2.3.4.5:2`. -/
theorem flow_rendering :
    (∀ (a b c d P w x y z Q : Nat),
      TcpIpFlow.String
          { srcIP := ⟨a, b, c, d⟩, srcPort := P, dstIP := ⟨w, x, y, z⟩, dstPort := Q } =
        String.mk (decimal a ++ ['.'] ++ decimal b ++ ['.'] ++ decimal c ++ ['.'] ++ decimal d ++
          [':'] ++ decimal P ++ ['-'] ++ decimal w ++ ['.'] ++ decimal x ++ ['.'] ++
          decimal y ++ ['.'] ++ decimal z ++ [':'] ++ decimal Q)) ∧
    (∀ n : Nat, (∀ ch ∈ decimal n, ch.isDigit = true) ∧ decimalValue (decimal n) = n) ∧
    (∀ f g : TcpIpFlow, f.String = g.String ↔ f = g) ∧
    exampleFlow.String = "1.2.3.4:1-2.3.4.5:2" ∧
    exampleFlow.Reverse.String = "2.3.4.5:2-1.2.3.4:1" ∧
    TcpIpFlow.String
        { srcIP := ⟨10, 0, 0, 255⟩, srcPort := 65535, dstIP := ⟨192, 168, 1, 1⟩, dstPort := 80 } =
      "10.0.0.255:65535-192.168.1.1:80" := by
  refine ⟨?_, ?_, ?_, ?_, ?_, ?_⟩
  · intro a b c d P w x y z Q
    simp only [TcpIpFlow.String, TcpIpFlow.chars, List.append_assoc, List.singleton_append,
      List.cons_append, List.nil_append]
  · intro n
    exact ⟨decimal_digits n, decimalValue_decimal n⟩
  · intro f g
    constructor
    · intro h
      apply chars_injective
      exact congrArg String.data h
    · intro h
      rw [h]
  · decide
  · decide
  · decide

end HoneyBadger
